import Mathlib

/-!
# GEVGDriver: event-generation driver

A shallow embedding of `src/EVGDrivers/GEVGDriver.cxx` and the properties of
its retry loop, cross-section sum, spline bookkeeping and energy range.

Conventions of the embedding:
* `double` values are rationals (`ℚ`) and arithmetic on them is exact, except in the knot
  energies of a tabulation, where every operation is followed by the rounding `Rnd`
  (`roundDouble` is the rounding of IEEE-754 binary64);
* a pointer that may be null is an `Option`;
* a failed `assert` (and a null dereference) terminates the program: the
  operation yields `Except.error` and no later operation is run on the driver;
* an exception thrown by a collaborator of `GenerateEvent` leaves the call
  (`Abort.exceptionPropagated`); the driver stays usable, in the state the call left;
* the process-wide `XSecSplineList` singleton is passed explicitly;
* collaborators whose sources are not part of `GEVGDriver.cxx` (selector,
  responsibility chain, record visitors, numerical spline, controls) are
  parameters or are modelled from the specification, as marked.
-/

namespace genie

/-! ## Data model -/

/-- The ROOT 4-vector `TLorentzVector` as (px, py, pz, E). -/
structure TLorentzVector where
  Px : ℚ
  Py : ℚ
  Pz : ℚ
  E : ℚ
deriving DecidableEq

/-- Energy component, `TLorentzVector::Energy()`. -/
def TLorentzVector.Energy (p : TLorentzVector) : ℚ := p.E

/-- `TLorentzVector::SetPxPyPzE`. -/
def TLorentzVector.SetPxPyPzE (_p : TLorentzVector) (px py pz e : ℚ) : TLorentzVector :=
  ⟨px, py, pz, e⟩

/-- Modelled from the spec: the nuclear target (Z, A) of an initial state
(Interaction/Target.h is not among the sources). -/
structure Target where
  Z : Int
  A : Int
deriving DecidableEq

/-- Modelled from the spec: `InitialState` (Interaction/InitialState.h is not among the
sources): probe type identifier, target, and the probe 4-momentum set by `SetProbeP4`. -/
structure InitialState where
  fProbePdgC : Int
  fTgt : Target
  fProbeP4 : TLorentzVector
deriving DecidableEq

/-- `InitialState::SetProbeP4`. -/
def InitialState.SetProbeP4 (s : InitialState) (p : TLorentzVector) : InitialState :=
  { s with fProbeP4 := p }

/-- `InitialState::GetProbePDGCode`. -/
def InitialState.GetProbePDGCode (s : InitialState) : Int := s.fProbePdgC

/-- Modelled from the spec: the class `Interaction` (Interaction/Interaction.h is not
among the sources).  An interaction is an initial state plus process fields; it is
compared by its canonical string identity `AsString()`, kept here as the field `code`,
which does not include the probe 4-momentum. -/
structure Interaction where
  code : String
  fInitialState : InitialState
deriving DecidableEq

/-- `Interaction::AsString`. -/
def Interaction.AsString (i : Interaction) : String := i.code

/-- The effect of `interaction->GetInitialStatePtr()->SetProbeP4(p)`. -/
def Interaction.SetProbeP4 (i : Interaction) (p : TLorentzVector) : Interaction :=
  { i with fInitialState := i.fInitialState.SetProbeP4 p }

/-- Modelled from the spec: a cross-section algorithm `XSecAlgorithmI`
(Base/XSecAlgorithmI.h is not among the sources): an identity key and the external
function `XSec(interaction)`. -/
structure XSecAlgorithmI where
  Id : String
  XSec : Interaction → ℚ

/-- Modelled from the spec: the energy range `Range1D_t` with members `min` and `max`
(its declaration is not among the sources). -/
structure Range1D_t where
  min : ℚ
  max : ℚ
deriving DecidableEq

/-- Modelled from the spec: an event generator `EventGeneratorI`
(EVGCore/EventGeneratorI.h is not among the sources) as the driver consumes it: key,
validity context energy bounds, interaction-list generator (possibly null, and which may
return a null list), and total cross-section algorithm. -/
structure EventGeneratorI where
  Id : String
  Emin : ℚ
  Emax : ℚ
  IntListGenerator : Option (InitialState → Option (List Interaction))
  CrossSectionAlg : XSecAlgorithmI

/-- Modelled from the spec: an event record (EVGCore/EventRecord.h is not among the
sources): the selected interaction and the flag read by `IsUnphysical()`. -/
structure EventRecord where
  fInteraction : Interaction
  fIsUnphysical : Bool
deriving DecidableEq

/-- `EventRecord::IsUnphysical`. -/
def EventRecord.IsUnphysical (r : EventRecord) : Bool := r.fIsUnphysical

/-- Modelled from the spec: a numerical spline `Spline(nk, E, xsec)` (Numerical/Spline.h
is not among the sources): the knot table. -/
structure Spline where
  nknots : Nat
  E : List ℚ
  xsec : List ℚ
deriving DecidableEq

/-- Modelled from the spec: `XSecAlgorithmMap` (EVGCore/XSecAlgorithmMap.h is not among
the sources): the interaction list in registration order, and the association from the
canonical interaction string to the cross-section algorithm. -/
structure XSecAlgorithmMap where
  fInteractionList : List Interaction
  fMap : List (String × XSecAlgorithmI)

/-- Modelled from the spec: the responsibility chain (EVGCore/EGResponsibilityChain.h is
not among the sources) holds the generator list it scans. -/
structure EGResponsibilityChain where
  fEVGenList : Option (List EventGeneratorI)

/-- Modelled from the spec: the interaction selector `PhysInteractionSelector(name)`
(EVGCore/PhysInteractionSelector.h is not among the sources). -/
structure PhysInteractionSelector where
  name : String
deriving DecidableEq

/-- The data members of `GEVGDriver`, as `Init` sets them; the counter `fNRecLevel` is a
natural number. -/
structure GEVGDriver where
  fInitState : Option InitialState
  fCurrentRecord : Option EventRecord
  fEvGenList : Option (List EventGeneratorI)
  fIntSelector : Option PhysInteractionSelector
  fChain : Option EGResponsibilityChain
  fUseSplines : Bool
  fNRecLevel : Nat
  fXSecAlgorithmMap : Option XSecAlgorithmMap
  fXSecSumSpl : Option Spline
  fFilterUnphysical : Bool

/-- The ways an operation of the driver does not return.  A failed `assert` or a null
dereference terminates the program.  `exceptionPropagated` is an exception thrown by a
collaborator: no operation of the driver catches one, so it leaves the operation and
reaches the caller, who may catch it and go on using the driver. -/
inductive Abort where
  | nullPointer
  | noRecordSelected
  | noEventGenerator
  | regenerationDepthExceeded
  | noXSecAlgorithm
  | splinesNotLoaded
  | badKnots
  | badEnergyRange
  | notANeutrino
  | splineListError
  | exceptionPropagated
deriving DecidableEq

/-! ## Construction and flags -/

/-- `GEVGDriver::Init`. -/
def GEVGDriver.Init : GEVGDriver :=
  { fInitState := none
    fCurrentRecord := none
    fEvGenList := none
    fIntSelector := none
    fChain := none
    fUseSplines := false
    fNRecLevel := 0
    fXSecAlgorithmMap := none
    fXSecSumSpl := none
    fFilterUnphysical := true }

/-- `GEVGDriver::Reset`: `CleanUp` releases the owned objects, `Init` overwrites every
member. -/
def GEVGDriver.Reset (_d : GEVGDriver) : GEVGDriver := GEVGDriver.Init

/-- `GEVGDriver::FilterUnphysical`. -/
def GEVGDriver.FilterUnphysical (d : GEVGDriver) (on_off : Bool) : GEVGDriver :=
  { d with fFilterUnphysical := on_off }

/-! ## Event generation -/

/-- What one pass of `GenerateEvent` obtains from its collaborators: the selector
returns no record; or a record is selected but the chain finds no generator; or the
record is processed by the generator found; or a collaborator throws, the selector
before a record is assigned (`threw none`), the chain or the record processing after the
record `rec` has been assigned (`threw (some rec)`). -/
inductive Attempt where
  | noRecord
  | noGenerator (rec : EventRecord)
  | processed (rec : EventRecord)
  | threw (rec : Option EventRecord)
deriving DecidableEq

/-- Result of `GenerateEvent`: the driver when the call returns, aborts or is left by an
exception, how many passes of the collaborators have been consumed, and the returned
record or the failure. -/
structure GenResult where
  driver : GEVGDriver
  attempts : Nat
  value : Except Abort EventRecord

/-- Members dereferenced by `GenerateEvent` are set. -/
def GEVGDriver.CanGenerate (d : GEVGDriver) : Bool :=
  d.fInitState.isSome && d.fIntSelector.isSome && d.fChain.isSome

/-- `GEVGDriver::GenerateEvent`.  `maxDepth` is `kRecursiveModeMaxDepth`
(Conventions/Controls.h); `w k` is what the `k`-th pass of selector, chain and record
processing yields for the probe 4-momentum of the call, which only they receive; `k`
counts the passes already made by the enclosing calls.  A call on a driver whose
initial state, selector or chain is null dereferences a null pointer before any pass.
There is no `try` in the function: an exception of a collaborator leaves it, and every
enclosing recursive call, with the members as assigned so far, `fNRecLevel` included.
The recursion decreases `maxDepth - fNRecLevel`. -/
def GEVGDriver.GenerateEvent (maxDepth : Nat) (w : Nat → Attempt) (d : GEVGDriver)
    (k : Nat) : GenResult :=
  if d.CanGenerate = false then ⟨d, k, .error .nullPointer⟩
  else
    match w k with
    | .noRecord => ⟨{ d with fCurrentRecord := none }, k + 1, .error .noRecordSelected⟩
    | .noGenerator r => ⟨{ d with fCurrentRecord := some r }, k + 1, .error .noEventGenerator⟩
    | .processed r =>
      if d.fFilterUnphysical = false then ⟨{ d with fCurrentRecord := some r }, k + 1, .ok r⟩
      else if r.IsUnphysical = true then
        let d1 : GEVGDriver := { d with fCurrentRecord := none, fNRecLevel := d.fNRecLevel + 1 }
        if d1.fNRecLevel ≤ maxDepth then GEVGDriver.GenerateEvent maxDepth w d1 (k + 1)
        else ⟨d1, k + 1, .error .regenerationDepthExceeded⟩
      else ⟨{ d with fCurrentRecord := some r, fNRecLevel := 0 }, k + 1, .ok r⟩
    | .threw none => ⟨d, k + 1, .error .exceptionPropagated⟩
    | .threw (some r) => ⟨{ d with fCurrentRecord := some r }, k + 1, .error .exceptionPropagated⟩
termination_by maxDepth - d.fNRecLevel
decreasing_by
  simp_wf
  rename_i h
  simp only [d1] at h ⊢
  omega

/-! ## The interaction to algorithm map and the spline list -/

/-- Modelled from the spec: `XSecAlgorithmMap::GetInteractionList`, all registered
interactions. -/
def XSecAlgorithmMap.GetInteractionList (m : XSecAlgorithmMap) : List Interaction :=
  m.fInteractionList

/-- Modelled from the spec: `XSecAlgorithmMap::FindXSecAlgorithm`, exact-key lookup by
the canonical string; null when the key is absent. -/
def XSecAlgorithmMap.FindXSecAlgorithm (m : XSecAlgorithmMap) (i : Interaction) :
    Option XSecAlgorithmI :=
  m.fMap.lookup i.AsString

/-- Modelled from the spec: the step of `BuildMap` that records one interaction of a
generator: the key is associated to the algorithm unless already present (an association
list searched from the front), the interaction is appended to the list. -/
def XSecAlgorithmMap.insert (m : XSecAlgorithmMap) (i : Interaction) (alg : XSecAlgorithmI) :
    XSecAlgorithmMap :=
  ⟨m.fInteractionList ++ [i], m.fMap ++ [(i.AsString, alg)]⟩

/-- Modelled from the spec: the part of `BuildMap` run for one generator; a generator
without an interaction list is skipped. -/
def XSecAlgorithmMap.addGenerator (init_state : InitialState) (m : XSecAlgorithmMap)
    (evgen : EventGeneratorI) : XSecAlgorithmMap :=
  match evgen.IntListGenerator with
  | none => m
  | some ilstgen =>
    match ilstgen init_state with
    | none => m
    | some ilst => ilst.foldl (fun m1 i => m1.insert i evgen.CrossSectionAlg) m

/-- Modelled from the spec: `XSecAlgorithmMap::BuildMap` over the generator list given
by `UseGeneratorList`: for each module, invoke its interaction-list generator with the
initial state; for every interaction yielded, record the mapping from the interaction
to the module's cross-section algorithm; a module without a list is skipped. -/
def XSecAlgorithmMap.BuildMap (evgl : List EventGeneratorI) (init_state : InitialState) :
    XSecAlgorithmMap :=
  evgl.foldl (XSecAlgorithmMap.addGenerator init_state) ⟨[], []⟩

/-- Modelled from the spec: the process-wide spline cache `XSecSplineList`
(Utils/XSecSplineList.h is not among the sources): splines keyed by (algorithm identity,
canonical interaction identity), and the log-energy flag set by `SetLogE`. -/
structure XSecSplineList where
  fUseLogE : Bool
  fSplineMap : List ((String × String) × Spline)

/-- Modelled from the spec: the key of a spline in `XSecSplineList`: algorithm identity
and canonical interaction identity. -/
def XSecSplineList.BuildSplineKey (alg : XSecAlgorithmI) (i : Interaction) : String × String :=
  (alg.Id, i.AsString)

/-- Modelled from the spec: `XSecSplineList::SetLogE`, the spacing used by later
tabulations. -/
def XSecSplineList.SetLogE (xsl : XSecSplineList) (on_off : Bool) : XSecSplineList :=
  { xsl with fUseLogE := on_off }

/-- Modelled from the spec: `XSecSplineList::GetSpline`, null when absent. -/
def XSecSplineList.GetSpline (xsl : XSecSplineList) (alg : XSecAlgorithmI) (i : Interaction) :
    Option Spline :=
  xsl.fSplineMap.lookup (XSecSplineList.BuildSplineKey alg i)

/-- Modelled from the spec: `XSecSplineList::SplineExists`, identity lookup, no side
effects. -/
def XSecSplineList.SplineExists (xsl : XSecSplineList) (alg : XSecAlgorithmI)
    (i : Interaction) : Bool :=
  (xsl.GetSpline alg i).isSome

/-! ## Rounding to double precision -/

/-- The loop of `ilog2`: halve `n` until it is below 2, at most `fuel` times. -/
def log2Fuel : Nat → Nat → Nat
  | 0, _ => 0
  | fuel + 1, n => if n < 2 then 0 else log2Fuel fuel (n / 2) + 1

/-- The position of the leading bit of `n`: `2 ^ ilog2 n ≤ n < 2 ^ (ilog2 n + 1)`. -/
def ilog2 (n : Nat) : Nat := log2Fuel n n

/-- The integer nearest to `x`; a tie goes to the even one. -/
def roundHalfEven (x : ℚ) : Int :=
  if 2 * (x - (⌊x⌋ : Int)) < 1 then ⌊x⌋
  else if 1 < 2 * (x - (⌊x⌋ : Int)) then ⌊x⌋ + 1
  else if ⌊x⌋ % 2 = 0 then ⌊x⌋ else ⌊x⌋ + 1

/-- The binary exponent of a positive `x`: `2 ^ e ≤ x < 2 ^ (e + 1)`. -/
def binaryExponent (x : ℚ) : Int :=
  let c : Int := (ilog2 x.num.toNat : Int) - (ilog2 x.den : Int)
  if (2 : ℚ) ^ c ≤ x then c else c - 1

/-- A positive `x` rounded to the nearest value with a significand of 53 bits, a tie
going to the even significand. -/
def roundPos (x : ℚ) : ℚ :=
  (roundHalfEven (x / (2 : ℚ) ^ (binaryExponent x - 52)) : ℚ) * (2 : ℚ) ^ (binaryExponent x - 52)

/-- The rounding of IEEE-754 binary64 arithmetic (round to nearest, ties to even) with
the exponent range left unbounded: the `double` nearest to the exact result `x`. -/
def roundDouble (x : ℚ) : ℚ :=
  if x = 0 then 0
  else if 0 < x then roundPos x
  else - roundPos (-x)

/-! ## Tabulation of a spline -/

/-- Energy of knot `i` of a tabulation with `nk` knots over `[Emin, Emax]`, as computed in
`CreateXSecSumSpline`: `dE = (Emax-Emin)/(nk-1)` and `e = Emin + i*dE` (with logarithmic
spacing, `dE = (logEmax-logEmin)/(nk-1)` and `e = Exp(logEmin + i*dE)`).  `Rnd` is the
rounding that follows each arithmetic operation on `double` operands (the product and
the sum of `Emin + i*dE` are rounded one after the other); the conversions of `nk-1` and
`i` to `double` are exact.  `Log` and `Exp` stand for `TMath::Log` and `TMath::Exp`. -/
def knotEnergy (Rnd Log Exp : ℚ → ℚ) (inlogE : Bool) (nk : Int) (Emin Emax : ℚ) (i : Nat) : ℚ :=
  let logEmin : ℚ := if inlogE then Log Emin else 0
  let logEmax : ℚ := if inlogE then Log Emax else 0
  let dE : ℚ := if inlogE then Rnd (Rnd (logEmax - logEmin) / ((nk - 1 : Int) : ℚ))
                else Rnd (Rnd (Emax - Emin) / ((nk - 1 : Int) : ℚ))
  if inlogE then Exp (Rnd (logEmin + Rnd ((i : ℚ) * dE))) else Rnd (Emin + Rnd ((i : ℚ) * dE))

/-- Modelled from the spec: `XSecSplineList::CreateSpline`: requires `Emin < Emax`,
`Emin > 0` and more than two knots; skips an entry that already exists; otherwise
tabulates the algorithm directly at the knots (linearly or log-spaced) and stores the
table under the key of (algorithm, interaction). -/
def XSecSplineList.CreateSpline (Rnd Log Exp : ℚ → ℚ) (xsl : XSecSplineList) (alg : XSecAlgorithmI)
    (i : Interaction) (nknots : Int) (Emin Emax : ℚ) : Except Abort XSecSplineList :=
  if ¬ (Emin < Emax ∧ Emin > 0 ∧ nknots > 2) then .error .splineListError
  else if xsl.SplineExists alg i then .ok xsl
  else
    let E : List ℚ := (List.range nknots.toNat).map
      (knotEnergy Rnd Log Exp xsl.fUseLogE nknots Emin Emax)
    let xs : List ℚ := E.map (fun e => alg.XSec (i.SetProbeP4 ⟨0, 0, e, e⟩))
    .ok { xsl with fSplineMap :=
            xsl.fSplineMap ++ [(XSecSplineList.BuildSplineKey alg i, ⟨nknots.toNat, E, xs⟩)] }

/-! ## Configuration -/

/-- `GEVGDriver::AssertIsValidInitState`; `IsNeutrino` and `IsAntiNeutrino` are the
predicates of PDG/PDGUtils.h. -/
def GEVGDriver.AssertIsValidInitState (IsNeutrino IsAntiNeutrino : Int → Bool)
    (d : GEVGDriver) : Except Abort Unit :=
  match d.fInitState with
  | none => .error .nullPointer
  | some init =>
    let nu_pdgc := init.GetProbePDGCode
    let isnu := IsNeutrino nu_pdgc || IsAntiNeutrino nu_pdgc
    if isnu then .ok () else .error .notANeutrino

/-- `GEVGDriver::BuildInitialState`. -/
def GEVGDriver.BuildInitialState (IsNeutrino IsAntiNeutrino : Int → Bool) (d : GEVGDriver)
    (init_state : InitialState) : Except Abort GEVGDriver :=
  let d1 : GEVGDriver := { d with fInitState := some init_state }
  match d1.AssertIsValidInitState IsNeutrino IsAntiNeutrino with
  | .error e => .error e
  | .ok _ => .ok d1

/-- `GEVGDriver::BuildGeneratorList`; `evgl` is the list that the
`EventGeneratorListAssembler` assembles for the name in `$GEVGL`. -/
def GEVGDriver.BuildGeneratorList (evgl : List EventGeneratorI) (d : GEVGDriver) : GEVGDriver :=
  { d with fEvGenList := some evgl }

/-- `GEVGDriver::BuildXSecAlgorithmMap`. -/
def GEVGDriver.BuildXSecAlgorithmMap (d : GEVGDriver) : Except Abort GEVGDriver :=
  match d.fInitState, d.fEvGenList with
  | some init, some evgl =>
    .ok { d with fXSecAlgorithmMap := some (XSecAlgorithmMap.BuildMap evgl init) }
  | _, _ => .error .nullPointer

/-- `GEVGDriver::BuildResponsibilityChain`. -/
def GEVGDriver.BuildResponsibilityChain (d : GEVGDriver) : GEVGDriver :=
  { d with fChain := some ⟨d.fEvGenList⟩ }

/-- `GEVGDriver::BuildInteractionSelector`. -/
def GEVGDriver.BuildInteractionSelector (d : GEVGDriver) : GEVGDriver :=
  { d with fIntSelector := some ⟨"Default"⟩ }

/-- `GEVGDriver::Configure(const InitialState &)`. -/
def GEVGDriver.Configure (IsNeutrino IsAntiNeutrino : Int → Bool) (evgl : List EventGeneratorI)
    (d : GEVGDriver) (init_state : InitialState) : Except Abort GEVGDriver :=
  match d.BuildInitialState IsNeutrino IsAntiNeutrino init_state with
  | .error e => .error e
  | .ok d1 =>
    match (d1.BuildGeneratorList evgl).BuildXSecAlgorithmMap with
    | .error e => .error e
    | .ok d3 => .ok d3.BuildResponsibilityChain.BuildInteractionSelector

/-! ## Cross-section sum -/

/-- The loop body and loop of `XSecSum` over the interaction list, carrying `xsec_sum`.
`Evaluate` is `Spline::Evaluate` (Numerical/Spline.h). -/
def GEVGDriver.XSecSumLoop (Evaluate : Spline → ℚ → ℚ) (xssl : XSecSplineList)
    (m : XSecAlgorithmMap) (fUseSplines : Bool) (nup4 : TLorentzVector) :
    List Interaction → ℚ → Except Abort ℚ
  | [], xsec_sum => .ok xsec_sum
  | it :: rest, xsec_sum =>
    let interaction := it.SetProbeP4 nup4
    match m.FindXSecAlgorithm interaction with
    | none => .error .noXSecAlgorithm
    | some xsec_alg =>
      let spline_exists := xssl.SplineExists xsec_alg interaction
      if spline_exists && fUseSplines then
        match xssl.GetSpline xsec_alg interaction with
        | none => .error .nullPointer
        | some spl =>
          GEVGDriver.XSecSumLoop Evaluate xssl m fUseSplines nup4 rest
            (xsec_sum + Evaluate spl nup4.Energy)
      else
        GEVGDriver.XSecSumLoop Evaluate xssl m fUseSplines nup4 rest
          (xsec_sum + xsec_alg.XSec interaction)

/-- `GEVGDriver::XSecSum`; the log statements, here and elsewhere, are not modelled. -/
def GEVGDriver.XSecSum (Evaluate : Spline → ℚ → ℚ) (xssl : XSecSplineList) (d : GEVGDriver)
    (nup4 : TLorentzVector) : Except Abort ℚ :=
  match d.fXSecAlgorithmMap with
  | none => .error .nullPointer
  | some m => GEVGDriver.XSecSumLoop Evaluate xssl m d.fUseSplines nup4 m.GetInteractionList 0

/-- The knot loop of `CreateXSecSumSpline`: knots `i, i+1, ...` for `n` more iterations,
as (energy, cross-section sum) pairs. -/
def GEVGDriver.XSecSumKnots (Rnd Log Exp : ℚ → ℚ) (Evaluate : Spline → ℚ → ℚ)
    (xssl : XSecSplineList) (d : GEVGDriver) (nk : Int) (Emin Emax : ℚ) (inlogE : Bool) :
    Nat → Nat → Except Abort (List (ℚ × ℚ))
  | 0, _ => .ok []
  | n + 1, i =>
    let e := knotEnergy Rnd Log Exp inlogE nk Emin Emax i
    let p4 := (⟨0, 0, 0, 0⟩ : TLorentzVector).SetPxPyPzE 0 0 e e
    match d.XSecSum Evaluate xssl p4 with
    | .error err => .error err
    | .ok xs =>
      match GEVGDriver.XSecSumKnots Rnd Log Exp Evaluate xssl d nk Emin Emax inlogE n (i + 1) with
      | .error err => .error err
      | .ok rest => .ok ((e, xs) :: rest)

/-- `GEVGDriver::CreateXSecSumSpline`. -/
def GEVGDriver.CreateXSecSumSpline (Rnd Log Exp : ℚ → ℚ) (Evaluate : Spline → ℚ → ℚ)
    (xssl : XSecSplineList) (d : GEVGDriver) (nk : Int) (Emin Emax : ℚ) (inlogE : Bool) :
    Except Abort GEVGDriver :=
  if d.fUseSplines = false then .error .splinesNotLoaded
  else if ¬ (Emin < Emax ∧ Emin > 0 ∧ nk > 2) then .error .badKnots
  else
    match GEVGDriver.XSecSumKnots Rnd Log Exp Evaluate xssl d nk Emin Emax inlogE nk.toNat 0 with
    | .error err => .error err
    | .ok knots =>
      .ok { d with fXSecSumSpl := some ⟨nk.toNat, knots.map Prod.fst, knots.map Prod.snd⟩ }

/-! ## Spline bookkeeping -/

/-- The loop of `UseSplines` over the interaction list. -/
def GEVGDriver.UseSplinesLoop (xsl : XSecSplineList) (m : XSecAlgorithmMap) :
    List Interaction → GEVGDriver → Except Abort GEVGDriver
  | [], d => .ok d
  | interaction :: rest, d =>
    match m.FindXSecAlgorithm interaction with
    | none => .error .noXSecAlgorithm
    | some xsec_alg =>
      let spl_exists := xsl.SplineExists xsec_alg interaction
      let d1 : GEVGDriver := { d with fUseSplines := d.fUseSplines && spl_exists }
      if !spl_exists then .ok d1
      else GEVGDriver.UseSplinesLoop xsl m rest d1

/-- `GEVGDriver::UseSplines`. -/
def GEVGDriver.UseSplines (xsl : XSecSplineList) (d : GEVGDriver) : Except Abort GEVGDriver :=
  let d1 : GEVGDriver := { d with fUseSplines := true }
  if d1.fUseSplines then
    match d1.fXSecAlgorithmMap with
    | none => .error .nullPointer
    | some m => GEVGDriver.UseSplinesLoop xsl m m.GetInteractionList d1
  else .ok d1

/-- A call `CreateSpline(alg, interaction, nknots, Emin, Emax)` issued to the spline list,
recorded by the keys of its algorithm and interaction. -/
structure SplineRequest where
  alg : String
  interaction : String
  nknots : Int
  Emin : ℚ
  Emax : ℚ
deriving DecidableEq

/-- The inner loop of `CreateSplines` over the interactions of one generator; the state is
the spline list and the record of the `CreateSpline` calls issued so far. -/
def GEVGDriver.CreateSplinesInner (Rnd Log Exp : ℚ → ℚ) (alg : XSecAlgorithmI) (Emin Emax : ℚ) :
    List Interaction → XSecSplineList × List SplineRequest →
      Except Abort (XSecSplineList × List SplineRequest)
  | [], st => .ok st
  | interaction :: rest, st =>
    let spl_exists := st.1.SplineExists alg interaction
    if !spl_exists then
      match st.1.CreateSpline Rnd Log Exp alg interaction 40 Emin Emax with
      | .error e => .error e
      | .ok xsl1 =>
        GEVGDriver.CreateSplinesInner Rnd Log Exp alg Emin Emax rest
          (xsl1, st.2 ++ [⟨alg.Id, interaction.AsString, 40, Emin, Emax⟩])
    else GEVGDriver.CreateSplinesInner Rnd Log Exp alg Emin Emax rest st

/-- The outer loop of `CreateSplines` over the event generators. -/
def GEVGDriver.CreateSplinesOuter (Rnd Log Exp : ℚ → ℚ) (d : GEVGDriver) :
    List EventGeneratorI → XSecSplineList × List SplineRequest →
      Except Abort (XSecSplineList × List SplineRequest)
  | [], st => .ok st
  | evgen :: rest, st =>
    match evgen.IntListGenerator with
    | none => .error .nullPointer
    | some ilstgen =>
      match d.fInitState with
      | none => .error .nullPointer
      | some init =>
        match ilstgen init with
        | none => GEVGDriver.CreateSplinesOuter Rnd Log Exp d rest st
        | some ilst =>
          let alg := evgen.CrossSectionAlg
          let Emin := max (1 / 100 : ℚ) evgen.Emin
          let Emax := evgen.Emax
          match GEVGDriver.CreateSplinesInner Rnd Log Exp alg Emin Emax ilst st with
          | .error e => .error e
          | .ok st1 => GEVGDriver.CreateSplinesOuter Rnd Log Exp d rest st1

/-- Result of `CreateSplines`: the driver, the spline list, and the `CreateSpline` calls
issued, in order. -/
structure CreateSplinesResult where
  driver : GEVGDriver
  splineList : XSecSplineList
  requests : List SplineRequest

/-- `GEVGDriver::CreateSplines`. -/
def GEVGDriver.CreateSplines (Rnd Log Exp : ℚ → ℚ) (xsl : XSecSplineList) (d : GEVGDriver)
    (useLogE : Bool) : Except Abort CreateSplinesResult :=
  let xsl0 := xsl.SetLogE useLogE
  match d.fEvGenList with
  | none => .error .nullPointer
  | some evgl =>
    match GEVGDriver.CreateSplinesOuter Rnd Log Exp d evgl (xsl0, []) with
    | .error e => .error e
    | .ok st => .ok ⟨{ d with fUseSplines := true }, st.1, st.2⟩

/-! ## Valid energy range -/

/-- The loop body of `ValidEnergyRange`: combine the range with one generator. -/
def GEVGDriver.combineRange (E : Range1D_t) (evgen : EventGeneratorI) : Range1D_t :=
  let Emin := max (1 / 100 : ℚ) evgen.Emin
  let Emax := evgen.Emax
  ⟨min E.min Emin, max E.max Emax⟩

/-- The combined range computed by the loop of `ValidEnergyRange`, before the assertion. -/
def GEVGDriver.combinedRange (evgl : List EventGeneratorI) : Range1D_t :=
  evgl.foldl GEVGDriver.combineRange ⟨9999, -9999⟩

/-- `GEVGDriver::ValidEnergyRange`. -/
def GEVGDriver.ValidEnergyRange (d : GEVGDriver) : Except Abort Range1D_t :=
  match d.fEvGenList with
  | none => .error .nullPointer
  | some evgl =>
    let E := GEVGDriver.combinedRange evgl
    if E.min < E.max ∧ E.min ≥ 0 then .ok E else .error .badEnergyRange

/-- The smallest energy bound `Emin` declared by the generators `g :: gs`. -/
def minDeclaredEmin (g : EventGeneratorI) (gs : List EventGeneratorI) : ℚ :=
  gs.foldl (fun m h => min m h.Emin) g.Emin

/-- The largest energy bound `Emax` declared by the generators `g :: gs`. -/
def maxDeclaredEmax (g : EventGeneratorI) (gs : List EventGeneratorI) : ℚ :=
  gs.foldl (fun m h => max m h.Emax) g.Emax

/-- The smallest of the declared `Emin` of the generators `g :: gs`, each raised to the
floor 0.01. -/
def minFlooredEmin (g : EventGeneratorI) (gs : List EventGeneratorI) : ℚ :=
  gs.foldl (fun m h => min m (max (1 / 100 : ℚ) h.Emin)) (max (1 / 100 : ℚ) g.Emin)

/-- The cross section of one interaction in the words of the specification: the cached
spline of (algorithm, interaction) evaluated at the probe energy when splines are in use
and the spline exists, otherwise the algorithm evaluated directly on the interaction with
the probe 4-momentum set. -/
def specInteractionXSec (Evaluate : Spline → ℚ → ℚ) (xssl : XSecSplineList)
    (useSplines : Bool) (a : XSecAlgorithmI) (i : Interaction) (p : TLorentzVector) : ℚ :=
  match useSplines, xssl.GetSpline a i with
  | true, some spl => Evaluate spl p.Energy
  | _, _ => a.XSec (i.SetProbeP4 p)

/-- The total cross section in the words of the specification: the sum over the
interactions of the map, each with the algorithm the map finds for it. -/
def specXSecSum (Evaluate : Spline → ℚ → ℚ) (xssl : XSecSplineList) (m : XSecAlgorithmMap)
    (useSplines : Bool) (p : TLorentzVector) : ℚ :=
  (m.GetInteractionList.map (fun i =>
    match m.FindXSecAlgorithm i with
    | some a => specInteractionXSec Evaluate xssl useSplines a i p
    | none => 0)).sum

/-- Generator `evgen` yields, for the initial state, an interaction with canonical
string `c`. -/
def Yields (init_state : InitialState) (evgen : EventGeneratorI) (c : String) : Prop :=
  ∃ ilstgen ilst i, evgen.IntListGenerator = some ilstgen ∧ ilstgen init_state = some ilst ∧
    i ∈ ilst ∧ i.AsString = c

/-- Every listed interaction of the map has an algorithm. -/
def XSecAlgorithmMap.Complete (m : XSecAlgorithmMap) : Prop :=
  ∀ i ∈ m.fInteractionList, ∃ a, m.fMap.lookup i.AsString = some a

/-- Every association of the map comes from a generator of `G` that yields the
interaction and whose algorithm is the associated one. -/
def XSecAlgorithmMap.SourcedFrom (init_state : InitialState) (G : List EventGeneratorI)
    (m : XSecAlgorithmMap) : Prop :=
  ∀ p ∈ m.fMap, ∃ evgen ∈ G, p.2 = evgen.CrossSectionAlg ∧ Yields init_state evgen p.1

/-- Every spline of `xsl` is still in `xsl1`, with the same table. -/
def XSecSplineList.KeptIn (xsl xsl1 : XSecSplineList) : Prop :=
  ∀ key spl, xsl.fSplineMap.lookup key = some spl → xsl1.fSplineMap.lookup key = some spl

/-! ## Sequences of public operations -/

/-- A call of a public operation of the driver, with what the call receives from its
caller and from the collaborators. -/
inductive Op where
  | reset
  | filterUnphysical (on_off : Bool)
  | configure (IsNeutrino IsAntiNeutrino : Int → Bool) (evgl : List EventGeneratorI)
      (init_state : InitialState)
  | generateEvent (w : Nat → Attempt)
  | xsecSum (Evaluate : Spline → ℚ → ℚ) (nup4 : TLorentzVector)
  | createXSecSumSpline (Rnd Log Exp : ℚ → ℚ) (Evaluate : Spline → ℚ → ℚ) (nk : Int)
      (Emin Emax : ℚ) (inlogE : Bool)
  | useSplines
  | createSplines (Rnd Log Exp : ℚ → ℚ) (useLogE : Bool)
  | validEnergyRange

/-- Run one public operation on the driver and the spline list; the successor state is
that of an operation that returns.  (`Op.runCaught` also gives a successor to a
`GenerateEvent` that an exception leaves.) -/
def Op.run (maxDepth : Nat) (s : GEVGDriver × XSecSplineList) :
    Op → Except Abort (GEVGDriver × XSecSplineList)
  | .reset => .ok (s.1.Reset, s.2)
  | .filterUnphysical b => .ok (s.1.FilterUnphysical b, s.2)
  | .configure isNu isAntiNu evgl init =>
    match s.1.Configure isNu isAntiNu evgl init with
    | .error e => .error e
    | .ok d => .ok (d, s.2)
  | .generateEvent w =>
    match (s.1.GenerateEvent maxDepth w 0).value with
    | .error e => .error e
    | .ok _ => .ok ((s.1.GenerateEvent maxDepth w 0).driver, s.2)
  | .xsecSum ev p =>
    match s.1.XSecSum ev s.2 p with
    | .error e => .error e
    | .ok _ => .ok s
  | .createXSecSumSpline rn lg ex ev nk Emin Emax inlogE =>
    match s.1.CreateXSecSumSpline rn lg ex ev s.2 nk Emin Emax inlogE with
    | .error e => .error e
    | .ok d => .ok (d, s.2)
  | .useSplines =>
    match s.1.UseSplines s.2 with
    | .error e => .error e
    | .ok d => .ok (d, s.2)
  | .createSplines rn lg ex useLogE =>
    match s.1.CreateSplines rn lg ex s.2 useLogE with
    | .error e => .error e
    | .ok r => .ok (r.driver, r.splineList)
  | .validEnergyRange =>
    match s.1.ValidEnergyRange with
    | .error e => .error e
    | .ok _ => .ok s

/-- Run a sequence of public operations, stopping at the first that does not return. -/
def Op.runAll (maxDepth : Nat) :
    List Op → GEVGDriver × XSecSplineList → Except Abort (GEVGDriver × XSecSplineList)
  | [], s => .ok s
  | op :: ops, s =>
    match op.run maxDepth s with
    | .error e => .error e
    | .ok s1 => Op.runAll maxDepth ops s1

/-- Run one public operation as a caller that catches exceptions does: a `GenerateEvent`
that an exception of a collaborator leaves has, as successor, the driver with the members
as the call assigned them; a failed `assert` still ends the program. -/
def Op.runCaught (maxDepth : Nat) (s : GEVGDriver × XSecSplineList) :
    Op → Except Abort (GEVGDriver × XSecSplineList)
  | .generateEvent w =>
    match (s.1.GenerateEvent maxDepth w 0).value with
    | .error .exceptionPropagated => .ok ((s.1.GenerateEvent maxDepth w 0).driver, s.2)
    | .error e => .error e
    | .ok _ => .ok ((s.1.GenerateEvent maxDepth w 0).driver, s.2)
  | op => op.run maxDepth s

/-- Run a sequence of public operations as a caller that catches exceptions does,
stopping at the first abort. -/
def Op.runAllCaught (maxDepth : Nat) :
    List Op → GEVGDriver × XSecSplineList → Except Abort (GEVGDriver × XSecSplineList)
  | [], s => .ok s
  | op :: ops, s =>
    match op.runCaught maxDepth s with
    | .error e => .error e
    | .ok s1 => Op.runAllCaught maxDepth ops s1

/-! ## Concrete inputs on which the definitions are evaluated -/

/-- A muon neutrino on iron-56. -/
def numuFe56 : InitialState := ⟨14, ⟨26, 56⟩, ⟨0, 0, 0, 0⟩⟩

/-- PDG codes of the three neutrino flavours. -/
def isNuCode (c : Int) : Bool := c == 12 || c == 14 || c == 16

/-- PDG codes of the three antineutrino flavours. -/
def isAntiNuCode (c : Int) : Bool := c == -12 || c == -14 || c == -16

/-- A constant cross-section algorithm. -/
def qelXSec : XSecAlgorithmI := ⟨"QELXSec", fun _ => 2⟩

/-- A cross-section algorithm linear in the probe energy. -/
def disXSec : XSecAlgorithmI := ⟨"DISXSec", fun i => 3 * i.fInitialState.fProbeP4.E⟩

/-- A generator valid on [1, 5] producing one interaction. -/
def qelGenerator : EventGeneratorI :=
  ⟨"QEL", 1, 5, some (fun s => some [⟨"QES", s⟩]), qelXSec⟩

/-- A generator valid on [3, 10] producing one interaction. -/
def disGenerator : EventGeneratorI :=
  ⟨"DIS", 3, 10, some (fun s => some [⟨"DIS", s⟩]), disXSec⟩

/-- A generator whose validity context starts below the 0.01 floor. -/
def lowGenerator : EventGeneratorI :=
  ⟨"LOW", 1 / 1000, 5, some (fun s => some [⟨"LOW", s⟩]), qelXSec⟩

/-- The driver obtained by configuring a fresh driver with the two generators. -/
def twoGeneratorDriver : GEVGDriver :=
  match GEVGDriver.Init.Configure isNuCode isAntiNuCode [qelGenerator, disGenerator] numuFe56 with
  | .ok d => d
  | .error _ => GEVGDriver.Init

/-- A processed record that reports unphysical. -/
def unphysicalRecord : EventRecord := ⟨⟨"QES", numuFe56⟩, true⟩

/-- A processed record that reports physical. -/
def physicalRecord : EventRecord := ⟨⟨"DIS", numuFe56⟩, false⟩

/-- Every pass yields an unphysical record. -/
def alwaysUnphysical : Nat → Attempt := fun _ => .processed unphysicalRecord

/-- The first two passes yield unphysical records, the later ones a physical record. -/
def twoUnphysicalThenPhysical : Nat → Attempt :=
  fun j => if j < 2 then .processed unphysicalRecord else .processed physicalRecord

/-- An empty spline list. -/
def emptySplineList : XSecSplineList := ⟨false, []⟩

/-- A spline list holding a spline for the first generator only. -/
def qelOnlySplineList : XSecSplineList :=
  ⟨false, [(("QELXSec", "QES"), ⟨3, [1, 3, 5], [2, 2, 2]⟩)]⟩

/-- A stand-in for `Spline::Evaluate`: the first tabulated value. -/
def firstKnotValue (spl : Spline) (_E : ℚ) : ℚ := spl.xsec.headD 0

/-- Configure, generate (two unphysical passes, then a physical one), switch filtering
off, generate again (an unphysical record is returned). -/
def sampleOps : List Op :=
  [ .configure isNuCode isAntiNuCode [qelGenerator, disGenerator] numuFe56,
    .generateEvent twoUnphysicalThenPhysical,
    .filterUnphysical false,
    .generateEvent alwaysUnphysical ]

/-- The driver obtained by configuring a fresh driver with the low-threshold generator. -/
def lowGeneratorDriver : GEVGDriver :=
  match GEVGDriver.Init.Configure isNuCode isAntiNuCode [lowGenerator] numuFe56 with
  | .ok d => d
  | .error _ => GEVGDriver.Init

/-- The driver obtained by configuring a fresh driver with an empty generator list. -/
def noGeneratorDriver : GEVGDriver :=
  match GEVGDriver.Init.Configure isNuCode isAntiNuCode [] numuFe56 with
  | .ok d => d
  | .error _ => GEVGDriver.Init

/-- A probe of energy 2 along z. -/
def probeAt2 : TLorentzVector := ⟨0, 0, 2, 2⟩

/-! ## Predicates on the spline bookkeeping -/

/-- The key under which the spline of a request is stored. -/
def SplineRequest.key (req : SplineRequest) : String × String := (req.alg, req.interaction)

/-- The state of the loops of `CreateSplines` relative to the spline list `xsl0` at the
start of the call: the splines of `xsl0` are kept; a spline exists exactly when it existed
in `xsl0` or was requested; no request is for a spline of `xsl0`; no key is requested
twice; every request is for an interaction that a generator of `G` yields, with that
generator's algorithm, 40 knots and the bounds max(0.01, Emin) and Emax of the generator. -/
def GEVGDriver.RequestsFor (init_state : InitialState) (G : List EventGeneratorI)
    (xsl0 : XSecSplineList) (st : XSecSplineList × List SplineRequest) : Prop :=
  xsl0.KeptIn st.1 ∧
  (∀ key, (st.1.fSplineMap.lookup key).isSome = true ↔
    ((xsl0.fSplineMap.lookup key).isSome = true ∨ ∃ req ∈ st.2, req.key = key)) ∧
  (∀ req ∈ st.2, xsl0.fSplineMap.lookup req.key = none) ∧
  (st.2.map SplineRequest.key).Nodup ∧
  (∀ req ∈ st.2, ∃ g ∈ G, req.alg = g.CrossSectionAlg.Id ∧ Yields init_state g req.interaction ∧
    req.nknots = 40 ∧ req.Emin = max (1 / 100 : ℚ) g.Emin ∧ req.Emax = g.Emax)

/-- The driver is consistently configured: if splines are in use, or a generator list or
a map is set, then the generator list and the initial state are set and the map is the one
`BuildMap` builds from them. -/
def GEVGDriver.WellConfigured (d : GEVGDriver) : Prop :=
  (d.fUseSplines = true ∨ d.fEvGenList.isSome = true ∨ d.fXSecAlgorithmMap.isSome = true) →
    ∃ evgl init, d.fEvGenList = some evgl ∧ d.fInitState = some init ∧
      d.fXSecAlgorithmMap = some (XSecAlgorithmMap.BuildMap evgl init)

/-- The driver when `CreateXSecSumSpline` returns or aborts, with the outcome: the two
assertions come before every assignment, the knot arrays are locals, and the stored sum
spline is assigned last. -/
def GEVGDriver.CreateXSecSumSplineExit (Rnd Log Exp : ℚ → ℚ) (Evaluate : Spline → ℚ → ℚ)
    (xssl : XSecSplineList) (d : GEVGDriver) (nk : Int) (Emin Emax : ℚ) (inlogE : Bool) :
    GEVGDriver × Except Abort Unit :=
  if d.fUseSplines = false then (d, .error .splinesNotLoaded)
  else if ¬ (Emin < Emax ∧ Emin > 0 ∧ nk > 2) then (d, .error .badKnots)
  else
    match GEVGDriver.XSecSumKnots Rnd Log Exp Evaluate xssl d nk Emin Emax inlogE nk.toNat 0 with
    | .error err => (d, .error err)
    | .ok knots =>
      ({ d with fXSecSumSpl := some ⟨nk.toNat, knots.map Prod.fst, knots.map Prod.snd⟩ }, .ok ())

/-- The driver when `Configure` returns or aborts, with the outcome: `BuildInitialState`
stores the initial state and then asserts it valid; the generator list, the map, the
chain and the selector are built afterwards, in this order. -/
def GEVGDriver.ConfigureExit (IsNeutrino IsAntiNeutrino : Int → Bool)
    (evgl : List EventGeneratorI) (d : GEVGDriver) (init_state : InitialState) :
    GEVGDriver × Except Abort Unit :=
  let d1 : GEVGDriver := { d with fInitState := some init_state }
  match d1.AssertIsValidInitState IsNeutrino IsAntiNeutrino with
  | .error e => (d1, .error e)
  | .ok _ =>
    let d2 := d1.BuildGeneratorList evgl
    match d2.BuildXSecAlgorithmMap with
    | .error e => (d2, .error e)
    | .ok d3 => (d3.BuildResponsibilityChain.BuildInteractionSelector, .ok ())

/-- Splines are complete for the driver: if `fUseSplines` is true, every interaction of
the current map has a spline in the list for its mapped algorithm. -/
def SplinesLoaded (s : GEVGDriver × XSecSplineList) : Prop :=
  s.1.fUseSplines = true → ∀ m, s.1.fXSecAlgorithmMap = some m →
    ∀ i ∈ m.GetInteractionList, ∃ a, m.FindXSecAlgorithm i = some a ∧
      s.2.SplineExists a i = true

/-- The operation is a call of `Configure`. -/
def Op.isConfigure : Op → Bool
  | .configure _ _ _ _ => true
  | _ => false

/-! ## Further concrete inputs -/

/-- The two-generator driver with splines in use. -/
def splineDriver : GEVGDriver := { twoGeneratorDriver with fUseSplines := true }

/-- An electron on iron-56: not a neutrino probe. -/
def electronFe56 : InitialState := ⟨11, ⟨26, 56⟩, ⟨0, 0, 0, 0⟩⟩

/-- A cross-section algorithm that returns a negative value. -/
def negXSec : XSecAlgorithmI := ⟨"NEGXSec", fun _ => -1⟩

/-- A generator using the negative algorithm. -/
def negGenerator : EventGeneratorI :=
  ⟨"NEG", 1, 5, some (fun s => some [⟨"NEG", s⟩]), negXSec⟩

/-- The driver obtained by configuring a fresh driver with the negative generator. -/
def negGeneratorDriver : GEVGDriver :=
  match GEVGDriver.Init.Configure isNuCode isAntiNuCode [negGenerator] numuFe56 with
  | .ok d => d
  | .error _ => GEVGDriver.Init

/-- One unphysical pass, then the selector yields no record. -/
def unphysicalThenNoRecord : Nat → Attempt :=
  fun j => if j < 1 then .processed unphysicalRecord else .noRecord

/-- One unphysical pass, then the record processing throws. -/
def unphysicalThenThrow : Nat → Attempt :=
  fun j => if j < 1 then .processed unphysicalRecord else .threw (some unphysicalRecord)

/-- Configure, then a `GenerateEvent` whose second pass throws. -/
def throwingOps : List Op :=
  [ .configure isNuCode isAntiNuCode [qelGenerator, disGenerator] numuFe56,
    .generateEvent unphysicalThenThrow ]

/-- An electron neutrino on iron-56. -/
def nueFe56 : InitialState := ⟨12, ⟨26, 56⟩, ⟨0, 0, 0, 0⟩⟩

/-- A generator whose interaction depends on the probe of the initial state. -/
def flavourGenerator : EventGeneratorI :=
  ⟨"QEL", 1, 5,
    some (fun s => some [⟨if s.fProbePdgC = 14 then "numu-QES" else "nue-QES", s⟩]), qelXSec⟩

/-- A spline list holding the spline of the muon-neutrino interaction only. -/
def numuSplineList : XSecSplineList :=
  ⟨false, [(("QELXSec", "numu-QES"), ⟨3, [1, 3, 5], [2, 2, 2]⟩)]⟩

/-- The driver configured for the muon neutrino, after `UseSplines` has accepted the list. -/
def flavourNumuDriver : GEVGDriver :=
  match GEVGDriver.Init.Configure isNuCode isAntiNuCode [flavourGenerator] numuFe56 with
  | .ok d => { d with fUseSplines := true }
  | .error _ => GEVGDriver.Init

/-- The same driver configured again, for the electron neutrino. -/
def flavourNueDriver : GEVGDriver :=
  match flavourNumuDriver.Configure isNuCode isAntiNuCode [flavourGenerator] nueFe56 with
  | .ok d => d
  | .error _ => GEVGDriver.Init

/-! ## Reset as clean-up followed by initialisation -/

/-- `GEVGDriver::CleanUp`: releases the objects the driver owns; it assigns no member. -/
def GEVGDriver.CleanUp (d : GEVGDriver) : GEVGDriver := d

/-- `GEVGDriver::Init` run on an existing driver, as `Reset` runs it after `CleanUp`: the
ten assignments of `Init`, in their order. -/
def GEVGDriver.InitMembers (d : GEVGDriver) : GEVGDriver :=
  let d1 : GEVGDriver := { d with fInitState := none }
  let d2 : GEVGDriver := { d1 with fCurrentRecord := none }
  let d3 : GEVGDriver := { d2 with fEvGenList := none }
  let d4 : GEVGDriver := { d3 with fIntSelector := none }
  let d5 : GEVGDriver := { d4 with fChain := none }
  let d6 : GEVGDriver := { d5 with fUseSplines := false }
  let d7 : GEVGDriver := { d6 with fNRecLevel := 0 }
  let d8 : GEVGDriver := { d7 with fXSecAlgorithmMap := none }
  let d9 : GEVGDriver := { d8 with fXSecSumSpl := none }
  { d9 with fFilterUnphysical := true }

/-! ## The memory that `XSecSum` works on -/

/-- The memory a call of `XSecSum` can reach: the driver, the spline list, and the
`Interaction` objects on the heap, by address (`none` is a deleted object).  The
interaction list of the map is a list of pointers: its entry `a` is the address `a`. -/
structure Memory where
  driver : GEVGDriver
  xssl : XSecSplineList
  heap : List (Option Interaction)

/-- The memory of a driver between calls: the heap holds the objects that the entries of
the interaction list of its map point to, in the order of the list. -/
def Memory.ofDriver (d : GEVGDriver) (xssl : XSecSplineList) : Memory :=
  match d.fXSecAlgorithmMap with
  | none => ⟨d, xssl, []⟩
  | some m => ⟨d, xssl, m.GetInteractionList.map some⟩

/-- Read the object a pointer refers to; a dangling pointer has none. -/
def Memory.deref (mem : Memory) (p : Nat) : Except Abort Interaction :=
  match mem.heap[p]? with
  | some (some obj) => .ok obj
  | _ => .error .nullPointer

/-- The effect of `new Interaction(obj)`: a copy at a fresh address, which is returned. -/
def Memory.alloc (mem : Memory) (obj : Interaction) : Memory × Nat :=
  ({ mem with heap := mem.heap ++ [some obj] }, mem.heap.length)

/-- Write the object at an address. -/
def Memory.store (mem : Memory) (p : Nat) (obj : Interaction) : Memory :=
  { mem with heap := mem.heap.set p (some obj) }

/-- The effect of `delete p`. -/
def Memory.free (mem : Memory) (p : Nat) : Memory :=
  { mem with heap := mem.heap.set p none }

/-- The loop of `XSecSum` over the pointers of the interaction list, statement by
statement on the memory: the copy `new Interaction(**intliter)`, `SetProbeP4` through the
pointer to the copy, the lookups and the evaluation on the copy, `xsec_sum += xsec`, and
`delete interaction`.  The map, the flag and the spline list are read from the memory at
each iteration. -/
def Memory.XSecSumLoop (Evaluate : Spline → ℚ → ℚ) (nup4 : TLorentzVector) :
    List Nat → Memory → ℚ → Except Abort (Memory × ℚ)
  | [], mem, xsec_sum => .ok (mem, xsec_sum)
  | intliter :: rest, mem, xsec_sum =>
    match mem.deref intliter with
    | .error e => .error e
    | .ok stored =>
      let mem1 := (mem.alloc stored).1
      let interaction := (mem.alloc stored).2
      match mem1.deref interaction with
      | .error e => .error e
      | .ok copy =>
        let mem2 := mem1.store interaction (copy.SetProbeP4 nup4)
        match mem2.driver.fXSecAlgorithmMap, mem2.deref interaction with
        | some m, .ok obj =>
          match m.FindXSecAlgorithm obj with
          | none => .error .noXSecAlgorithm
          | some xsec_alg =>
            let spline_exists := mem2.xssl.SplineExists xsec_alg obj
            if spline_exists && mem2.driver.fUseSplines then
              match mem2.xssl.GetSpline xsec_alg obj with
              | none => .error .nullPointer
              | some spl =>
                Memory.XSecSumLoop Evaluate nup4 rest (mem2.free interaction)
                  (xsec_sum + Evaluate spl nup4.Energy)
            else
              Memory.XSecSumLoop Evaluate nup4 rest (mem2.free interaction)
                (xsec_sum + xsec_alg.XSec obj)
        | _, _ => .error .nullPointer

/-- `GEVGDriver::XSecSum` on the memory: the memory when the call returns, with the
returned sum. -/
def Memory.XSecSum (Evaluate : Spline → ℚ → ℚ) (mem : Memory) (nup4 : TLorentzVector) :
    Except Abort (Memory × ℚ) :=
  match mem.driver.fXSecAlgorithmMap with
  | none => .error .nullPointer
  | some m =>
    Memory.XSecSumLoop Evaluate nup4 (List.range m.GetInteractionList.length) mem 0

/-! ## Event generation: unfolding lemmas -/

/-- One pass that yields an unphysical record, with filtering on. -/
theorem GenerateEvent_unphysical (maxDepth : Nat) (w : Nat → Attempt) (d : GEVGDriver) (k : Nat)
    (r : EventRecord) (hc : d.CanGenerate = true) (hf : d.fFilterUnphysical = true)
    (hw : w k = .processed r) (hu : r.IsUnphysical = true) :
    d.GenerateEvent maxDepth w k =
      if d.fNRecLevel + 1 ≤ maxDepth then
        GEVGDriver.GenerateEvent maxDepth w
          { d with fCurrentRecord := none, fNRecLevel := d.fNRecLevel + 1 } (k + 1)
      else ⟨{ d with fCurrentRecord := none, fNRecLevel := d.fNRecLevel + 1 }, k + 1,
            .error .regenerationDepthExceeded⟩ := by
  rw [GEVGDriver.GenerateEvent]
  simp [hc, hf, hw, hu]

/-- One pass that yields a physical record, with filtering on. -/
theorem GenerateEvent_physical (maxDepth : Nat) (w : Nat → Attempt) (d : GEVGDriver) (k : Nat)
    (r : EventRecord) (hc : d.CanGenerate = true) (hf : d.fFilterUnphysical = true)
    (hw : w k = .processed r) (hu : r.IsUnphysical = false) :
    d.GenerateEvent maxDepth w k =
      ⟨{ d with fCurrentRecord := some r, fNRecLevel := 0 }, k + 1, .ok r⟩ := by
  rw [GEVGDriver.GenerateEvent]
  simp [hc, hf, hw, hu]

/-- One pass that yields a processed record, with filtering off. -/
theorem GenerateEvent_unfiltered (maxDepth : Nat) (w : Nat → Attempt) (d : GEVGDriver) (k : Nat)
    (r : EventRecord) (hc : d.CanGenerate = true) (hf : d.fFilterUnphysical = false)
    (hw : w k = .processed r) :
    d.GenerateEvent maxDepth w k = ⟨{ d with fCurrentRecord := some r }, k + 1, .ok r⟩ := by
  rw [GEVGDriver.GenerateEvent]
  simp [hc, hf, hw]

/-- With every pass unphysical the call aborts after `maxDepth - fNRecLevel + 1` passes. -/
theorem GenerateEvent_allUnphysical (maxDepth : Nat) (w : Nat → Attempt)
    (hw : ∀ j, ∃ r, w j = .processed r ∧ r.IsUnphysical = true) :
    ∀ (n : Nat) (d : GEVGDriver) (k : Nat), maxDepth - d.fNRecLevel = n →
      d.CanGenerate = true → d.fFilterUnphysical = true →
      (d.GenerateEvent maxDepth w k).value = .error .regenerationDepthExceeded ∧
      (d.GenerateEvent maxDepth w k).attempts = k + n + 1 ∧
      (d.GenerateEvent maxDepth w k).driver.fCurrentRecord = none := by
  intro n
  induction n with
  | zero =>
    intro d k hn hc hf
    obtain ⟨r, hr, hu⟩ := hw k
    rw [GenerateEvent_unphysical maxDepth w d k r hc hf hr hu]
    have : ¬ (d.fNRecLevel + 1 ≤ maxDepth) := by omega
    simp [this]
  | succ n ih =>
    intro d k hn hc hf
    obtain ⟨r, hr, hu⟩ := hw k
    rw [GenerateEvent_unphysical maxDepth w d k r hc hf hr hu]
    have : d.fNRecLevel + 1 ≤ maxDepth := by omega
    simp only [this, if_true]
    have h := ih { d with fCurrentRecord := none, fNRecLevel := d.fNRecLevel + 1 } (k + 1)
      (by simp; omega) (by simpa [GEVGDriver.CanGenerate] using hc) hf
    refine ⟨h.1, ?_, h.2.2⟩
    rw [h.2.1]; omega


/-- What a returning filtered call has done. -/
theorem GenerateEvent_ok_filtered (maxDepth : Nat) (w : Nat → Attempt) (d : GEVGDriver) (k : Nat) :
    d.fFilterUnphysical = true → ∀ r, (d.GenerateEvent maxDepth w k).value = .ok r →
      r.IsUnphysical = false ∧
      (d.GenerateEvent maxDepth w k).driver.fCurrentRecord = some r ∧
      (d.GenerateEvent maxDepth w k).driver.fNRecLevel = 0 ∧
      k < (d.GenerateEvent maxDepth w k).attempts ∧
      w ((d.GenerateEvent maxDepth w k).attempts - 1) = .processed r ∧
      ∀ j, k ≤ j → j + 1 < (d.GenerateEvent maxDepth w k).attempts →
        ∃ r1, w j = .processed r1 ∧ r1.IsUnphysical = true := by
  induction d, k using GEVGDriver.GenerateEvent.induct maxDepth w with
  | case1 d k hc =>
    intro _ r hr
    rw [GEVGDriver.GenerateEvent] at hr
    simp [hc] at hr
  | case2 d k hc hw =>
    intro _ r hr
    rw [GEVGDriver.GenerateEvent] at hr
    simp [hc, hw] at hr
  | case3 d k hc r0 hw =>
    intro _ r hr
    rw [GEVGDriver.GenerateEvent] at hr
    simp [hc, hw] at hr
  | case4 d k hc r0 hw hf =>
    intro hf1
    simp [hf1] at hf
  | case5 d k hc r0 hw hf hu d1 hle ih =>
    intro hf1 r hr
    have hc1 : d.CanGenerate = true := by simpa using hc
    have hstep := GenerateEvent_unphysical maxDepth w d k r0 hc1 hf1 hw hu
    have hle1 : d.fNRecLevel + 1 ≤ maxDepth := hle
    simp only [hle1, if_true] at hstep
    rw [hstep] at hr ⊢
    obtain ⟨h1, h2, h3, h4, h5, h6⟩ := ih hf1 r hr
    refine ⟨h1, h2, h3, Nat.lt_of_succ_lt h4, h5, ?_⟩
    intro j hkj hj
    rcases Nat.eq_or_lt_of_le hkj with h | h
    · subst h; exact ⟨r0, hw, hu⟩
    · exact h6 j h hj
  | case6 d k hc r0 hw hf hu d1 hle =>
    intro hf1 r hr
    have hc1 : d.CanGenerate = true := by simpa using hc
    have hstep := GenerateEvent_unphysical maxDepth w d k r0 hc1 hf1 hw hu
    have hle1 : ¬ (d.fNRecLevel + 1 ≤ maxDepth) := hle
    simp only [hle1, if_false] at hstep
    rw [hstep] at hr
    simp at hr
  | case7 d k hc r0 hw hf hu =>
    intro hf1 r hr
    have hc1 : d.CanGenerate = true := by simpa using hc
    have hu1 : r0.IsUnphysical = false := by simpa using hu
    have hstep := GenerateEvent_physical maxDepth w d k r0 hc1 hf1 hw hu1
    rw [hstep] at hr ⊢
    simp at hr
    subst hr
    refine ⟨hu1, rfl, rfl, by simp, by simpa using hw, ?_⟩
    intro j hkj hj
    simp at hj
    omega
  | case8 d k hc hw =>
    intro _ r hr
    rw [GEVGDriver.GenerateEvent] at hr
    simp [hc, hw] at hr
  | case9 d k hc r0 hw =>
    intro _ r hr
    rw [GEVGDriver.GenerateEvent] at hr
    simp [hc, hw] at hr

/-- The number of passes of a call is bounded by the distance of the counter from
`maxDepth`, plus one. -/
theorem GenerateEvent_attempts_le (maxDepth : Nat) (w : Nat → Attempt) (d : GEVGDriver)
    (k : Nat) :
    k ≤ (d.GenerateEvent maxDepth w k).attempts ∧
    (d.GenerateEvent maxDepth w k).attempts ≤ k + (maxDepth - d.fNRecLevel) + 1 := by
  induction d, k using GEVGDriver.GenerateEvent.induct maxDepth w with
  | case1 d k hc =>
    rw [GEVGDriver.GenerateEvent]; simp [hc]; omega
  | case2 d k hc hw =>
    rw [GEVGDriver.GenerateEvent]; simp [hc, hw]
  | case3 d k hc r0 hw =>
    rw [GEVGDriver.GenerateEvent]; simp [hc, hw]
  | case4 d k hc r0 hw hf =>
    rw [GEVGDriver.GenerateEvent]; simp [hc, hw, hf]
  | case5 d k hc r0 hw hf hu d1 hle ih =>
    have hc1 : d.CanGenerate = true := by simpa using hc
    have hf1 : d.fFilterUnphysical = true := by simpa using hf
    have hstep := GenerateEvent_unphysical maxDepth w d k r0 hc1 hf1 hw hu
    have hle1 : d.fNRecLevel + 1 ≤ maxDepth := hle
    simp only [hle1, if_true] at hstep
    rw [hstep]
    have h1 : k + 1 ≤ (GEVGDriver.GenerateEvent maxDepth w
        { d with fCurrentRecord := none, fNRecLevel := d.fNRecLevel + 1 } (k + 1)).attempts :=
      ih.1
    have h2 : (GEVGDriver.GenerateEvent maxDepth w
        { d with fCurrentRecord := none, fNRecLevel := d.fNRecLevel + 1 } (k + 1)).attempts
          ≤ k + 1 + (maxDepth - (d.fNRecLevel + 1)) + 1 := ih.2
    constructor <;> omega
  | case6 d k hc r0 hw hf hu d1 hle =>
    have hc1 : d.CanGenerate = true := by simpa using hc
    have hf1 : d.fFilterUnphysical = true := by simpa using hf
    have hstep := GenerateEvent_unphysical maxDepth w d k r0 hc1 hf1 hw hu
    have hle1 : ¬ (d.fNRecLevel + 1 ≤ maxDepth) := hle
    simp only [hle1, if_false] at hstep
    rw [hstep]
    constructor <;> simp
  | case7 d k hc r0 hw hf hu =>
    rw [GEVGDriver.GenerateEvent]; simp [hc, hw, hf, hu]
  | case8 d k hc hw =>
    rw [GEVGDriver.GenerateEvent]; simp [hc, hw]
  | case9 d k hc r0 hw =>
    rw [GEVGDriver.GenerateEvent]; simp [hc, hw]

/-- A call that returns a record leaves the counter at zero if it was zero on entry. -/
theorem GenerateEvent_ok_counter (maxDepth : Nat) (w : Nat → Attempt) (d : GEVGDriver) (k : Nat)
    (r : EventRecord) (h0 : d.fNRecLevel = 0)
    (hr : (d.GenerateEvent maxDepth w k).value = .ok r) :
    (d.GenerateEvent maxDepth w k).driver.fNRecLevel = 0 := by
  cases hf : d.fFilterUnphysical with
  | true => exact (GenerateEvent_ok_filtered maxDepth w d k hf r hr).2.2.1
  | false =>
    rw [GEVGDriver.GenerateEvent] at hr ⊢
    by_cases hc : d.CanGenerate = false
    · simp [hc] at hr
    · simp only [hc, if_false] at hr ⊢
      cases hw : w k with
      | noRecord => simp [hw] at hr
      | noGenerator r0 => simp [hw] at hr
      | processed r0 => simp [hf, h0]
      | threw o => cases o <;> simp [hw] at hr

/-- After `n` unphysical passes a physical pass is returned, when the counter allows `n`
regenerations. -/
theorem GenerateEvent_retry_then_physical (maxDepth : Nat) (w : Nat → Attempt) :
    ∀ (n : Nat) (d : GEVGDriver) (k : Nat) (r : EventRecord),
      d.CanGenerate = true → d.fFilterUnphysical = true →
      (∀ j, j < n → ∃ r1, w (k + j) = .processed r1 ∧ r1.IsUnphysical = true) →
      w (k + n) = .processed r → r.IsUnphysical = false → d.fNRecLevel + n ≤ maxDepth →
      d.GenerateEvent maxDepth w k =
        ⟨{ d with fCurrentRecord := some r, fNRecLevel := 0 }, k + n + 1, .ok r⟩ := by
  intro n
  induction n with
  | zero =>
    intro d k r hc hf _ hw hu _
    exact GenerateEvent_physical maxDepth w d k r hc hf hw hu
  | succ n ih =>
    intro d k r hc hf hpre hw hu hle
    obtain ⟨r1, hr1, hu1⟩ := hpre 0 (Nat.succ_pos n)
    rw [GenerateEvent_unphysical maxDepth w d k r1 hc hf hr1 hu1]
    have hle1 : d.fNRecLevel + 1 ≤ maxDepth := by omega
    simp only [hle1, if_true]
    rw [ih { d with fCurrentRecord := none, fNRecLevel := d.fNRecLevel + 1 } (k + 1) r
      (by simpa [GEVGDriver.CanGenerate] using hc) hf
      (fun j hj => by
        have := hpre (j + 1) (by omega)
        rwa [show k + (j + 1) = k + 1 + j from by omega] at this)
      (by rwa [show k + 1 + n = k + (n + 1) from by omega])
      hu (by simp only; omega)]
    simp only [GenResult.mk.injEq, and_true, true_and]
    omega

/-- The call of `GenerateEvent` on the configured sample driver with two unphysical
passes followed by a physical one. -/
theorem twoGeneratorDriver_retry :
    twoGeneratorDriver.GenerateEvent 3 twoUnphysicalThenPhysical 0 =
      ⟨{ twoGeneratorDriver with fCurrentRecord := some physicalRecord }, 3,
        .ok physicalRecord⟩ :=
  GenerateEvent_retry_then_physical 3 twoUnphysicalThenPhysical 2 twoGeneratorDriver 0
    physicalRecord rfl rfl
    (fun j hj => ⟨unphysicalRecord, by simp [twoUnphysicalThenPhysical, hj], rfl⟩)
    rfl rfl (by decide)

/-! ## Event generation: the retry loop -/

/-- C1, as stated, fails: with `maxDepth = 2`, filtering on, the counter at 0 and every
pass unphysical, the call aborts after 3 passes, not after 2. -/
theorem GenerateEvent_exhausted_not_after_maxDepth :
    twoGeneratorDriver.CanGenerate = true ∧ twoGeneratorDriver.fFilterUnphysical = true ∧
    twoGeneratorDriver.fNRecLevel = 0 ∧
    (∀ j, ∃ r, alwaysUnphysical j = .processed r ∧ r.IsUnphysical = true) ∧
    (twoGeneratorDriver.GenerateEvent 2 alwaysUnphysical 0).value
      = .error .regenerationDepthExceeded ∧
    (twoGeneratorDriver.GenerateEvent 2 alwaysUnphysical 0).attempts = 3 ∧
    (twoGeneratorDriver.GenerateEvent 2 alwaysUnphysical 0).attempts ≠ 2 := by
  have hw : ∀ j, ∃ r, alwaysUnphysical j = .processed r ∧ r.IsUnphysical = true :=
    fun _ => ⟨unphysicalRecord, rfl, rfl⟩
  have h := GenerateEvent_allUnphysical 2 alwaysUnphysical hw 2 twoGeneratorDriver 0 rfl rfl rfl
  refine ⟨rfl, rfl, rfl, hw, h.1, ?_, ?_⟩
  · rw [h.2.1]
  · rw [h.2.1]; decide

/-- C1, amended: for a driver that can generate, with filtering on and the counter at 0,
if every pass yields a record reporting unphysical, `GenerateEvent` returns no record and
aborts with the regeneration-depth error after exactly `maxDepth + 1` passes (the first
one and `maxDepth` regenerations), the current record being released. -/
theorem GenerateEvent_exhausted_after_maxDepth_succ (maxDepth : Nat) (w : Nat → Attempt)
    (d : GEVGDriver) (hc : d.CanGenerate = true) (hf : d.fFilterUnphysical = true)
    (h0 : d.fNRecLevel = 0)
    (hw : ∀ j, ∃ r, w j = .processed r ∧ r.IsUnphysical = true) :
    (d.GenerateEvent maxDepth w 0).value = .error .regenerationDepthExceeded ∧
    (d.GenerateEvent maxDepth w 0).attempts = maxDepth + 1 ∧
    (d.GenerateEvent maxDepth w 0).driver.fCurrentRecord = none := by
  have h := GenerateEvent_allUnphysical maxDepth w hw maxDepth d 0 (by omega) hc hf
  refine ⟨h.1, ?_, h.2.2⟩
  rw [h.2.1]; omega

/-- Witness of C1 amended: `maxDepth = 2`, every pass unphysical. -/
theorem GenerateEvent_exhausted_after_maxDepth_succ_witness :
    (twoGeneratorDriver.GenerateEvent 2 alwaysUnphysical 0).value
      = .error .regenerationDepthExceeded ∧
    (twoGeneratorDriver.GenerateEvent 2 alwaysUnphysical 0).attempts = 2 + 1 ∧
    (twoGeneratorDriver.GenerateEvent 2 alwaysUnphysical 0).driver.fCurrentRecord = none :=
  GenerateEvent_exhausted_after_maxDepth_succ 2 alwaysUnphysical twoGeneratorDriver rfl rfl rfl
    (fun _ => ⟨unphysicalRecord, rfl, rfl⟩)

/-- C2: with filtering on, whenever `GenerateEvent` returns a record, that record reports
physical; it is the record of the last pass and the current record of the driver; every
earlier pass of the call yielded an unphysical record, which was discarded; and no record
reporting unphysical is the returned value. -/
theorem GenerateEvent_returns_only_physical (maxDepth : Nat) (w : Nat → Attempt)
    (d : GEVGDriver) (k : Nat) (r : EventRecord) (hf : d.fFilterUnphysical = true)
    (hr : (d.GenerateEvent maxDepth w k).value = .ok r) :
    r.IsUnphysical = false ∧
    (d.GenerateEvent maxDepth w k).driver.fCurrentRecord = some r ∧
    w ((d.GenerateEvent maxDepth w k).attempts - 1) = .processed r ∧
    (∀ j, k ≤ j → j + 1 < (d.GenerateEvent maxDepth w k).attempts →
      ∃ r1, w j = .processed r1 ∧ r1.IsUnphysical = true ∧ r1 ≠ r) ∧
    (∀ j r1, w j = .processed r1 → r1.IsUnphysical = true → r1 ≠ r) := by
  obtain ⟨h1, h2, _, _, h5, h6⟩ := GenerateEvent_ok_filtered maxDepth w d k hf r hr
  have hne : ∀ r1 : EventRecord, r1.IsUnphysical = true → r1 ≠ r := by
    intro r1 hu heq
    rw [heq, h1] at hu
    exact Bool.false_ne_true hu
  refine ⟨h1, h2, h5, ?_, fun _ r1 _ hu => hne r1 hu⟩
  intro j hkj hj
  obtain ⟨r1, hr1, hu1⟩ := h6 j hkj hj
  exact ⟨r1, hr1, hu1, hne r1 hu1⟩

/-- Witness of C2: two unphysical passes are discarded, the physical record of the third
pass is returned. -/
theorem GenerateEvent_returns_only_physical_witness :
    (twoGeneratorDriver.GenerateEvent 3 twoUnphysicalThenPhysical 0).value
      = .ok physicalRecord ∧
    physicalRecord.IsUnphysical = false ∧
    (twoGeneratorDriver.GenerateEvent 3 twoUnphysicalThenPhysical 0).driver.fCurrentRecord
      = some physicalRecord :=
  have h : (twoGeneratorDriver.GenerateEvent 3 twoUnphysicalThenPhysical 0).value
      = .ok physicalRecord := by rw [twoGeneratorDriver_retry]
  ⟨h, (GenerateEvent_returns_only_physical 3 twoUnphysicalThenPhysical twoGeneratorDriver 0
        physicalRecord rfl h).1,
      (GenerateEvent_returns_only_physical 3 twoUnphysicalThenPhysical twoGeneratorDriver 0
        physicalRecord rfl h).2.1⟩

/-- C8: `GenerateEvent` is total (its recursion decreases `maxDepth - fNRecLevel`), and for
every driver state, either value of the filter flag and every sequence of pass outcomes,
the number of passes made by one call is at most the distance of the counter from
`maxDepth` plus one, hence at most `maxDepth + 1`. -/
theorem GenerateEvent_attempts_bounded (maxDepth : Nat) (w : Nat → Attempt) (d : GEVGDriver)
    (k : Nat) :
    k ≤ (d.GenerateEvent maxDepth w k).attempts ∧
    (d.GenerateEvent maxDepth w k).attempts - k ≤ (maxDepth - d.fNRecLevel) + 1 ∧
    (d.GenerateEvent maxDepth w k).attempts - k ≤ maxDepth + 1 := by
  have h := GenerateEvent_attempts_le maxDepth w d k
  refine ⟨h.1, ?_, ?_⟩ <;> omega

/-- C9: with filtering off, `GenerateEvent` on a driver that can generate makes exactly one
pass, leaves the counter unchanged, never aborts with the regeneration-depth error, and
returns the processed record of that pass whether or not it reports unphysical. -/
theorem GenerateEvent_unfiltered_single_pass (maxDepth : Nat) (w : Nat → Attempt)
    (d : GEVGDriver) (k : Nat) (hc : d.CanGenerate = true)
    (hf : d.fFilterUnphysical = false) :
    (d.GenerateEvent maxDepth w k).attempts = k + 1 ∧
    (d.GenerateEvent maxDepth w k).driver.fNRecLevel = d.fNRecLevel ∧
    (d.GenerateEvent maxDepth w k).value ≠ .error .regenerationDepthExceeded ∧
    (∀ r, w k = .processed r →
      (d.GenerateEvent maxDepth w k).value = .ok r ∧
      (d.GenerateEvent maxDepth w k).driver.fCurrentRecord = some r) := by
  rw [GEVGDriver.GenerateEvent]
  cases hw : w k with
  | noRecord => simp [hc, hf]
  | noGenerator r0 => simp [hc, hf]
  | processed r0 => simp [hc, hf]
  | threw o => cases o <;> simp [hc, hf]

/-- Witness of C9: filtering switched off, the only pass yields an unphysical record, which
is returned. -/
theorem GenerateEvent_unfiltered_single_pass_witness :
    ((twoGeneratorDriver.FilterUnphysical false).GenerateEvent 2 alwaysUnphysical 0).attempts
      = 0 + 1 ∧
    ((twoGeneratorDriver.FilterUnphysical false).GenerateEvent 2 alwaysUnphysical 0).value
      = .ok unphysicalRecord ∧
    unphysicalRecord.IsUnphysical = true :=
  ⟨(GenerateEvent_unfiltered_single_pass 2 alwaysUnphysical
      (twoGeneratorDriver.FilterUnphysical false) 0 rfl rfl).1,
   ((GenerateEvent_unfiltered_single_pass 2 alwaysUnphysical
      (twoGeneratorDriver.FilterUnphysical false) 0 rfl rfl).2.2.2 unphysicalRecord rfl).1,
   rfl⟩

/-! ## Frame lemmas for the operations -/

/-- `Configure` changes only the initial state, generator list, map, chain and selector. -/
theorem Configure_frame (isNu isAntiNu : Int → Bool) (evgl : List EventGeneratorI)
    (d d1 : GEVGDriver) (init : InitialState)
    (h : d.Configure isNu isAntiNu evgl init = .ok d1) :
    d1 = { d with fInitState := some init, fEvGenList := some evgl,
                  fXSecAlgorithmMap := some (XSecAlgorithmMap.BuildMap evgl init),
                  fChain := some ⟨some evgl⟩, fIntSelector := some ⟨"Default"⟩ } := by
  unfold GEVGDriver.Configure GEVGDriver.BuildInitialState GEVGDriver.AssertIsValidInitState at h
  simp only [GEVGDriver.BuildGeneratorList, GEVGDriver.BuildXSecAlgorithmMap,
    GEVGDriver.BuildResponsibilityChain, GEVGDriver.BuildInteractionSelector] at h
  split at h
  · cases h
  · rename_i d2 hd2
    split at hd2
    · cases hd2
    · rename_i u hu
      cases hd2
      simp at h
      exact h.symm

/-- The loop of `UseSplines` changes only the flag `fUseSplines`. -/
theorem UseSplinesLoop_frame (xsl : XSecSplineList) (m : XSecAlgorithmMap) :
    ∀ (l : List Interaction) (d d1 : GEVGDriver),
      GEVGDriver.UseSplinesLoop xsl m l d = .ok d1 →
      d1 = { d with fUseSplines := d1.fUseSplines } := by
  intro l
  induction l with
  | nil =>
    intro d d1 h
    simp [GEVGDriver.UseSplinesLoop] at h
    subst h; rfl
  | cons i rest ih =>
    intro d d1 h
    simp only [GEVGDriver.UseSplinesLoop] at h
    split at h
    · cases h
    · rename_i a ha
      split at h
      · cases h; rfl
      · have := ih _ _ h
        rw [this]

/-- `UseSplines` changes only the flag `fUseSplines`. -/
theorem UseSplines_frame (xsl : XSecSplineList) (d d1 : GEVGDriver)
    (h : d.UseSplines xsl = .ok d1) : d1 = { d with fUseSplines := d1.fUseSplines } := by
  unfold GEVGDriver.UseSplines at h
  simp only [if_true] at h
  split at h
  · cases h
  · have := UseSplinesLoop_frame xsl _ _ _ _ h
    rw [this]

/-- `CreateSplines` changes only the flag `fUseSplines` of the driver, setting it. -/
theorem CreateSplines_frame (Rnd Log Exp : ℚ → ℚ) (xsl : XSecSplineList) (d : GEVGDriver)
    (useLogE : Bool) (r : CreateSplinesResult)
    (h : d.CreateSplines Rnd Log Exp xsl useLogE = .ok r) :
    r.driver = { d with fUseSplines := true } := by
  unfold GEVGDriver.CreateSplines at h
  split at h
  · cases h
  · dsimp only at h
    split at h
    · cases h
    · cases h; rfl

/-- `CreateXSecSumSpline` changes only the stored sum spline. -/
theorem CreateXSecSumSpline_frame (Rnd Log Exp : ℚ → ℚ) (Evaluate : Spline → ℚ → ℚ)
    (xssl : XSecSplineList) (d d1 : GEVGDriver) (nk : Int) (Emin Emax : ℚ) (inlogE : Bool)
    (h : d.CreateXSecSumSpline Rnd Log Exp Evaluate xssl nk Emin Emax inlogE = .ok d1) :
    d1 = { d with fXSecSumSpl := d1.fXSecSumSpl } := by
  unfold GEVGDriver.CreateXSecSumSpline at h
  split at h
  · cases h
  · split at h
    · cases h
    · split at h
      · cases h
      · cases h; rfl

/-! ## The depth counter across calls -/

/-- Every public operation that returns keeps the counter at zero. -/
theorem Op_run_counter (maxDepth : Nat) (op : Op) (s s1 : GEVGDriver × XSecSplineList)
    (h0 : s.1.fNRecLevel = 0) (h : op.run maxDepth s = .ok s1) : s1.1.fNRecLevel = 0 := by
  cases op with
  | reset => simp [Op.run] at h; subst h; rfl
  | filterUnphysical b => simp [Op.run] at h; subst h; exact h0
  | configure isNu isAntiNu evgl init =>
    simp only [Op.run] at h
    split at h
    · cases h
    · rename_i d hd
      cases h
      rw [Configure_frame isNu isAntiNu evgl _ _ init hd]
      exact h0
  | generateEvent w =>
    simp only [Op.run] at h
    split at h
    · cases h
    · rename_i r hr
      cases h
      exact GenerateEvent_ok_counter maxDepth w s.1 0 r h0 hr
  | xsecSum ev p =>
    simp only [Op.run] at h
    split at h
    · cases h
    · cases h; exact h0
  | createXSecSumSpline rn lg ex ev nk Emin Emax inlogE =>
    simp only [Op.run] at h
    split at h
    · cases h
    · rename_i d hd
      cases h
      rw [CreateXSecSumSpline_frame rn lg ex ev _ _ _ nk Emin Emax inlogE hd]
      exact h0
  | useSplines =>
    simp only [Op.run] at h
    split at h
    · cases h
    · rename_i d hd
      cases h
      rw [UseSplines_frame _ _ _ hd]
      exact h0
  | createSplines rn lg ex useLogE =>
    simp only [Op.run] at h
    split at h
    · cases h
    · rename_i r hr
      cases h
      rw [CreateSplines_frame rn lg ex _ _ useLogE r hr]
      exact h0
  | validEnergyRange =>
    simp only [Op.run] at h
    split at h
    · cases h
    · cases h; exact h0

/-- A sequence of public operations that returns keeps the counter at zero. -/
theorem Op_runAll_counter (maxDepth : Nat) :
    ∀ (ops : List Op) (s s1 : GEVGDriver × XSecSplineList),
      s.1.fNRecLevel = 0 → Op.runAll maxDepth ops s = .ok s1 → s1.1.fNRecLevel = 0 := by
  intro ops
  induction ops with
  | nil =>
    intro s s1 h0 h
    simp [Op.runAll] at h
    subst h; exact h0
  | cons op ops ih =>
    intro s s1 h0 h
    simp only [Op.runAll] at h
    split at h
    · cases h
    · rename_i s2 hs2
      exact ih s2 s1 (Op_run_counter maxDepth op s s2 h0 hs2) h

/-- A pass in which a collaborator throws: the exception leaves the call, with the record
assigned if the selector had returned one and the depth counter as it was. -/
theorem GenerateEvent_threw (maxDepth : Nat) (w : Nat → Attempt) (d : GEVGDriver) (k : Nat)
    (hc : d.CanGenerate = true) :
    (w k = .threw none →
      d.GenerateEvent maxDepth w k = ⟨d, k + 1, .error .exceptionPropagated⟩) ∧
    (∀ r, w k = .threw (some r) →
      d.GenerateEvent maxDepth w k =
        ⟨{ d with fCurrentRecord := some r }, k + 1, .error .exceptionPropagated⟩) := by
  constructor
  · intro hw
    rw [GEVGDriver.GenerateEvent]
    simp [hc, hw]
  · intro r hw
    rw [GEVGDriver.GenerateEvent]
    simp [hc, hw]

/-- The call of the sample sequence whose second pass throws: the exception leaves it
with the counter at 1. -/
theorem twoGeneratorDriver_throw :
    twoGeneratorDriver.GenerateEvent 3 unphysicalThenThrow 0 =
      ⟨{ twoGeneratorDriver with fCurrentRecord := some unphysicalRecord, fNRecLevel := 1 }, 2,
        .error .exceptionPropagated⟩ := by
  rw [GenerateEvent_unphysical 3 unphysicalThenThrow twoGeneratorDriver 0 unphysicalRecord
    rfl rfl rfl rfl]
  rw [if_pos (by decide)]
  rw [(GenerateEvent_threw 3 unphysicalThenThrow
    { twoGeneratorDriver with fCurrentRecord := none,
                              fNRecLevel := twoGeneratorDriver.fNRecLevel + 1 } (0 + 1)
    rfl).2 unphysicalRecord rfl]
  rfl

/-- C7, counterexample: a `GenerateEvent` call that fails need not end the program.  The
function catches nothing, so an exception thrown by the record processing reaches the
caller with the counter as incremented.  After `Configure` and a call whose first pass is
unphysical and whose second pass throws, the counter is 1 when the next top-level call
starts: with `maxDepth = 3` and every pass unphysical that call makes 3 passes, where a
call on the driver as configured makes 4. -/
theorem counter_not_zero_after_exception :
    ∃ s, Op.runAllCaught 3 throwingOps (GEVGDriver.Init, emptySplineList) = .ok s ∧
      s.1.fNRecLevel = 1 ∧ s.1.CanGenerate = true ∧ s.1.fFilterUnphysical = true ∧
      (s.1.GenerateEvent 3 alwaysUnphysical 0).attempts = 3 ∧
      (twoGeneratorDriver.GenerateEvent 3 alwaysUnphysical 0).attempts = 4 := by
  have hcfg : GEVGDriver.Init.Configure isNuCode isAntiNuCode [qelGenerator, disGenerator]
      numuFe56 = .ok twoGeneratorDriver := rfl
  have hall : ∀ j, ∃ r, alwaysUnphysical j = .processed r ∧ r.IsUnphysical = true :=
    fun _ => ⟨unphysicalRecord, rfl, rfl⟩
  refine ⟨({ twoGeneratorDriver with fCurrentRecord := some unphysicalRecord, fNRecLevel := 1 },
    emptySplineList), ?_, rfl, rfl, rfl, ?_, ?_⟩
  · simp only [throwingOps, Op.runAllCaught, Op.runCaught, Op.run, hcfg,
      twoGeneratorDriver_throw]
  · exact (GenerateEvent_allUnphysical 3 alwaysUnphysical hall 2
      { twoGeneratorDriver with fCurrentRecord := some unphysicalRecord, fNRecLevel := 1 }
      0 rfl rfl rfl).2.1
  · exact (GenerateEvent_allUnphysical 3 alwaysUnphysical hall 3 twoGeneratorDriver
      0 rfl rfl rfl).2.1

/-- C7, amended: in every driver state reached from a freshly initialised driver by a
sequence of public operations that returned (each `GenerateEvent` call returned a
record), the depth counter is 0, so the next top-level `GenerateEvent` call starts at
depth 0; the passes available to it do not depend on earlier calls: if every pass of the
next call is unphysical (filtering on), it makes exactly `maxDepth + 1` of them. -/
theorem counter_zero_at_top_level_call (maxDepth : Nat) (ops : List Op)
    (xsl : XSecSplineList) (s : GEVGDriver × XSecSplineList)
    (h : Op.runAll maxDepth ops (GEVGDriver.Init, xsl) = .ok s) :
    s.1.fNRecLevel = 0 ∧
    ∀ w : Nat → Attempt, s.1.CanGenerate = true → s.1.fFilterUnphysical = true →
      (∀ j, ∃ r, w j = .processed r ∧ r.IsUnphysical = true) →
      (s.1.GenerateEvent maxDepth w 0).attempts = maxDepth + 1 := by
  have h0 : s.1.fNRecLevel = 0 := Op_runAll_counter maxDepth ops _ s rfl h
  refine ⟨h0, ?_⟩
  intro w hc hf hw
  have := (GenerateEvent_allUnphysical maxDepth w hw maxDepth s.1 0 (by omega) hc hf).2.1
  rw [this]; omega

/-- Witness of C7: configure, generate with two unphysical passes before a physical one,
switch filtering off, generate again. -/
theorem counter_zero_at_top_level_call_witness :
    ∃ s, Op.runAll 3 sampleOps (GEVGDriver.Init, emptySplineList) = .ok s ∧
      s.1.fNRecLevel = 0 := by
  have h : Op.runAll 3 sampleOps (GEVGDriver.Init, emptySplineList) =
      .ok ({ (twoGeneratorDriver.FilterUnphysical false) with
              fCurrentRecord := some unphysicalRecord }, emptySplineList) := by
    have hcfg : GEVGDriver.Init.Configure isNuCode isAntiNuCode [qelGenerator, disGenerator]
        numuFe56 = .ok twoGeneratorDriver := rfl
    simp only [sampleOps, Op.runAll, Op.run, hcfg, twoGeneratorDriver_retry]
    rw [GenerateEvent_unfiltered 3 alwaysUnphysical
      (GEVGDriver.FilterUnphysical
        { twoGeneratorDriver with fCurrentRecord := some physicalRecord } false)
      0 unphysicalRecord rfl rfl rfl]
    rfl
  exact ⟨_, h, (counter_zero_at_top_level_call 3 sampleOps emptySplineList _ h).1⟩

/-! ## Valid energy range -/

/-- The loop of `ValidEnergyRange` computes the two bounds independently. -/
theorem foldl_combineRange (l : List EventGeneratorI) :
    ∀ a b : ℚ, l.foldl GEVGDriver.combineRange ⟨a, b⟩ =
      ⟨l.foldl (fun m h => min m (max (1 / 100 : ℚ) h.Emin)) a,
       l.foldl (fun m h => max m h.Emax) b⟩ := by
  induction l with
  | nil => intro a b; rfl
  | cons g gs ih =>
    intro a b
    simp only [List.foldl_cons, GEVGDriver.combineRange]
    exact ih _ _

/-- A running maximum started from `max a b` is `max a` of the one started from `b`. -/
theorem foldl_max_init (f : EventGeneratorI → ℚ) (l : List EventGeneratorI) :
    ∀ a b : ℚ, l.foldl (fun m h => max m (f h)) (max a b) =
      max a (l.foldl (fun m h => max m (f h)) b) := by
  induction l with
  | nil => intro a b; rfl
  | cons g gs ih =>
    intro a b
    simp only [List.foldl_cons]
    rw [max_assoc]
    exact ih _ _

/-- A running minimum started from `min a b` is `min a` of the one started from `b`. -/
theorem foldl_min_init (f : EventGeneratorI → ℚ) (l : List EventGeneratorI) :
    ∀ a b : ℚ, l.foldl (fun m h => min m (f h)) (min a b) =
      min a (l.foldl (fun m h => min m (f h)) b) := by
  induction l with
  | nil => intro a b; rfl
  | cons g gs ih =>
    intro a b
    simp only [List.foldl_cons]
    rw [min_assoc]
    exact ih _ _

/-- The combined range of a non-empty generator list in closed form. -/
theorem combinedRange_cons (g : EventGeneratorI) (gs : List EventGeneratorI) :
    GEVGDriver.combinedRange (g :: gs) =
      ⟨min 9999 (minFlooredEmin g gs), max (-9999) (maxDeclaredEmax g gs)⟩ := by
  unfold GEVGDriver.combinedRange
  rw [foldl_combineRange]
  simp only [List.foldl_cons, minFlooredEmin, maxDeclaredEmax]
  rw [foldl_max_init (fun h => h.Emax), foldl_min_init (fun h => max (1 / 100 : ℚ) h.Emin)]

/-- The running minimum is below its start and below every element. -/
theorem foldl_min_le (f : EventGeneratorI → ℚ) (l : List EventGeneratorI) :
    ∀ a : ℚ, l.foldl (fun m h => min m (f h)) a ≤ a ∧
      ∀ g ∈ l, l.foldl (fun m h => min m (f h)) a ≤ f g := by
  induction l with
  | nil => intro a; simp
  | cons g gs ih =>
    intro a
    simp only [List.foldl_cons, List.mem_cons, forall_eq_or_imp]
    have h := ih (min a (f g))
    exact ⟨le_trans h.1 (min_le_left _ _), le_trans h.1 (min_le_right _ _), h.2⟩

/-- When no declared `Emin` is below the floor, flooring changes nothing. -/
theorem minFlooredEmin_eq (g : EventGeneratorI) (gs : List EventGeneratorI)
    (h : ∀ m ∈ g :: gs, (1 / 100 : ℚ) ≤ m.Emin) : minFlooredEmin g gs = minDeclaredEmin g gs := by
  unfold minFlooredEmin minDeclaredEmin
  rw [max_eq_right (h g (List.mem_cons_self _ _))]
  have hgs : ∀ m ∈ gs, (1 / 100 : ℚ) ≤ m.Emin := fun m hm => h m (List.mem_cons_of_mem _ hm)
  clear h
  generalize g.Emin = a
  induction gs generalizing a with
  | nil => rfl
  | cons x xs ih =>
    simp only [List.foldl_cons]
    rw [max_eq_right (hgs x (List.mem_cons_self _ _))]
    exact ih (fun m hm => hgs m (List.mem_cons_of_mem _ hm)) _

/-- C5, as stated, fails: a single generator declaring [0.001, 5] gives the range
[0.01, 5], whose lower bound is not the declared minimum 0.001. -/
theorem ValidEnergyRange_not_declared_min :
    lowGeneratorDriver.fEvGenList = some [lowGenerator] ∧
    lowGeneratorDriver.ValidEnergyRange = .ok ⟨1 / 100, 5⟩ ∧
    minDeclaredEmin lowGenerator [] = 1 / 1000 ∧ maxDeclaredEmax lowGenerator [] = 5 ∧
    lowGeneratorDriver.ValidEnergyRange
      ≠ .ok ⟨minDeclaredEmin lowGenerator [], maxDeclaredEmax lowGenerator []⟩ := by
  have h1 : lowGeneratorDriver.fEvGenList = some [lowGenerator] := rfl
  have h2 : lowGeneratorDriver.ValidEnergyRange = .ok ⟨1 / 100, 5⟩ := by
    unfold GEVGDriver.ValidEnergyRange
    rw [h1]
    simp only [combinedRange_cons, minFlooredEmin, maxDeclaredEmax, List.foldl_nil, lowGenerator]
    norm_num
  refine ⟨h1, h2, rfl, rfl, ?_⟩
  rw [h2]
  simp only [minDeclaredEmin, maxDeclaredEmax, List.foldl_nil, lowGenerator]
  norm_num

/-- C5, amended: for every non-empty generator list on which `ValidEnergyRange` succeeds,
the returned range is [min(9999, min over generators of max(0.01, declared Emin)),
max over generators of declared Emax]; when every generator declares Emin ≥ 0.01 and one
declares Emin ≤ 9999, that is [min of the declared Emin, max of the declared Emax]. -/
theorem ValidEnergyRange_value (d : GEVGDriver) (g : EventGeneratorI)
    (gs : List EventGeneratorI) (E : Range1D_t) (hl : d.fEvGenList = some (g :: gs))
    (hok : d.ValidEnergyRange = .ok E) :
    E.min = min 9999 (minFlooredEmin g gs) ∧ E.max = maxDeclaredEmax g gs ∧
    ((∀ m ∈ g :: gs, (1 / 100 : ℚ) ≤ m.Emin) → (∃ m ∈ g :: gs, m.Emin ≤ 9999) →
      E.min = minDeclaredEmin g gs) := by
  unfold GEVGDriver.ValidEnergyRange at hok
  rw [hl] at hok
  simp only [combinedRange_cons] at hok
  split at hok
  · rename_i hcond
    cases hok
    have hmin : (0 : ℚ) ≤ min 9999 (minFlooredEmin g gs) := hcond.2
    have hlt : min 9999 (minFlooredEmin g gs) < max (-9999) (maxDeclaredEmax g gs) := hcond.1
    have hmax : max (-9999) (maxDeclaredEmax g gs) = maxDeclaredEmax g gs := by
      apply max_eq_right
      by_contra hc
      rw [max_eq_left (le_of_lt (not_le.mp hc))] at hlt
      linarith
    refine ⟨rfl, hmax, ?_⟩
    intro hfloor hex
    rw [minFlooredEmin_eq g gs hfloor]
    apply min_eq_right
    obtain ⟨m, hm, hm9⟩ := hex
    have hle := foldl_min_le (fun h => h.Emin) gs g.Emin
    rcases List.mem_cons.mp hm with rfl | hm1
    · exact le_trans hle.1 hm9
    · exact le_trans (hle.2 m hm1) hm9
  · cases hok

/-- Witness of C5 amended: generators declaring [1, 5] and [3, 10] give [1, 10]. -/
theorem ValidEnergyRange_value_witness :
    twoGeneratorDriver.ValidEnergyRange = .ok ⟨1, 10⟩ ∧
    (⟨1, 10⟩ : Range1D_t).min = minDeclaredEmin qelGenerator [disGenerator] ∧
    (⟨1, 10⟩ : Range1D_t).max = maxDeclaredEmax qelGenerator [disGenerator] := by
  have h1 : twoGeneratorDriver.fEvGenList = some [qelGenerator, disGenerator] := rfl
  have h2 : twoGeneratorDriver.ValidEnergyRange = .ok ⟨1, 10⟩ := by
    unfold GEVGDriver.ValidEnergyRange
    rw [h1]
    simp only [combinedRange_cons, minFlooredEmin, maxDeclaredEmax, List.foldl_cons,
      List.foldl_nil, qelGenerator, disGenerator]
    norm_num
  have h := ValidEnergyRange_value twoGeneratorDriver qelGenerator [disGenerator] ⟨1, 10⟩ h1 h2
  refine ⟨h2, ?_, h.2.1⟩
  apply h.2.2
  · intro m hm
    simp only [List.mem_cons, List.mem_singleton, List.not_mem_nil, or_false] at hm
    rcases hm with rfl | rfl <;> simp only [qelGenerator, disGenerator] <;> norm_num
  · exact ⟨qelGenerator, List.mem_cons_self _ _, by simp only [qelGenerator]; norm_num⟩

/-- C6: `ValidEnergyRange` aborts (no range is returned) exactly when the combined range
has min ≥ max or min < 0, and otherwise returns the combined range; it aborts for an
empty generator list. -/
theorem ValidEnergyRange_fails_iff (d : GEVGDriver) (evgl : List EventGeneratorI)
    (hl : d.fEvGenList = some evgl) :
    (d.ValidEnergyRange = .error .badEnergyRange ↔
      ((GEVGDriver.combinedRange evgl).min ≥ (GEVGDriver.combinedRange evgl).max ∨
       (GEVGDriver.combinedRange evgl).min < 0)) ∧
    (¬ ((GEVGDriver.combinedRange evgl).min ≥ (GEVGDriver.combinedRange evgl).max ∨
        (GEVGDriver.combinedRange evgl).min < 0) →
      d.ValidEnergyRange = .ok (GEVGDriver.combinedRange evgl)) ∧
    (evgl = [] → d.ValidEnergyRange = .error .badEnergyRange) := by
  unfold GEVGDriver.ValidEnergyRange
  rw [hl]
  simp only
  refine ⟨?_, ?_, ?_⟩
  · constructor
    · intro h
      split at h
      · cases h
      · rename_i hc
        rw [not_and_or, not_lt, not_le] at hc
        exact hc
    · intro h
      rw [if_neg]
      rw [not_and_or, not_lt, not_le]
      exact h
  · intro h
    rw [if_pos]
    rw [not_or, not_le, not_lt] at h
    exact h
  · intro h
    subst h
    rw [if_neg]
    simp only [GEVGDriver.combinedRange, List.foldl_nil]
    norm_num

/-- Witness of C6: the driver configured with an empty generator list. -/
theorem ValidEnergyRange_fails_iff_witness :
    noGeneratorDriver.ValidEnergyRange = .error .badEnergyRange :=
  (ValidEnergyRange_fails_iff noGeneratorDriver [] rfl).2.2 rfl

/-! ## The interaction to algorithm map -/

/-- Setting the probe 4-momentum does not change the canonical string. -/
theorem SetProbeP4_AsString (i : Interaction) (p : TLorentzVector) :
    (i.SetProbeP4 p).AsString = i.AsString := rfl

/-- Recording an interaction keeps the map complete. -/
theorem insert_Complete (m : XSecAlgorithmMap) (i : Interaction) (alg : XSecAlgorithmI)
    (h : m.Complete) : (m.insert i alg).Complete := by
  intro j hj
  simp only [XSecAlgorithmMap.insert, List.mem_append, List.mem_singleton] at hj
  simp only [XSecAlgorithmMap.insert, List.lookup_append]
  rcases hj with hj | rfl
  · obtain ⟨a, ha⟩ := h j hj
    exact ⟨a, by simp [ha]⟩
  · cases hl : List.lookup j.AsString m.fMap with
    | some a => exact ⟨a, by simp⟩
    | none => exact ⟨alg, by simp [List.lookup_cons]⟩

/-- Recording the interactions of a list keeps the map complete. -/
theorem foldl_insert_Complete (alg : XSecAlgorithmI) (ilst : List Interaction) :
    ∀ m : XSecAlgorithmMap, m.Complete →
      (ilst.foldl (fun m1 i => m1.insert i alg) m).Complete := by
  induction ilst with
  | nil => intro m h; exact h
  | cons i rest ih =>
    intro m h
    simp only [List.foldl_cons]
    exact ih _ (insert_Complete m i alg h)

/-- Adding a generator keeps the map complete. -/
theorem addGenerator_Complete (init : InitialState) (m : XSecAlgorithmMap)
    (evgen : EventGeneratorI) (h : m.Complete) :
    (XSecAlgorithmMap.addGenerator init m evgen).Complete := by
  unfold XSecAlgorithmMap.addGenerator
  split
  · exact h
  · split
    · exact h
    · exact foldl_insert_Complete _ _ m h

/-- Folding generators keeps the map complete. -/
theorem foldl_addGenerator_Complete (init : InitialState) (evgl : List EventGeneratorI) :
    ∀ m : XSecAlgorithmMap, m.Complete →
      (evgl.foldl (XSecAlgorithmMap.addGenerator init) m).Complete := by
  induction evgl with
  | nil => intro m h; exact h
  | cons g gs ih =>
    intro m h
    simp only [List.foldl_cons]
    exact ih _ (addGenerator_Complete init m g h)

/-- The map built by `BuildMap` finds an algorithm for every interaction it lists. -/
theorem BuildMap_Complete (evgl : List EventGeneratorI) (init : InitialState) :
    (XSecAlgorithmMap.BuildMap evgl init).Complete := by
  unfold XSecAlgorithmMap.BuildMap
  apply foldl_addGenerator_Complete
  intro i hi
  cases hi

/-! ## Cross-section sum -/

/-- The loop of `XSecSum` on a complete map adds the specified terms to the running sum. -/
theorem XSecSumLoop_eq (Evaluate : Spline → ℚ → ℚ) (xssl : XSecSplineList)
    (m : XSecAlgorithmMap) (useSplines : Bool) (p : TLorentzVector) :
    ∀ (l : List Interaction) (acc : ℚ), (∀ i ∈ l, ∃ a, m.FindXSecAlgorithm i = some a) →
      GEVGDriver.XSecSumLoop Evaluate xssl m useSplines p l acc =
        .ok (acc + (l.map (fun i =>
          match m.FindXSecAlgorithm i with
          | some a => specInteractionXSec Evaluate xssl useSplines a i p
          | none => 0)).sum) := by
  intro l
  induction l with
  | nil => intro acc _; simp [GEVGDriver.XSecSumLoop]
  | cons i rest ih =>
    intro acc h
    obtain ⟨a, ha⟩ := h i (List.mem_cons_self _ _)
    have hrest : ∀ j ∈ rest, ∃ a, m.FindXSecAlgorithm j = some a :=
      fun j hj => h j (List.mem_cons_of_mem _ hj)
    have ha1 : m.FindXSecAlgorithm (i.SetProbeP4 p) = some a := ha
    have hg : xssl.GetSpline a (i.SetProbeP4 p) = xssl.GetSpline a i := rfl
    simp only [GEVGDriver.XSecSumLoop, ha1, List.map_cons, List.sum_cons, ha,
      XSecSplineList.SplineExists, hg]
    cases hs : xssl.GetSpline a i with
    | none =>
      simp only [Option.isSome_none, Bool.false_and, Bool.false_eq_true, if_false]
      rw [ih _ hrest]
      cases useSplines <;> simp [specInteractionXSec, hs, add_assoc]
    | some spl =>
      cases useSplines with
      | false =>
        simp only [Option.isSome_some, Bool.and_false, Bool.false_eq_true, if_false]
        rw [ih _ hrest]
        simp [specInteractionXSec, hs, add_assoc]
      | true =>
        simp only [Option.isSome_some, Bool.and_true, if_true]
        rw [ih _ hrest]
        simp [specInteractionXSec, hs, add_assoc]

/-- The value of `XSecSum` on a driver whose map is complete. -/
theorem XSecSum_eq (Evaluate : Spline → ℚ → ℚ) (xssl : XSecSplineList) (d : GEVGDriver)
    (m : XSecAlgorithmMap) (p : TLorentzVector) (hm : d.fXSecAlgorithmMap = some m)
    (hc : m.Complete) :
    d.XSecSum Evaluate xssl p = .ok (specXSecSum Evaluate xssl m d.fUseSplines p) := by
  unfold GEVGDriver.XSecSum
  rw [hm]
  simp only
  rw [XSecSumLoop_eq Evaluate xssl m d.fUseSplines p m.GetInteractionList 0 hc, zero_add]
  rfl

/-- C3: for a driver whose map was built by `BuildMap`, any spline list and any probe
4-momentum, `XSecSum` returns the sum over the interactions of the map, each with the
algorithm the map finds for it, of the spline value at the probe energy when splines are
in use and the spline exists, and of the direct value of the algorithm on the
interaction with the probe 4-momentum set otherwise; for an empty map it is 0. -/
theorem XSecSum_eq_specXSecSum (Evaluate : Spline → ℚ → ℚ) (xssl : XSecSplineList)
    (d : GEVGDriver) (evgl : List EventGeneratorI) (init : InitialState) (p : TLorentzVector)
    (hm : d.fXSecAlgorithmMap = some (XSecAlgorithmMap.BuildMap evgl init)) :
    (∀ i ∈ (XSecAlgorithmMap.BuildMap evgl init).GetInteractionList,
      ∃ a, (XSecAlgorithmMap.BuildMap evgl init).FindXSecAlgorithm i = some a) ∧
    d.XSecSum Evaluate xssl p =
      .ok (specXSecSum Evaluate xssl (XSecAlgorithmMap.BuildMap evgl init) d.fUseSplines p) ∧
    ((XSecAlgorithmMap.BuildMap evgl init).GetInteractionList = [] →
      d.XSecSum Evaluate xssl p = .ok 0) := by
  have hc := BuildMap_Complete evgl init
  have hs := XSecSum_eq Evaluate xssl d _ p hm hc
  refine ⟨hc, hs, ?_⟩
  intro he
  rw [hs]
  simp [specXSecSum, he]

/-- Witness of C3: two interactions, splines in use, a spline cached for the first only:
the sum is the spline value 2 plus the direct value 3 · 2. -/
theorem XSecSum_eq_specXSecSum_witness :
    GEVGDriver.XSecSum firstKnotValue qelOnlySplineList
      { twoGeneratorDriver with fUseSplines := true } probeAt2 = .ok 8 := by
  have h := (XSecSum_eq_specXSecSum firstKnotValue qelOnlySplineList
    { twoGeneratorDriver with fUseSplines := true } [qelGenerator, disGenerator] numuFe56
    probeAt2 rfl).2.1
  rw [h]
  have : specXSecSum firstKnotValue qelOnlySplineList
      (XSecAlgorithmMap.BuildMap [qelGenerator, disGenerator] numuFe56) true probeAt2 = 8 := by
    simp [specXSecSum, XSecAlgorithmMap.BuildMap, XSecAlgorithmMap.addGenerator,
      XSecAlgorithmMap.insert, XSecAlgorithmMap.GetInteractionList,
      XSecAlgorithmMap.FindXSecAlgorithm, qelGenerator, disGenerator, Interaction.AsString,
      List.lookup, specInteractionXSec, XSecSplineList.GetSpline, qelOnlySplineList,
      XSecSplineList.BuildSplineKey, qelXSec, disXSec, firstKnotValue, probeAt2,
      Interaction.SetProbeP4, InitialState.SetProbeP4, TLorentzVector.Energy,
      show (("DISXSec", "DIS") == ("QELXSec", "QES")) = false from by decide]
    norm_num
  rw [this]

/-! ## Spline bookkeeping -/

/-- The loop of `UseSplines` on a complete map returns, and leaves the flag set exactly
when it was set and every interaction of the list has a spline for its algorithm. -/
theorem UseSplinesLoop_iff (xsl : XSecSplineList) (m : XSecAlgorithmMap) :
    ∀ (l : List Interaction) (d : GEVGDriver),
      (∀ i ∈ l, ∃ a, m.FindXSecAlgorithm i = some a) →
      ∃ d1, GEVGDriver.UseSplinesLoop xsl m l d = .ok d1 ∧
        (d1.fUseSplines = true ↔
          (d.fUseSplines = true ∧
            ∀ i ∈ l, ∃ a, m.FindXSecAlgorithm i = some a ∧ xsl.SplineExists a i = true)) := by
  intro l
  induction l with
  | nil =>
    intro d _
    exact ⟨d, rfl, by simp⟩
  | cons i rest ih =>
    intro d h
    obtain ⟨a, ha⟩ := h i (List.mem_cons_self _ _)
    have hrest : ∀ j ∈ rest, ∃ a, m.FindXSecAlgorithm j = some a :=
      fun j hj => h j (List.mem_cons_of_mem _ hj)
    simp only [GEVGDriver.UseSplinesLoop, ha]
    cases hs : xsl.SplineExists a i with
    | false =>
      refine ⟨{ d with fUseSplines := d.fUseSplines && false }, by simp, ?_⟩
      simp only [Bool.and_false, Bool.false_eq_true, false_iff, not_and]
      intro _ hall
      obtain ⟨a1, ha1, hs1⟩ := hall i (List.mem_cons_self _ _)
      rw [ha] at ha1
      cases ha1
      rw [hs] at hs1
      cases hs1
    | true =>
      obtain ⟨d1, hd1, hiff⟩ := ih { d with fUseSplines := d.fUseSplines && true } hrest
      refine ⟨d1, by simpa using hd1, ?_⟩
      rw [hiff]
      simp only [Bool.and_true, List.mem_cons, forall_eq_or_imp]
      constructor
      · rintro ⟨hd, hall⟩
        exact ⟨hd, ⟨a, ha, hs⟩, hall⟩
      · rintro ⟨hd, _, hall⟩
        exact ⟨hd, hall⟩

/-- C4: for a driver whose map was built by `BuildMap`, any spline list and whatever the
flag was before, `UseSplines` returns, changes only the flag `fUseSplines`, and leaves it
true if and only if every interaction of the map has a spline for its mapped algorithm;
an empty map leaves it true and a single missing spline leaves it false. -/
theorem UseSplines_iff_all_splines (xsl : XSecSplineList) (d : GEVGDriver)
    (evgl : List EventGeneratorI) (init : InitialState)
    (hm : d.fXSecAlgorithmMap = some (XSecAlgorithmMap.BuildMap evgl init)) :
    ∃ d1, d.UseSplines xsl = .ok d1 ∧ d1 = { d with fUseSplines := d1.fUseSplines } ∧
      (d1.fUseSplines = true ↔
        ∀ i ∈ (XSecAlgorithmMap.BuildMap evgl init).GetInteractionList,
          ∃ a, (XSecAlgorithmMap.BuildMap evgl init).FindXSecAlgorithm i = some a ∧
            xsl.SplineExists a i = true) ∧
      ((XSecAlgorithmMap.BuildMap evgl init).GetInteractionList = [] →
        d1.fUseSplines = true) ∧
      (∀ i ∈ (XSecAlgorithmMap.BuildMap evgl init).GetInteractionList, ∀ a,
        (XSecAlgorithmMap.BuildMap evgl init).FindXSecAlgorithm i = some a →
        xsl.SplineExists a i = false → d1.fUseSplines = false) := by
  obtain ⟨d1, hd1, hiff⟩ := UseSplinesLoop_iff xsl (XSecAlgorithmMap.BuildMap evgl init)
    (XSecAlgorithmMap.BuildMap evgl init).GetInteractionList { d with fUseSplines := true }
    (BuildMap_Complete evgl init)
  have hrun : d.UseSplines xsl = .ok d1 := by
    unfold GEVGDriver.UseSplines
    simp only [if_true, hm]
    rw [hm] at hd1
    exact hd1
  have hiff1 : d1.fUseSplines = true ↔
      ∀ i ∈ (XSecAlgorithmMap.BuildMap evgl init).GetInteractionList,
        ∃ a, (XSecAlgorithmMap.BuildMap evgl init).FindXSecAlgorithm i = some a ∧
          xsl.SplineExists a i = true := by
    rw [hiff]; simp
  refine ⟨d1, hrun, UseSplines_frame xsl d d1 hrun, hiff1, ?_, ?_⟩
  · intro he
    rw [hiff1, he]
    intro i hi
    cases hi
  · intro i hi a ha hs
    cases hf : d1.fUseSplines with
    | false => rfl
    | true =>
      obtain ⟨a1, ha1, hs1⟩ := hiff1.mp hf i hi
      rw [ha] at ha1
      cases ha1
      rw [hs] at hs1
      cases hs1

/-- Witness of C4: two interactions, a spline cached for the first only: the flag is
left false. -/
theorem UseSplines_iff_all_splines_witness :
    ∃ d1, twoGeneratorDriver.UseSplines qelOnlySplineList = .ok d1 ∧
      d1.fUseSplines = false := by
  obtain ⟨d1, hrun, _, _, _, hmiss⟩ := UseSplines_iff_all_splines qelOnlySplineList
    twoGeneratorDriver [qelGenerator, disGenerator] numuFe56 rfl
  refine ⟨d1, hrun, hmiss ⟨"DIS", numuFe56⟩ ?_ disXSec rfl rfl⟩
  simp [XSecAlgorithmMap.BuildMap, XSecAlgorithmMap.addGenerator, XSecAlgorithmMap.insert,
    XSecAlgorithmMap.GetInteractionList, qelGenerator, disGenerator]

/-! ## Creating the splines -/

/-- `KeptIn` is reflexive. -/
theorem KeptIn_refl (xsl : XSecSplineList) : xsl.KeptIn xsl := fun _ _ h => h

/-- `KeptIn` is transitive. -/
theorem KeptIn_trans (x y z : XSecSplineList) (h1 : x.KeptIn y) (h2 : y.KeptIn z) :
    x.KeptIn z := fun key spl h => h2 key spl (h1 key spl h)

/-- A spline that exists still exists in a list that keeps it. -/
theorem KeptIn_isSome (x y : XSecSplineList) (h : x.KeptIn y) (key : String × String)
    (hs : (x.fSplineMap.lookup key).isSome = true) : (y.fSplineMap.lookup key).isSome = true := by
  cases hl : x.fSplineMap.lookup key with
  | none => rw [hl] at hs; cases hs
  | some spl => rw [h key spl hl]; rfl

/-- With valid bounds `CreateSpline` succeeds, keeps the existing splines and leaves a
spline for the requested pair. -/
theorem CreateSpline_ok (Rnd Log Exp : ℚ → ℚ) (xsl : XSecSplineList) (alg : XSecAlgorithmI)
    (i : Interaction) (Emin Emax : ℚ) (h1 : Emin < Emax) (h2 : 0 < Emin) :
    ∃ xsl1, xsl.CreateSpline Rnd Log Exp alg i 40 Emin Emax = .ok xsl1 ∧ xsl.KeptIn xsl1 ∧
      xsl1.SplineExists alg i = true := by
  unfold XSecSplineList.CreateSpline
  have hpre : Emin < Emax ∧ Emin > 0 ∧ (40 : Int) > 2 := ⟨h1, h2, by decide⟩
  simp only [hpre, not_true_eq_false, if_false]
  cases hs : xsl.SplineExists alg i with
  | true => exact ⟨xsl, by simp, KeptIn_refl xsl, hs⟩
  | false =>
    simp only [Bool.false_eq_true, if_false]
    refine ⟨_, rfl, ?_, ?_⟩
    · intro key spl hk
      simp only [List.lookup_append, hk, Option.or_some]
    · have hn : xsl.fSplineMap.lookup (XSecSplineList.BuildSplineKey alg i) = none := by
        simpa [XSecSplineList.SplineExists, XSecSplineList.GetSpline] using hs
      simp only [XSecSplineList.SplineExists, XSecSplineList.GetSpline, List.lookup_append, hn]
      simp [List.lookup_cons]

/-- The inner loop of `CreateSplines` with valid bounds succeeds, keeps the existing
splines and leaves a spline for every interaction of the list. -/
theorem CreateSplinesInner_ok (Rnd Log Exp : ℚ → ℚ) (alg : XSecAlgorithmI) (Emin Emax : ℚ)
    (h1 : Emin < Emax) (h2 : 0 < Emin) :
    ∀ (ilst : List Interaction) (st : XSecSplineList × List SplineRequest),
      ∃ st1, GEVGDriver.CreateSplinesInner Rnd Log Exp alg Emin Emax ilst st = .ok st1 ∧
        st.1.KeptIn st1.1 ∧ ∀ i ∈ ilst, st1.1.SplineExists alg i = true := by
  intro ilst
  induction ilst with
  | nil =>
    intro st
    exact ⟨st, rfl, KeptIn_refl _, fun i hi => by cases hi⟩
  | cons i rest ih =>
    intro st
    simp only [GEVGDriver.CreateSplinesInner]
    cases hs : st.1.SplineExists alg i with
    | true =>
      simp only [Bool.not_true, Bool.false_eq_true, if_false]
      obtain ⟨st1, hrun, hkept, hall⟩ := ih st
      refine ⟨st1, hrun, hkept, ?_⟩
      intro j hj
      rcases List.mem_cons.mp hj with rfl | hj1
      · exact KeptIn_isSome _ _ hkept _ hs
      · exact hall j hj1
    | false =>
      simp only [Bool.not_false, if_true]
      obtain ⟨xsl1, hc, hk1, he1⟩ := CreateSpline_ok Rnd Log Exp st.1 alg i Emin Emax h1 h2
      rw [hc]
      obtain ⟨st1, hrun, hkept, hall⟩ :=
        ih (xsl1, st.2 ++ [⟨alg.Id, i.AsString, 40, Emin, Emax⟩])
      refine ⟨st1, hrun, KeptIn_trans _ _ _ hk1 hkept, ?_⟩
      intro j hj
      rcases List.mem_cons.mp hj with rfl | hj1
      · exact KeptIn_isSome _ _ hkept _ he1
      · exact hall j hj1

/-- The outer loop of `CreateSplines`, when every generator has an interaction-list
generator and valid bounds, succeeds, keeps the existing splines and leaves a spline for
every interaction that a generator yields, under the algorithm of that generator. -/
theorem CreateSplinesOuter_ok (Rnd Log Exp : ℚ → ℚ) (d : GEVGDriver) (init : InitialState)
    (hi : d.fInitState = some init) :
    ∀ (evgl : List EventGeneratorI) (st : XSecSplineList × List SplineRequest),
      (∀ g ∈ evgl, g.IntListGenerator ≠ none) →
      (∀ g ∈ evgl, max (1 / 100 : ℚ) g.Emin < g.Emax) →
      ∃ st1, GEVGDriver.CreateSplinesOuter Rnd Log Exp d evgl st = .ok st1 ∧
        st.1.KeptIn st1.1 ∧
        ∀ g ∈ evgl, ∀ c, Yields init g c →
          (st1.1.fSplineMap.lookup (g.CrossSectionAlg.Id, c)).isSome = true := by
  intro evgl
  induction evgl with
  | nil =>
    intro st _ _
    exact ⟨st, rfl, KeptIn_refl _, fun g hg => by cases hg⟩
  | cons g gs ih =>
    intro st hgen hb
    have hgs : ∀ x ∈ gs, x.IntListGenerator ≠ none :=
      fun x hx => hgen x (List.mem_cons_of_mem _ hx)
    have hbs : ∀ x ∈ gs, max (1 / 100 : ℚ) x.Emin < x.Emax :=
      fun x hx => hb x (List.mem_cons_of_mem _ hx)
    simp only [GEVGDriver.CreateSplinesOuter]
    cases hgg : g.IntListGenerator with
    | none => exact absurd hgg (hgen g (List.mem_cons_self _ _))
    | some ilstgen =>
      simp only [hi]
      cases hil : ilstgen init with
      | none =>
        obtain ⟨st1, hrun, hkept, hall⟩ := ih st hgs hbs
        refine ⟨st1, hrun, hkept, ?_⟩
        intro x hx c hy
        rcases List.mem_cons.mp hx with rfl | hx1
        · obtain ⟨gen, ilst, i, h1, h2, _, _⟩ := hy
          rw [hgg] at h1
          cases h1
          rw [hil] at h2
          cases h2
        · exact hall x hx1 c hy
      | some ilst =>
        have hbg := hb g (List.mem_cons_self _ _)
        have hpos : (0 : ℚ) < max (1 / 100 : ℚ) g.Emin :=
          lt_of_lt_of_le (by norm_num) (le_max_left _ _)
        obtain ⟨st0, hin, hk0, hall0⟩ := CreateSplinesInner_ok Rnd Log Exp g.CrossSectionAlg
          (max (1 / 100 : ℚ) g.Emin) g.Emax hbg hpos ilst st
        simp only [hin]
        obtain ⟨st1, hrun, hkept, hall⟩ := ih st0 hgs hbs
        refine ⟨st1, hrun, KeptIn_trans _ _ _ hk0 hkept, ?_⟩
        intro x hx c hy
        rcases List.mem_cons.mp hx with rfl | hx1
        · obtain ⟨gen, ilst1, i, h1, h2, h3, h4⟩ := hy
          rw [hgg] at h1
          cases h1
          rw [hil] at h2
          cases h2
          subst h4
          exact KeptIn_isSome _ _ hkept _ (hall0 i h3)
        · exact hall x hx1 c hy

/-- Recording an interaction that a generator of `G` yields keeps the map sourced. -/
theorem insert_SourcedFrom (init : InitialState) (G : List EventGeneratorI)
    (m : XSecAlgorithmMap) (evgen : EventGeneratorI) (i : Interaction) (hG : evgen ∈ G)
    (hy : Yields init evgen i.AsString) (h : m.SourcedFrom init G) :
    (m.insert i evgen.CrossSectionAlg).SourcedFrom init G := by
  intro p hp
  simp only [XSecAlgorithmMap.insert, List.mem_append, List.mem_singleton] at hp
  rcases hp with hp | rfl
  · exact h p hp
  · exact ⟨evgen, hG, rfl, hy⟩

/-- Recording interactions that a generator of `G` yields keeps the map sourced. -/
theorem foldl_insert_SourcedFrom (init : InitialState) (G : List EventGeneratorI)
    (evgen : EventGeneratorI) (hG : evgen ∈ G) :
    ∀ (l : List Interaction) (m : XSecAlgorithmMap),
      (∀ i ∈ l, Yields init evgen i.AsString) → m.SourcedFrom init G →
      (l.foldl (fun m1 i => m1.insert i evgen.CrossSectionAlg) m).SourcedFrom init G := by
  intro l
  induction l with
  | nil => intro m _ h; exact h
  | cons i rest ih =>
    intro m hy h
    simp only [List.foldl_cons]
    exact ih _ (fun j hj => hy j (List.mem_cons_of_mem _ hj))
      (insert_SourcedFrom init G m evgen i hG (hy i (List.mem_cons_self _ _)) h)

/-- Adding a generator of `G` keeps the map sourced. -/
theorem addGenerator_SourcedFrom (init : InitialState) (G : List EventGeneratorI)
    (m : XSecAlgorithmMap) (evgen : EventGeneratorI) (hG : evgen ∈ G)
    (h : m.SourcedFrom init G) :
    (XSecAlgorithmMap.addGenerator init m evgen).SourcedFrom init G := by
  unfold XSecAlgorithmMap.addGenerator
  split
  · exact h
  · rename_i ilstgen hgen
    split
    · exact h
    · rename_i ilst hil
      exact foldl_insert_SourcedFrom init G evgen hG ilst m
        (fun i hi => ⟨ilstgen, ilst, i, hgen, hil, hi, rfl⟩) h

/-- Folding generators of `G` keeps the map sourced. -/
theorem foldl_addGenerator_SourcedFrom (init : InitialState) (G : List EventGeneratorI) :
    ∀ (l : List EventGeneratorI) (m : XSecAlgorithmMap), (∀ g ∈ l, g ∈ G) →
      m.SourcedFrom init G →
      (l.foldl (XSecAlgorithmMap.addGenerator init) m).SourcedFrom init G := by
  intro l
  induction l with
  | nil => intro m _ h; exact h
  | cons g gs ih =>
    intro m hsub h
    simp only [List.foldl_cons]
    exact ih _ (fun x hx => hsub x (List.mem_cons_of_mem _ hx))
      (addGenerator_SourcedFrom init G m g (hsub g (List.mem_cons_self _ _)) h)

/-- Every association of the map built by `BuildMap` comes from a generator of the list. -/
theorem BuildMap_SourcedFrom (evgl : List EventGeneratorI) (init : InitialState) :
    (XSecAlgorithmMap.BuildMap evgl init).SourcedFrom init evgl := by
  unfold XSecAlgorithmMap.BuildMap
  apply foldl_addGenerator_SourcedFrom init evgl evgl _ (fun g hg => hg)
  intro p hp
  cases hp

/-- An algorithm found by the map is associated to the key in the map. -/
theorem lookup_mem (l : List (String × XSecAlgorithmI)) (k : String) (a : XSecAlgorithmI)
    (h : l.lookup k = some a) : (k, a) ∈ l := by
  obtain ⟨l1, l2, rfl, _⟩ := List.lookup_eq_some_iff.mp h
  simp

/-- C10: on a driver configured from a generator list and an initial state (its map built
by `BuildMap` from them), when every generator has an interaction-list generator and
bounds with max(0.01, Emin) < Emax, `CreateSplines` returns with `fUseSplines` true and
a spline in the list for every interaction of the map under its mapped algorithm; a
subsequent `UseSplines` leaves the flag true, and `XSecSum` takes the spline value for
every interaction. -/
theorem CreateSplines_all_splines (Rnd Log Exp : ℚ → ℚ) (Evaluate : Spline → ℚ → ℚ)
    (xsl : XSecSplineList) (d : GEVGDriver) (evgl : List EventGeneratorI)
    (init : InitialState) (useLogE : Bool) (p : TLorentzVector)
    (hi : d.fInitState = some init) (hl : d.fEvGenList = some evgl)
    (hm : d.fXSecAlgorithmMap = some (XSecAlgorithmMap.BuildMap evgl init))
    (hg : ∀ g ∈ evgl, g.IntListGenerator ≠ none)
    (hb : ∀ g ∈ evgl, max (1 / 100 : ℚ) g.Emin < g.Emax) :
    ∃ r, d.CreateSplines Rnd Log Exp xsl useLogE = .ok r ∧ r.driver.fUseSplines = true ∧
      (∀ i ∈ (XSecAlgorithmMap.BuildMap evgl init).GetInteractionList,
        ∃ a spl, (XSecAlgorithmMap.BuildMap evgl init).FindXSecAlgorithm i = some a ∧
          r.splineList.SplineExists a i = true ∧ r.splineList.GetSpline a i = some spl ∧
          specInteractionXSec Evaluate r.splineList r.driver.fUseSplines a i p
            = Evaluate spl p.Energy) ∧
      (∃ d1, r.driver.UseSplines r.splineList = .ok d1 ∧ d1.fUseSplines = true) ∧
      r.driver.XSecSum Evaluate r.splineList p =
        .ok (specXSecSum Evaluate r.splineList (XSecAlgorithmMap.BuildMap evgl init) true p) := by
  obtain ⟨st1, hrun, _, hall⟩ :=
    CreateSplinesOuter_ok Rnd Log Exp d init hi evgl (xsl.SetLogE useLogE, []) hg hb
  have hcs : d.CreateSplines Rnd Log Exp xsl useLogE
      = .ok ⟨{ d with fUseSplines := true }, st1.1, st1.2⟩ := by
    unfold GEVGDriver.CreateSplines
    simp only [hl, hrun]
  have hsp : ∀ i ∈ (XSecAlgorithmMap.BuildMap evgl init).GetInteractionList,
      ∃ a, (XSecAlgorithmMap.BuildMap evgl init).FindXSecAlgorithm i = some a ∧
        st1.1.SplineExists a i = true := by
    intro i hi1
    obtain ⟨a, ha⟩ := BuildMap_Complete evgl init i hi1
    obtain ⟨g, hgm, hga, hy⟩ :=
      BuildMap_SourcedFrom evgl init (i.AsString, a) (lookup_mem _ _ _ ha)
    refine ⟨a, ha, ?_⟩
    have := hall g hgm i.AsString hy
    simp only at hga
    rw [← hga] at this
    exact this
  refine ⟨_, hcs, rfl, ?_, ?_, ?_⟩
  · intro i hi1
    obtain ⟨a, ha, hs⟩ := hsp i hi1
    cases hgs : st1.1.GetSpline a i with
    | none => simp [XSecSplineList.SplineExists, hgs] at hs
    | some spl =>
      exact ⟨a, spl, ha, hs, hgs, by simp [specInteractionXSec, hgs]⟩
  · obtain ⟨d1, hd1, hiff⟩ := UseSplinesLoop_iff st1.1 (XSecAlgorithmMap.BuildMap evgl init)
      (XSecAlgorithmMap.BuildMap evgl init).GetInteractionList
      { d with fUseSplines := true } (BuildMap_Complete evgl init)
    refine ⟨d1, ?_, hiff.mpr ⟨rfl, hsp⟩⟩
    unfold GEVGDriver.UseSplines
    simp only [if_true, hm]
    rw [hm] at hd1
    exact hd1
  · exact XSecSum_eq Evaluate st1.1 { d with fUseSplines := true } _ p hm
      (BuildMap_Complete evgl init)

/-- Witness of C10: the driver configured with the two generators, starting from an
empty spline list. -/
theorem CreateSplines_all_splines_witness :
    ∃ r, twoGeneratorDriver.CreateSplines id id id emptySplineList false = .ok r ∧
      r.driver.fUseSplines = true ∧
      ∃ d1, r.driver.UseSplines r.splineList = .ok d1 ∧ d1.fUseSplines = true := by
  obtain ⟨r, hr, hu, _, huse, _⟩ := CreateSplines_all_splines id id id firstKnotValue
    emptySplineList twoGeneratorDriver [qelGenerator, disGenerator] numuFe56 false probeAt2
    rfl rfl rfl
    (by
      intro g hg
      simp only [List.mem_cons, List.mem_singleton, List.not_mem_nil, or_false] at hg
      rcases hg with rfl | rfl <;> simp [qelGenerator, disGenerator])
    (by
      intro g hg
      simp only [List.mem_cons, List.mem_singleton, List.not_mem_nil, or_false] at hg
      rcases hg with rfl | rfl <;> simp only [qelGenerator, disGenerator] <;> norm_num)
  exact ⟨r, hr, hu, huse⟩

/-! ## The requests issued by `CreateSplines` -/

/-- A successful `CreateSpline` for a pair without a spline appends one entry under the
key of the pair. -/
theorem CreateSpline_new (Rnd Log Exp : ℚ → ℚ) (xsl xsl1 : XSecSplineList) (alg : XSecAlgorithmI)
    (i : Interaction) (nk : Int) (Emin Emax : ℚ)
    (h : xsl.CreateSpline Rnd Log Exp alg i nk Emin Emax = .ok xsl1)
    (hs : xsl.SplineExists alg i = false) :
    ∃ spl, xsl1.fSplineMap = xsl.fSplineMap ++ [(XSecSplineList.BuildSplineKey alg i, spl)] := by
  unfold XSecSplineList.CreateSpline at h
  split at h
  · cases h
  · rw [hs] at h
    simp only [Bool.false_eq_true, if_false] at h
    cases h
    exact ⟨_, rfl⟩

/-- Looking up a key after one entry was appended. -/
theorem lookup_append_one (l : List ((String × String) × Spline)) (key k : String × String)
    (spl : Spline) :
    ((l ++ [(key, spl)]).lookup k).isSome = true ↔ ((l.lookup k).isSome = true ∨ key = k) := by
  rw [List.lookup_append]
  cases hl : l.lookup k with
  | some s => simp
  | none =>
    simp only [Option.none_or, Option.isSome_none, Bool.false_eq_true, false_or]
    by_cases hk : k = key
    · subst hk; simp
    · have : (k == key) = false := by simpa using hk
      simp only [List.lookup_cons, this, List.lookup_nil, Option.isSome_none,
        Bool.false_eq_true, false_iff]
      exact fun h => hk h.symm

/-- Appending an entry keeps the existing splines. -/
theorem KeptIn_append_one (xsl xsl1 : XSecSplineList) (key : String × String) (spl : Spline)
    (h : xsl1.fSplineMap = xsl.fSplineMap ++ [(key, spl)]) : xsl.KeptIn xsl1 := by
  intro k s hk
  rw [h, List.lookup_append, hk]
  rfl

/-- A returning inner loop of `CreateSplines` keeps the existing splines and leaves a
spline for every interaction of its list. -/
theorem CreateSplinesInner_kept (Rnd Log Exp : ℚ → ℚ) (alg : XSecAlgorithmI) (Emin Emax : ℚ) :
    ∀ (ilst : List Interaction) (st st1 : XSecSplineList × List SplineRequest),
      GEVGDriver.CreateSplinesInner Rnd Log Exp alg Emin Emax ilst st = .ok st1 →
      st.1.KeptIn st1.1 ∧ ∀ i ∈ ilst, st1.1.SplineExists alg i = true := by
  intro ilst
  induction ilst with
  | nil =>
    intro st st1 h
    simp only [GEVGDriver.CreateSplinesInner] at h
    cases h
    exact ⟨KeptIn_refl _, fun i hi => by cases hi⟩
  | cons i rest ih =>
    intro st st1 h
    simp only [GEVGDriver.CreateSplinesInner] at h
    cases hs : st.1.SplineExists alg i with
    | true =>
      simp only [hs, Bool.not_true, Bool.false_eq_true, if_false] at h
      obtain ⟨hk, hall⟩ := ih st st1 h
      refine ⟨hk, ?_⟩
      intro j hj
      rcases List.mem_cons.mp hj with rfl | hj1
      · exact KeptIn_isSome _ _ hk _ hs
      · exact hall j hj1
    | false =>
      simp only [hs, Bool.not_false, if_true] at h
      split at h
      · cases h
      · rename_i xsl1 hc
        obtain ⟨spl, hspl⟩ := CreateSpline_new Rnd Log Exp st.1 xsl1 alg i 40 Emin Emax hc hs
        obtain ⟨hk, hall⟩ := ih _ st1 h
        have hk1 : st.1.KeptIn xsl1 := KeptIn_append_one _ _ _ _ hspl
        refine ⟨KeptIn_trans _ _ _ hk1 hk, ?_⟩
        intro j hj
        rcases List.mem_cons.mp hj with rfl | hj1
        · apply KeptIn_isSome _ _ hk
          rw [hspl]
          exact (lookup_append_one _ _ _ _).mpr (Or.inr rfl)
        · exact hall j hj1

/-- A returning outer loop of `CreateSplines` keeps the existing splines and leaves a
spline for every interaction that a generator yields, under that generator's algorithm. -/
theorem CreateSplinesOuter_kept (Rnd Log Exp : ℚ → ℚ) (d : GEVGDriver) (init : InitialState)
    (hi : d.fInitState = some init) :
    ∀ (evgl : List EventGeneratorI) (st st1 : XSecSplineList × List SplineRequest),
      GEVGDriver.CreateSplinesOuter Rnd Log Exp d evgl st = .ok st1 →
      st.1.KeptIn st1.1 ∧
      ∀ g ∈ evgl, ∀ c, Yields init g c →
        (st1.1.fSplineMap.lookup (g.CrossSectionAlg.Id, c)).isSome = true := by
  intro evgl
  induction evgl with
  | nil =>
    intro st st1 h
    simp only [GEVGDriver.CreateSplinesOuter] at h
    cases h
    exact ⟨KeptIn_refl _, fun g hg => by cases hg⟩
  | cons g gs ih =>
    intro st st1 h
    simp only [GEVGDriver.CreateSplinesOuter] at h
    cases hgg : g.IntListGenerator with
    | none => simp [hgg] at h
    | some ilstgen =>
      simp only [hgg, hi] at h
      cases hil : ilstgen init with
      | none =>
        simp only [hil] at h
        obtain ⟨hk, hall⟩ := ih st st1 h
        refine ⟨hk, ?_⟩
        intro x hx c hy
        rcases List.mem_cons.mp hx with rfl | hx1
        · obtain ⟨gen, ilst, i, h1, h2, _, _⟩ := hy
          rw [hgg] at h1
          cases h1
          rw [hil] at h2
          cases h2
        · exact hall x hx1 c hy
      | some ilst =>
        simp only [hil] at h
        split at h
        · cases h
        · rename_i st0 hin
          obtain ⟨hk0, hall0⟩ := CreateSplinesInner_kept Rnd Log Exp _ _ _ ilst st st0 hin
          obtain ⟨hk, hall⟩ := ih st0 st1 h
          refine ⟨KeptIn_trans _ _ _ hk0 hk, ?_⟩
          intro x hx c hy
          rcases List.mem_cons.mp hx with rfl | hx1
          · obtain ⟨gen, ilst1, i, h1, h2, h3, h4⟩ := hy
            rw [hgg] at h1
            cases h1
            rw [hil] at h2
            cases h2
            subst h4
            exact KeptIn_isSome _ _ hk _ (hall0 i h3)
          · exact hall x hx1 c hy

/-- `CreateSplines` returns when every generator has an interaction-list generator and
bounds with max(0.01, Emin) < Emax. -/
theorem CreateSplines_returns (Rnd Log Exp : ℚ → ℚ) (xsl : XSecSplineList) (d : GEVGDriver)
    (evgl : List EventGeneratorI) (init : InitialState) (useLogE : Bool)
    (hi : d.fInitState = some init) (hl : d.fEvGenList = some evgl)
    (hg : ∀ g ∈ evgl, g.IntListGenerator ≠ none)
    (hb : ∀ g ∈ evgl, max (1 / 100 : ℚ) g.Emin < g.Emax) :
    ∃ r, d.CreateSplines Rnd Log Exp xsl useLogE = .ok r := by
  obtain ⟨st1, hrun, _, _⟩ :=
    CreateSplinesOuter_ok Rnd Log Exp d init hi evgl (xsl.SetLogE useLogE, []) hg hb
  refine ⟨⟨{ d with fUseSplines := true }, st1.1, st1.2⟩, ?_⟩
  unfold GEVGDriver.CreateSplines
  simp only [hl, hrun]

/-- The two sample generators have interaction-list generators and valid bounds. -/
theorem twoGenerators_valid :
    (∀ g ∈ [qelGenerator, disGenerator], g.IntListGenerator ≠ none) ∧
    (∀ g ∈ [qelGenerator, disGenerator], max (1 / 100 : ℚ) g.Emin < g.Emax) := by
  constructor
  · intro g hg
    simp only [List.mem_cons, List.mem_singleton, List.not_mem_nil, or_false] at hg
    rcases hg with rfl | rfl <;> simp [qelGenerator, disGenerator]
  · intro g hg
    simp only [List.mem_cons, List.mem_singleton, List.not_mem_nil, or_false] at hg
    rcases hg with rfl | rfl <;> simp only [qelGenerator, disGenerator] <;> norm_num

/-- The bookkeeping of `CreateSplines` is kept when a spline that does not exist yet is
created and its request recorded. -/
theorem RequestsFor_step (init : InitialState) (G : List EventGeneratorI)
    (xsl0 xsl1 : XSecSplineList) (st : XSecSplineList × List SplineRequest)
    (req : SplineRequest) (spl : Spline)
    (hinv : GEVGDriver.RequestsFor init G xsl0 st)
    (hmap : xsl1.fSplineMap = st.1.fSplineMap ++ [(req.key, spl)])
    (hnone : (st.1.fSplineMap.lookup req.key).isSome = false)
    (hreq : ∃ g ∈ G, req.alg = g.CrossSectionAlg.Id ∧ Yields init g req.interaction ∧
      req.nknots = 40 ∧ req.Emin = max (1 / 100 : ℚ) g.Emin ∧ req.Emax = g.Emax) :
    GEVGDriver.RequestsFor init G xsl0 (xsl1, st.2 ++ [req]) := by
  obtain ⟨hk, hiff, hnew, hnd, hpar⟩ := hinv
  have hfresh : ∀ r ∈ st.2, r.key ≠ req.key := by
    intro r hr heq
    have := (hiff req.key).mpr (Or.inr ⟨r, hr, heq⟩)
    rw [hnone] at this
    cases this
  refine ⟨KeptIn_trans _ _ _ hk (KeptIn_append_one _ _ _ _ hmap), ?_, ?_, ?_, ?_⟩
  · intro key
    simp only [hmap, lookup_append_one, hiff key, List.mem_append, List.mem_singleton]
    constructor
    · rintro (⟨h | ⟨r, hr, hrk⟩⟩ | h)
      · exact Or.inl h
      · exact Or.inr ⟨r, Or.inl hr, hrk⟩
      · exact Or.inr ⟨req, Or.inr rfl, h⟩
    · rintro (h | ⟨r, hr | hr, hrk⟩)
      · exact Or.inl (Or.inl h)
      · exact Or.inl (Or.inr ⟨r, hr, hrk⟩)
      · subst hr; exact Or.inr hrk
  · intro r hr
    simp only [List.mem_append, List.mem_singleton] at hr
    rcases hr with hr | rfl
    · exact hnew r hr
    · cases hl : xsl0.fSplineMap.lookup r.key with
      | none => rfl
      | some s =>
        have := KeptIn_isSome _ _ hk r.key (by rw [hl]; rfl)
        rw [hnone] at this
        cases this
  · rw [List.map_append, List.map_singleton]
    apply List.Nodup.append hnd (List.nodup_singleton _)
    intro k hk1 hk2
    simp only [List.mem_singleton] at hk2
    subst hk2
    obtain ⟨r, hr, hrk⟩ := List.mem_map.mp hk1
    exact hfresh r hr hrk
  · intro r hr
    simp only [List.mem_append, List.mem_singleton] at hr
    rcases hr with hr | rfl
    · exact hpar r hr
    · exact hreq

/-- The inner loop of `CreateSplines` keeps the bookkeeping. -/
theorem CreateSplinesInner_requests (Rnd Log Exp : ℚ → ℚ) (init : InitialState)
    (G : List EventGeneratorI) (xsl0 : XSecSplineList) (g : EventGeneratorI) (hg : g ∈ G) :
    ∀ (ilst : List Interaction) (st st1 : XSecSplineList × List SplineRequest),
      (∀ i ∈ ilst, Yields init g i.AsString) →
      GEVGDriver.RequestsFor init G xsl0 st →
      GEVGDriver.CreateSplinesInner Rnd Log Exp g.CrossSectionAlg (max (1 / 100 : ℚ) g.Emin) g.Emax
        ilst st = .ok st1 →
      GEVGDriver.RequestsFor init G xsl0 st1 := by
  intro ilst
  induction ilst with
  | nil =>
    intro st st1 _ hinv h
    simp only [GEVGDriver.CreateSplinesInner] at h
    cases h
    exact hinv
  | cons i rest ih =>
    intro st st1 hy hinv h
    have hyr : ∀ j ∈ rest, Yields init g j.AsString :=
      fun j hj => hy j (List.mem_cons_of_mem _ hj)
    simp only [GEVGDriver.CreateSplinesInner] at h
    cases hs : st.1.SplineExists g.CrossSectionAlg i with
    | true =>
      simp only [hs, Bool.not_true, Bool.false_eq_true, if_false] at h
      exact ih st st1 hyr hinv h
    | false =>
      simp only [hs, Bool.not_false, if_true] at h
      split at h
      · cases h
      · rename_i xsl1 hc
        obtain ⟨spl, hspl⟩ := CreateSpline_new Rnd Log Exp st.1 xsl1 _ i 40 _ _ hc hs
        refine ih _ st1 hyr ?_ h
        exact RequestsFor_step init G xsl0 xsl1 st
          ⟨g.CrossSectionAlg.Id, i.AsString, 40, max (1 / 100 : ℚ) g.Emin, g.Emax⟩ spl hinv hspl hs
          ⟨g, hg, rfl, hy i (List.mem_cons_self _ _), rfl, rfl, rfl⟩

/-- The outer loop of `CreateSplines` keeps the bookkeeping. -/
theorem CreateSplinesOuter_requests (Rnd Log Exp : ℚ → ℚ) (d : GEVGDriver) (init : InitialState)
    (hi : d.fInitState = some init) (G : List EventGeneratorI) (xsl0 : XSecSplineList) :
    ∀ (evgl : List EventGeneratorI) (st st1 : XSecSplineList × List SplineRequest),
      (∀ g ∈ evgl, g ∈ G) → GEVGDriver.RequestsFor init G xsl0 st →
      GEVGDriver.CreateSplinesOuter Rnd Log Exp d evgl st = .ok st1 →
      GEVGDriver.RequestsFor init G xsl0 st1 := by
  intro evgl
  induction evgl with
  | nil =>
    intro st st1 _ hinv h
    simp only [GEVGDriver.CreateSplinesOuter] at h
    cases h
    exact hinv
  | cons g gs ih =>
    intro st st1 hsub hinv h
    have hsubs : ∀ x ∈ gs, x ∈ G := fun x hx => hsub x (List.mem_cons_of_mem _ hx)
    simp only [GEVGDriver.CreateSplinesOuter] at h
    cases hgg : g.IntListGenerator with
    | none => simp [hgg] at h
    | some ilstgen =>
      simp only [hgg, hi] at h
      cases hil : ilstgen init with
      | none =>
        simp only [hil] at h
        exact ih st st1 hsubs hinv h
      | some ilst =>
        simp only [hil] at h
        split at h
        · cases h
        · rename_i st0 hin
          refine ih st0 st1 hsubs ?_ h
          exact CreateSplinesInner_requests Rnd Log Exp init G xsl0 g
            (hsub g (List.mem_cons_self _ _)) ilst st st0
            (fun i hi1 => ⟨ilstgen, ilst, i, hgg, hil, hi1, rfl⟩) hinv hin

/-- C11: when `CreateSplines` returns on a configured driver, the `CreateSpline` calls it
has issued are exactly one call, with 40 knots, Emin = max(0.01, declared Emin) and
Emax = declared Emax of the generator, for each pair (algorithm of a generator,
interaction of its non-null list) that had no spline in the list before the call; no call
is issued for a pair that had a spline, no pair is requested twice, and every spline
present before the call is still present with the same table. -/
theorem CreateSplines_requests (Rnd Log Exp : ℚ → ℚ) (xsl : XSecSplineList) (d : GEVGDriver)
    (evgl : List EventGeneratorI) (init : InitialState) (useLogE : Bool)
    (r : CreateSplinesResult) (hi : d.fInitState = some init)
    (hl : d.fEvGenList = some evgl) (h : d.CreateSplines Rnd Log Exp xsl useLogE = .ok r) :
    (∀ req ∈ r.requests, ∃ g ∈ evgl, req.alg = g.CrossSectionAlg.Id ∧
      Yields init g req.interaction ∧ req.nknots = 40 ∧
      req.Emin = max (1 / 100 : ℚ) g.Emin ∧ req.Emax = g.Emax) ∧
    (∀ req ∈ r.requests, xsl.fSplineMap.lookup req.key = none) ∧
    (∀ g ∈ evgl, ∀ c, Yields init g c → xsl.fSplineMap.lookup (g.CrossSectionAlg.Id, c) = none →
      ∃ req ∈ r.requests, req.key = (g.CrossSectionAlg.Id, c)) ∧
    (r.requests.map SplineRequest.key).Nodup ∧
    xsl.KeptIn r.splineList ∧
    (∀ key, (r.splineList.fSplineMap.lookup key).isSome = true ↔
      ((xsl.fSplineMap.lookup key).isSome = true ∨ ∃ req ∈ r.requests, req.key = key)) := by
  unfold GEVGDriver.CreateSplines at h
  simp only [hl] at h
  split at h
  · cases h
  · rename_i st hst
    cases h
    have hinit : GEVGDriver.RequestsFor init evgl xsl (xsl.SetLogE useLogE, []) := by
      refine ⟨fun _ _ hk => hk, ?_, ?_, ?_, ?_⟩
      · intro key
        simp [XSecSplineList.SetLogE]
      · intro req hreq; cases hreq
      · exact List.nodup_nil
      · intro req hreq; cases hreq
    obtain ⟨hk, hiff, hnew, hnd, hpar⟩ := CreateSplinesOuter_requests Rnd Log Exp d init hi evgl xsl
      evgl _ st (fun g hg => hg) hinit hst
    obtain ⟨_, hall⟩ := CreateSplinesOuter_kept Rnd Log Exp d init hi evgl _ st hst
    refine ⟨hpar, hnew, ?_, hnd, hk, hiff⟩
    intro g hg c hy hnone
    rcases (hiff (g.CrossSectionAlg.Id, c)).mp (hall g hg c hy) with hex | hreq
    · rw [hnone] at hex
      cases hex
    · exact hreq

/-- Witness of C11: two generators, a spline already present for the first interaction
only: a spline is requested for the second pair, none for the first, and the spline
already present is kept. -/
theorem CreateSplines_requests_witness :
    ∃ r, twoGeneratorDriver.CreateSplines id id id qelOnlySplineList false = .ok r ∧
      (∃ req ∈ r.requests, req.key = ("DISXSec", "DIS")) ∧
      (∀ req ∈ r.requests, req.key ≠ ("QELXSec", "QES")) ∧
      qelOnlySplineList.KeptIn r.splineList := by
  obtain ⟨r, hr⟩ := CreateSplines_returns id id id qelOnlySplineList twoGeneratorDriver
    [qelGenerator, disGenerator] numuFe56 false rfl rfl twoGenerators_valid.1
    twoGenerators_valid.2
  obtain ⟨_, hnew, hall, _, hkept, _⟩ := CreateSplines_requests id id id qelOnlySplineList
    twoGeneratorDriver [qelGenerator, disGenerator] numuFe56 false r rfl rfl hr
  refine ⟨r, hr, ?_, ?_, hkept⟩
  · exact hall disGenerator (by simp) "DIS"
      ⟨fun s => some [⟨"DIS", s⟩], [⟨"DIS", numuFe56⟩], ⟨"DIS", numuFe56⟩, rfl, rfl,
        List.mem_singleton.mpr rfl, rfl⟩ (by decide)
  · intro req hreq hkey
    have := hnew req hreq
    rw [hkey] at this
    revert this
    decide

/-! ## Consistently configured drivers -/

/-- `GenerateEvent` changes only the current record and the depth counter. -/
theorem GenerateEvent_frame (maxDepth : Nat) (w : Nat → Attempt) (d : GEVGDriver) (k : Nat) :
    (d.GenerateEvent maxDepth w k).driver =
      { d with fCurrentRecord := (d.GenerateEvent maxDepth w k).driver.fCurrentRecord,
               fNRecLevel := (d.GenerateEvent maxDepth w k).driver.fNRecLevel } := by
  induction d, k using GEVGDriver.GenerateEvent.induct maxDepth w with
  | case1 d k hc =>
    rw [GEVGDriver.GenerateEvent]; simp [hc]
  | case2 d k hc hw =>
    rw [GEVGDriver.GenerateEvent]; simp [hc, hw]
  | case3 d k hc r0 hw =>
    rw [GEVGDriver.GenerateEvent]; simp [hc, hw]
  | case4 d k hc r0 hw hf =>
    rw [GEVGDriver.GenerateEvent]; simp [hc, hw, hf]
  | case5 d k hc r0 hw hf hu d1 hle ih =>
    have hc1 : d.CanGenerate = true := by simpa using hc
    have hf1 : d.fFilterUnphysical = true := by simpa using hf
    have hstep := GenerateEvent_unphysical maxDepth w d k r0 hc1 hf1 hw hu
    have hle1 : d.fNRecLevel + 1 ≤ maxDepth := hle
    simp only [hle1, if_true] at hstep
    rw [hstep]
    have ih1 : (GEVGDriver.GenerateEvent maxDepth w
        { d with fCurrentRecord := none, fNRecLevel := d.fNRecLevel + 1 } (k + 1)).driver = _ := ih
    rw [ih1]
  | case6 d k hc r0 hw hf hu d1 hle =>
    have hc1 : d.CanGenerate = true := by simpa using hc
    have hf1 : d.fFilterUnphysical = true := by simpa using hf
    have hstep := GenerateEvent_unphysical maxDepth w d k r0 hc1 hf1 hw hu
    have hle1 : ¬ (d.fNRecLevel + 1 ≤ maxDepth) := hle
    simp only [hle1, if_false] at hstep
    rw [hstep]
  | case7 d k hc r0 hw hf hu =>
    rw [GEVGDriver.GenerateEvent]; simp [hc, hw, hf, hu]
  | case8 d k hc hw =>
    rw [GEVGDriver.GenerateEvent]; simp [hc, hw]
  | case9 d k hc r0 hw =>
    rw [GEVGDriver.GenerateEvent]; simp [hc, hw]

/-- A fresh driver is consistently configured. -/
theorem Init_WellConfigured : GEVGDriver.Init.WellConfigured := by
  intro h
  simp [GEVGDriver.Init] at h

/-- Every public operation that returns keeps the driver consistently configured. -/
theorem Op_run_WellConfigured (maxDepth : Nat) (op : Op) (s s1 : GEVGDriver × XSecSplineList)
    (h0 : s.1.WellConfigured) (h : op.run maxDepth s = .ok s1) : s1.1.WellConfigured := by
  cases op with
  | reset => simp [Op.run] at h; subst h; exact Init_WellConfigured
  | filterUnphysical b => simp [Op.run] at h; subst h; exact h0
  | configure isNu isAntiNu evgl init =>
    simp only [Op.run] at h
    split at h
    · cases h
    · rename_i d hd
      cases h
      rw [Configure_frame isNu isAntiNu evgl _ _ init hd]
      intro _
      exact ⟨evgl, init, rfl, rfl, rfl⟩
  | generateEvent w =>
    simp only [Op.run] at h
    split at h
    · cases h
    · cases h
      rw [GenerateEvent_frame]
      exact h0
  | xsecSum ev p =>
    simp only [Op.run] at h
    split at h
    · cases h
    · cases h; exact h0
  | createXSecSumSpline rn lg ex ev nk Emin Emax inlogE =>
    simp only [Op.run] at h
    split at h
    · cases h
    · rename_i d hd
      cases h
      rw [CreateXSecSumSpline_frame rn lg ex ev _ _ _ nk Emin Emax inlogE hd]
      exact h0
  | useSplines =>
    simp only [Op.run] at h
    split at h
    · cases h
    · rename_i d hd
      cases h
      have hsome : s.1.fXSecAlgorithmMap.isSome = true := by
        unfold GEVGDriver.UseSplines at hd
        simp only [if_true] at hd
        cases hm : s.1.fXSecAlgorithmMap with
        | none => simp [hm] at hd
        | some m => rfl
      have hcfg := h0 (Or.inr (Or.inr hsome))
      rw [UseSplines_frame _ _ _ hd]
      intro _
      exact hcfg
  | createSplines rn lg ex useLogE =>
    simp only [Op.run] at h
    split at h
    · cases h
    · rename_i r hr
      cases h
      have hsome : s.1.fEvGenList.isSome = true := by
        unfold GEVGDriver.CreateSplines at hr
        cases hm : s.1.fEvGenList with
        | none => simp [hm] at hr
        | some m => rfl
      have hcfg := h0 (Or.inr (Or.inl hsome))
      rw [CreateSplines_frame rn lg ex _ _ useLogE r hr]
      intro _
      exact hcfg
  | validEnergyRange =>
    simp only [Op.run] at h
    split at h
    · cases h
    · cases h; exact h0

/-- Every driver state reached from a consistently configured one by public operations
that return is consistently configured. -/
theorem Op_runAll_WellConfigured (maxDepth : Nat) :
    ∀ (ops : List Op) (s s1 : GEVGDriver × XSecSplineList),
      s.1.WellConfigured → Op.runAll maxDepth ops s = .ok s1 → s1.1.WellConfigured := by
  intro ops
  induction ops with
  | nil =>
    intro s s1 h0 h
    simp [Op.runAll] at h
    subst h; exact h0
  | cons op ops ih =>
    intro s s1 h0 h
    simp only [Op.runAll] at h
    split at h
    · cases h
    · rename_i s2 hs2
      exact ih s2 s1 (Op_run_WellConfigured maxDepth op s s2 h0 hs2) h

/-- On a consistently configured driver with a map, `XSecSum` returns. -/
theorem XSecSum_returns (Evaluate : Spline → ℚ → ℚ) (xssl : XSecSplineList) (d : GEVGDriver)
    (hwc : d.WellConfigured) (hu : d.fUseSplines = true) (p : TLorentzVector) :
    ∃ v, d.XSecSum Evaluate xssl p = .ok v := by
  obtain ⟨evgl, init, _, _, hm⟩ := hwc (Or.inl hu)
  exact ⟨_, XSecSum_eq Evaluate xssl d _ p hm (BuildMap_Complete evgl init)⟩

/-! ## The spline of the cross-section sum -/

/-- A returning knot loop of `CreateXSecSumSpline` yields `n` knots; knot `j` is the energy
of knot `i + j` with the cross-section sum at the 4-momentum (0, 0, e, e). -/
theorem XSecSumKnots_spec (Rnd Log Exp : ℚ → ℚ) (Evaluate : Spline → ℚ → ℚ)
    (xssl : XSecSplineList) (d : GEVGDriver) (nk : Int) (Emin Emax : ℚ) (inlogE : Bool) :
    ∀ (n i : Nat) (knots : List (ℚ × ℚ)),
      GEVGDriver.XSecSumKnots Rnd Log Exp Evaluate xssl d nk Emin Emax inlogE n i = .ok knots →
      knots.length = n ∧
      ∀ j, j < n → ∃ v,
        knots[j]? = some (knotEnergy Rnd Log Exp inlogE nk Emin Emax (i + j), v) ∧
        d.XSecSum Evaluate xssl
          ⟨0, 0, knotEnergy Rnd Log Exp inlogE nk Emin Emax (i + j),
            knotEnergy Rnd Log Exp inlogE nk Emin Emax (i + j)⟩ = .ok v := by
  intro n
  induction n with
  | zero =>
    intro i knots h
    simp only [GEVGDriver.XSecSumKnots] at h
    cases h
    exact ⟨rfl, fun j hj => absurd hj (Nat.not_lt_zero j)⟩
  | succ n ih =>
    intro i knots h
    simp only [GEVGDriver.XSecSumKnots, TLorentzVector.SetPxPyPzE] at h
    split at h
    · cases h
    · rename_i xs hxs
      split at h
      · cases h
      · rename_i rest hrest
        cases h
        obtain ⟨hlen, hall⟩ := ih (i + 1) rest hrest
        refine ⟨by simp [hlen], ?_⟩
        intro j hj
        cases j with
        | zero => exact ⟨xs, by simp, by simpa using hxs⟩
        | succ j =>
          obtain ⟨v, hv1, hv2⟩ := hall j (by omega)
          rw [show i + 1 + j = i + (j + 1) from by omega] at hv1 hv2
          exact ⟨v, by simpa using hv1, hv2⟩

/-- The knot loop returns when `XSecSum` returns at every 4-momentum. -/
theorem XSecSumKnots_returns (Rnd Log Exp : ℚ → ℚ) (Evaluate : Spline → ℚ → ℚ)
    (xssl : XSecSplineList) (d : GEVGDriver) (nk : Int) (Emin Emax : ℚ) (inlogE : Bool)
    (hx : ∀ p, ∃ v, d.XSecSum Evaluate xssl p = .ok v) :
    ∀ (n i : Nat), ∃ knots,
      GEVGDriver.XSecSumKnots Rnd Log Exp Evaluate xssl d nk Emin Emax inlogE n i = .ok knots := by
  intro n
  induction n with
  | zero => intro i; exact ⟨[], rfl⟩
  | succ n ih =>
    intro i
    obtain ⟨v, hv⟩ := hx ((⟨0, 0, 0, 0⟩ : TLorentzVector).SetPxPyPzE 0 0
      (knotEnergy Rnd Log Exp inlogE nk Emin Emax i) (knotEnergy Rnd Log Exp inlogE nk Emin Emax i))
    obtain ⟨rest, hrest⟩ := ih (i + 1)
    refine ⟨(knotEnergy Rnd Log Exp inlogE nk Emin Emax i, v) :: rest, ?_⟩
    simp only [GEVGDriver.XSecSumKnots, hv, hrest]

/-- `CreateXSecSumSpline` returns the driver of its exit state when the outcome is a
return, and aborts with the same abort otherwise. -/
theorem CreateXSecSumSpline_eq_exit (Rnd Log Exp : ℚ → ℚ) (Evaluate : Spline → ℚ → ℚ)
    (xssl : XSecSplineList) (d : GEVGDriver) (nk : Int) (Emin Emax : ℚ) (inlogE : Bool) :
    d.CreateXSecSumSpline Rnd Log Exp Evaluate xssl nk Emin Emax inlogE =
      match (d.CreateXSecSumSplineExit Rnd Log Exp Evaluate xssl nk Emin Emax inlogE).2 with
      | .error e => .error e
      | .ok _ => .ok (d.CreateXSecSumSplineExit Rnd Log Exp Evaluate xssl nk Emin Emax inlogE).1 := by
  unfold GEVGDriver.CreateXSecSumSpline GEVGDriver.CreateXSecSumSplineExit
  split
  · rfl
  · split
    · rfl
    · split <;> simp_all

/-- C12: `CreateXSecSumSpline` aborts whenever `fUseSplines` is false and whenever not
(Emin < Emax and Emin > 0 and nk > 2); at each of these aborts no member of the driver
has been assigned (the driver at the abort is the driver of the call, stored sum spline
included); on a consistently configured driver with `fUseSplines` true and valid bounds
it returns, having replaced the stored sum spline by one of `nk` knots and changed
nothing else. -/
theorem CreateXSecSumSpline_guards (Rnd Log Exp : ℚ → ℚ) (Evaluate : Spline → ℚ → ℚ)
    (xssl : XSecSplineList) (d : GEVGDriver) (nk : Int) (Emin Emax : ℚ) (inlogE : Bool)
    (hwc : d.WellConfigured) :
    (d.fUseSplines = false →
      d.CreateXSecSumSpline Rnd Log Exp Evaluate xssl nk Emin Emax inlogE
        = .error .splinesNotLoaded) ∧
    (d.fUseSplines = true → ¬ (Emin < Emax ∧ Emin > 0 ∧ nk > 2) →
      d.CreateXSecSumSpline Rnd Log Exp Evaluate xssl nk Emin Emax inlogE = .error .badKnots) ∧
    ((d.fUseSplines = false ∨ ¬ (Emin < Emax ∧ Emin > 0 ∧ nk > 2)) →
      (d.CreateXSecSumSplineExit Rnd Log Exp Evaluate xssl nk Emin Emax inlogE).1 = d ∧
      ∃ e, (d.CreateXSecSumSplineExit Rnd Log Exp Evaluate xssl nk Emin Emax inlogE).2 = .error e) ∧
    (d.fUseSplines = true → (Emin < Emax ∧ Emin > 0 ∧ nk > 2) →
      ∃ spl, d.CreateXSecSumSpline Rnd Log Exp Evaluate xssl nk Emin Emax inlogE
          = .ok { d with fXSecSumSpl := some spl } ∧
        spl.nknots = nk.toNat ∧ spl.E.length = nk.toNat ∧ spl.xsec.length = nk.toNat) := by
  refine ⟨?_, ?_, ?_, ?_⟩
  · intro hu
    simp [GEVGDriver.CreateXSecSumSpline, hu]
  · intro hu hbad
    simp only [GEVGDriver.CreateXSecSumSpline, hu, Bool.true_eq_false, if_false, hbad,
      not_false_eq_true, if_true]
  · intro h
    unfold GEVGDriver.CreateXSecSumSplineExit
    by_cases hu : d.fUseSplines = false
    · rw [if_pos hu]
      exact ⟨rfl, _, rfl⟩
    · rcases h with h | h
      · exact absurd h hu
      · rw [if_neg hu, if_pos h]
        exact ⟨rfl, _, rfl⟩
  · intro hu hok
    obtain ⟨knots, hk⟩ := XSecSumKnots_returns Rnd Log Exp Evaluate xssl d nk Emin Emax inlogE
      (XSecSum_returns Evaluate xssl d hwc hu) nk.toNat 0
    obtain ⟨hlen, _⟩ := XSecSumKnots_spec Rnd Log Exp Evaluate xssl d nk Emin Emax inlogE
      nk.toNat 0 knots hk
    refine ⟨⟨nk.toNat, knots.map Prod.fst, knots.map Prod.snd⟩, ?_, rfl, ?_, ?_⟩
    · unfold GEVGDriver.CreateXSecSumSpline
      rw [if_neg (by simp [hu]), if_neg (not_not.mpr hok), hk]
    · simp [hlen]
    · simp [hlen]

/-- The sample driver is consistently configured, also with splines in use. -/
theorem sampleDrivers_WellConfigured :
    twoGeneratorDriver.WellConfigured ∧ splineDriver.WellConfigured :=
  ⟨fun _ => ⟨[qelGenerator, disGenerator], numuFe56, rfl, rfl, rfl⟩,
   fun _ => ⟨[qelGenerator, disGenerator], numuFe56, rfl, rfl, rfl⟩⟩

/-- Witness of C12: without splines in use the call aborts; with splines in use and the
bounds [1, 5] with 3 knots it returns with a sum spline of 3 knots. -/
theorem CreateXSecSumSpline_guards_witness :
    twoGeneratorDriver.CreateXSecSumSpline id id id firstKnotValue emptySplineList 3 1 5 false
      = .error .splinesNotLoaded ∧
    ∃ spl, splineDriver.CreateXSecSumSpline id id id firstKnotValue emptySplineList 3 1 5 false
        = .ok { splineDriver with fXSecSumSpl := some spl } ∧ spl.nknots = 3 := by
  refine ⟨(CreateXSecSumSpline_guards id id id firstKnotValue emptySplineList twoGeneratorDriver
    3 1 5 false sampleDrivers_WellConfigured.1).1 rfl, ?_⟩
  obtain ⟨spl, h1, h2, _, _⟩ := (CreateXSecSumSpline_guards id id id firstKnotValue
    emptySplineList splineDriver 3 1 5 false sampleDrivers_WellConfigured.2).2.2.2 rfl
    ⟨by norm_num, by norm_num, by decide⟩
  exact ⟨spl, h1, h2⟩

/-! ## Configuration -/

/-- `Configure` returns the driver of its exit state when the outcome is a return, and
aborts with the same abort otherwise. -/
theorem Configure_eq_exit (isNu isAntiNu : Int → Bool) (evgl : List EventGeneratorI)
    (d : GEVGDriver) (init : InitialState) :
    d.Configure isNu isAntiNu evgl init =
      match (d.ConfigureExit isNu isAntiNu evgl init).2 with
      | .error e => .error e
      | .ok _ => .ok (d.ConfigureExit isNu isAntiNu evgl init).1 := by
  unfold GEVGDriver.Configure GEVGDriver.ConfigureExit GEVGDriver.BuildInitialState
  simp only
  cases GEVGDriver.AssertIsValidInitState isNu isAntiNu { d with fInitState := some init } with
  | error e => rfl
  | ok u =>
    simp only
    cases GEVGDriver.BuildXSecAlgorithmMap
        (GEVGDriver.BuildGeneratorList evgl { d with fInitState := some init }) with
    | error e => rfl
    | ok d3 => rfl

/-- C13: `Configure` returns only if the probe code is a neutrino or an antineutrino, and
then the stored initial state is the one passed in; for every other probe code it aborts
in `BuildInitialState` with the invalid-initial-state abort, the driver at the abort being
the driver of the call with only the initial state stored: generator list, map, chain and
selector have not been built. -/
theorem Configure_valid_probe (isNu isAntiNu : Int → Bool) (evgl : List EventGeneratorI)
    (d : GEVGDriver) (init : InitialState) :
    ((isNu init.GetProbePDGCode || isAntiNu init.GetProbePDGCode) = false →
      d.Configure isNu isAntiNu evgl init = .error .notANeutrino ∧
      d.BuildInitialState isNu isAntiNu init = .error .notANeutrino ∧
      d.ConfigureExit isNu isAntiNu evgl init
        = ({ d with fInitState := some init }, .error .notANeutrino)) ∧
    ((isNu init.GetProbePDGCode || isAntiNu init.GetProbePDGCode) = true →
      ∃ d1, d.Configure isNu isAntiNu evgl init = .ok d1 ∧ d1.fInitState = some init) ∧
    (∀ d1, d.Configure isNu isAntiNu evgl init = .ok d1 →
      (isNu init.GetProbePDGCode || isAntiNu init.GetProbePDGCode) = true ∧
      d1.fInitState = some init) := by
  refine ⟨?_, ?_, ?_⟩
  · intro h
    have hb : d.BuildInitialState isNu isAntiNu init = .error .notANeutrino := by
      simp [GEVGDriver.BuildInitialState, GEVGDriver.AssertIsValidInitState, h]
    refine ⟨?_, hb, ?_⟩
    · simp [GEVGDriver.Configure, hb]
    · simp [GEVGDriver.ConfigureExit, GEVGDriver.AssertIsValidInitState, h]
  · intro h
    refine ⟨{ d with fInitState := some init, fEvGenList := some evgl,
                     fXSecAlgorithmMap := some (XSecAlgorithmMap.BuildMap evgl init),
                     fChain := some ⟨some evgl⟩, fIntSelector := some ⟨"Default"⟩ }, ?_, rfl⟩
    simp [GEVGDriver.Configure, GEVGDriver.BuildInitialState,
      GEVGDriver.AssertIsValidInitState, h, GEVGDriver.BuildGeneratorList,
      GEVGDriver.BuildXSecAlgorithmMap, GEVGDriver.BuildResponsibilityChain,
      GEVGDriver.BuildInteractionSelector]
  · intro d1 h
    have hf := Configure_frame isNu isAntiNu evgl d d1 init h
    refine ⟨?_, by rw [hf]⟩
    cases hb : (isNu init.GetProbePDGCode || isAntiNu init.GetProbePDGCode) with
    | true => rfl
    | false =>
      simp [GEVGDriver.Configure, GEVGDriver.BuildInitialState,
        GEVGDriver.AssertIsValidInitState, hb] at h

/-- Witness of C13: an electron probe aborts with only the initial state stored; a muon
neutrino probe configures the driver. -/
theorem Configure_valid_probe_witness :
    GEVGDriver.Init.Configure isNuCode isAntiNuCode [qelGenerator, disGenerator] electronFe56
      = .error .notANeutrino ∧
    (GEVGDriver.Init.ConfigureExit isNuCode isAntiNuCode [qelGenerator, disGenerator]
      electronFe56).1.fEvGenList = none ∧
    ∃ d1, GEVGDriver.Init.Configure isNuCode isAntiNuCode [qelGenerator, disGenerator] numuFe56
      = .ok d1 ∧ d1.fInitState = some numuFe56 := by
  have h := Configure_valid_probe isNuCode isAntiNuCode [qelGenerator, disGenerator]
    GEVGDriver.Init electronFe56
  have h2 := Configure_valid_probe isNuCode isAntiNuCode [qelGenerator, disGenerator]
    GEVGDriver.Init numuFe56
  refine ⟨(h.1 (by decide)).1, ?_, h2.2.1 (by decide)⟩
  rw [(h.1 (by decide)).2.2]
  rfl

/-! ## Event generation: fatal passes and the returned record -/

/-- After `n` unphysical passes within the depth bound, the call continues as a call on
the driver with the record released and the counter raised by `n`. -/
theorem GenerateEvent_after_unphysical (maxDepth : Nat) (w : Nat → Attempt) :
    ∀ (n : Nat) (d : GEVGDriver) (k : Nat),
      d.CanGenerate = true → d.fFilterUnphysical = true →
      (∀ j, j < n → ∃ r1, w (k + j) = .processed r1 ∧ r1.IsUnphysical = true) →
      d.fNRecLevel + n ≤ maxDepth →
      ∃ d1 : GEVGDriver, d1.CanGenerate = true ∧ d1.fFilterUnphysical = true ∧
        d1.fNRecLevel = d.fNRecLevel + n ∧
        d.GenerateEvent maxDepth w k = d1.GenerateEvent maxDepth w (k + n) := by
  intro n
  induction n with
  | zero =>
    intro d k hc hf _ _
    exact ⟨d, hc, hf, rfl, rfl⟩
  | succ n ih =>
    intro d k hc hf hpre hle
    obtain ⟨r1, hr1, hu1⟩ := hpre 0 (Nat.succ_pos n)
    obtain ⟨d1, hc1, hf1, hl1, hrun⟩ :=
      ih { d with fCurrentRecord := none, fNRecLevel := d.fNRecLevel + 1 } (k + 1)
        (by simpa [GEVGDriver.CanGenerate] using hc) hf
        (fun j hj => by
          have := hpre (j + 1) (by omega)
          rwa [show k + (j + 1) = k + 1 + j from by omega] at this)
        (by simp only; omega)
    refine ⟨d1, hc1, hf1, by rw [hl1]; simp only; omega, ?_⟩
    rw [GenerateEvent_unphysical maxDepth w d k r1 hc hf hr1 hu1]
    have hle1 : d.fNRecLevel + 1 ≤ maxDepth := by omega
    simp only [hle1, if_true]
    rw [hrun, show k + 1 + n = k + (n + 1) from by omega]

/-- A pass in which the selector yields no record, or the chain finds no generator. -/
theorem GenerateEvent_fatal (maxDepth : Nat) (w : Nat → Attempt) (d : GEVGDriver) (k : Nat)
    (hc : d.CanGenerate = true) :
    (w k = .noRecord →
      d.GenerateEvent maxDepth w k =
        ⟨{ d with fCurrentRecord := none }, k + 1, .error .noRecordSelected⟩) ∧
    (∀ r, w k = .noGenerator r →
      d.GenerateEvent maxDepth w k =
        ⟨{ d with fCurrentRecord := some r }, k + 1, .error .noEventGenerator⟩) := by
  constructor
  · intro hw
    rw [GEVGDriver.GenerateEvent]
    simp [hc, hw]
  · intro r hw
    rw [GEVGDriver.GenerateEvent]
    simp [hc, hw]

/-- C14: in a pass of `GenerateEvent` (the first of a call, or one reached after `n`
unphysical passes with filtering on) in which the selector yields no record, or the chain
finds no generator for the selected record, the call aborts at that pass: the outcome of
the pass holds no processed record, no further pass is made, the depth counter is not
incremented by that pass, and no record is returned. -/
theorem GenerateEvent_fatal_no_retry (maxDepth : Nat) (w : Nat → Attempt) (d : GEVGDriver)
    (k n : Nat) (hc : d.CanGenerate = true)
    (hf : 0 < n → d.fFilterUnphysical = true) (hle : 0 < n → d.fNRecLevel + n ≤ maxDepth)
    (hpre : ∀ j, j < n → ∃ r1, w (k + j) = .processed r1 ∧ r1.IsUnphysical = true) :
    (w (k + n) = .noRecord →
      (d.GenerateEvent maxDepth w k).value = .error .noRecordSelected ∧
      (d.GenerateEvent maxDepth w k).attempts = k + n + 1 ∧
      (d.GenerateEvent maxDepth w k).driver.fNRecLevel = d.fNRecLevel + n ∧
      (d.GenerateEvent maxDepth w k).driver.fCurrentRecord = none) ∧
    (∀ r, w (k + n) = .noGenerator r →
      (d.GenerateEvent maxDepth w k).value = .error .noEventGenerator ∧
      (d.GenerateEvent maxDepth w k).attempts = k + n + 1 ∧
      (d.GenerateEvent maxDepth w k).driver.fNRecLevel = d.fNRecLevel + n ∧
      (d.GenerateEvent maxDepth w k).driver.fCurrentRecord = some r) := by
  have hred : ∃ d1 : GEVGDriver, d1.CanGenerate = true ∧ d1.fNRecLevel = d.fNRecLevel + n ∧
      d.GenerateEvent maxDepth w k = d1.GenerateEvent maxDepth w (k + n) := by
    cases n with
    | zero => exact ⟨d, hc, rfl, rfl⟩
    | succ n =>
      obtain ⟨d1, hc1, _, hl1, hrun⟩ := GenerateEvent_after_unphysical maxDepth w (n + 1) d k
        hc (hf (Nat.succ_pos n)) hpre (hle (Nat.succ_pos n))
      exact ⟨d1, hc1, hl1, hrun⟩
  obtain ⟨d1, hc1, hl1, hrun⟩ := hred
  have hfatal := GenerateEvent_fatal maxDepth w d1 (k + n) hc1
  constructor
  · intro hw
    rw [hrun, hfatal.1 hw]
    exact ⟨rfl, rfl, hl1, rfl⟩
  · intro r hw
    rw [hrun, hfatal.2 r hw]
    exact ⟨rfl, rfl, hl1, rfl⟩

/-- Witness of C14: after one unphysical pass the selector yields no record: the call
aborts at the second pass with the counter at 1. -/
theorem GenerateEvent_fatal_no_retry_witness :
    (twoGeneratorDriver.GenerateEvent 3 unphysicalThenNoRecord 0).value
      = .error .noRecordSelected ∧
    (twoGeneratorDriver.GenerateEvent 3 unphysicalThenNoRecord 0).attempts = 0 + 1 + 1 ∧
    (twoGeneratorDriver.GenerateEvent 3 unphysicalThenNoRecord 0).driver.fNRecLevel
      = twoGeneratorDriver.fNRecLevel + 1 :=
  have h := (GenerateEvent_fatal_no_retry 3 unphysicalThenNoRecord twoGeneratorDriver 0 1 rfl
    (fun _ => rfl) (fun _ => by decide)
    (fun j hj => ⟨unphysicalRecord, by simp [unphysicalThenNoRecord, hj], rfl⟩)).1 rfl
  ⟨h.1, h.2.1, h.2.2.1⟩

/-- C16: with filtering on and the counter at 0, if the first `k - 1` passes yield
unphysical records and the `k`-th pass yields a physical one, with 1 ≤ k ≤ maxDepth, then
`GenerateEvent` returns the record of the `k`-th pass after exactly `k` passes, with the
counter at 0 and that record as the current record. -/
theorem GenerateEvent_kth_pass_returned (maxDepth : Nat) (w : Nat → Attempt) (d : GEVGDriver)
    (k : Nat) (r : EventRecord) (hc : d.CanGenerate = true)
    (hf : d.fFilterUnphysical = true) (h0 : d.fNRecLevel = 0) (hk1 : 1 ≤ k)
    (hk2 : k ≤ maxDepth)
    (hpre : ∀ j, j < k - 1 → ∃ r1, w j = .processed r1 ∧ r1.IsUnphysical = true)
    (hw : w (k - 1) = .processed r) (hu : r.IsUnphysical = false) :
    (d.GenerateEvent maxDepth w 0).value = .ok r ∧
    (d.GenerateEvent maxDepth w 0).attempts = k ∧
    (d.GenerateEvent maxDepth w 0).driver.fNRecLevel = 0 ∧
    (d.GenerateEvent maxDepth w 0).driver.fCurrentRecord = some r := by
  have h := GenerateEvent_retry_then_physical maxDepth w (k - 1) d 0 r hc hf
    (fun j hj => by simpa using hpre j hj) (by simpa using hw) hu (by omega)
  rw [h]
  refine ⟨rfl, ?_, rfl, rfl⟩
  simp only
  omega

/-- Witness of C16: two unphysical passes, the third physical, `maxDepth = 3`. -/
theorem GenerateEvent_kth_pass_returned_witness :
    (twoGeneratorDriver.GenerateEvent 3 twoUnphysicalThenPhysical 0).value
      = .ok physicalRecord ∧
    (twoGeneratorDriver.GenerateEvent 3 twoUnphysicalThenPhysical 0).attempts = 3 ∧
    (twoGeneratorDriver.GenerateEvent 3 twoUnphysicalThenPhysical 0).driver.fNRecLevel = 0 :=
  have h := GenerateEvent_kth_pass_returned 3 twoUnphysicalThenPhysical twoGeneratorDriver 3
    physicalRecord rfl rfl rfl (by decide) (by decide)
    (fun j hj => ⟨unphysicalRecord, by simp [twoUnphysicalThenPhysical, hj], rfl⟩) rfl rfl
  ⟨h.1, h.2.1, h.2.2.1⟩

/-! ## Cross-section sum: sign, purity and the guard on spline evaluation -/

/-- C15, as stated, fails: the driver sums whatever the algorithms return; configured with
one generator whose algorithm returns -1, `XSecSum` returns -1. -/
theorem XSecSum_negative :
    negGeneratorDriver.fXSecAlgorithmMap
      = some (XSecAlgorithmMap.BuildMap [negGenerator] numuFe56) ∧
    negGeneratorDriver.XSecSum firstKnotValue emptySplineList probeAt2 = .ok (-1) ∧
    ¬ ((0 : ℚ) ≤ -1) := by
  refine ⟨rfl, ?_, by norm_num⟩
  rw [XSecSum_eq firstKnotValue emptySplineList negGeneratorDriver _ probeAt2 rfl
    (BuildMap_Complete [negGenerator] numuFe56)]
  simp [specXSecSum, XSecAlgorithmMap.BuildMap, XSecAlgorithmMap.addGenerator,
    XSecAlgorithmMap.insert, XSecAlgorithmMap.GetInteractionList,
    XSecAlgorithmMap.FindXSecAlgorithm, negGenerator, Interaction.AsString, List.lookup,
    specInteractionXSec, XSecSplineList.GetSpline, emptySplineList, negXSec]

/-- C15, amended: for a driver whose map was built by `BuildMap`, any spline list, either
value of `fUseSplines` and any probe 4-momentum, if each per-interaction cross section
entering the sum (the spline value where a spline is used, the direct value of the
algorithm otherwise) is non-negative, then `XSecSum` returns a non-negative value. -/
theorem XSecSum_nonneg_of_terms (Evaluate : Spline → ℚ → ℚ) (xssl : XSecSplineList)
    (d : GEVGDriver) (evgl : List EventGeneratorI) (init : InitialState) (p : TLorentzVector)
    (hm : d.fXSecAlgorithmMap = some (XSecAlgorithmMap.BuildMap evgl init))
    (hterm : ∀ i ∈ (XSecAlgorithmMap.BuildMap evgl init).GetInteractionList, ∀ a,
      (XSecAlgorithmMap.BuildMap evgl init).FindXSecAlgorithm i = some a →
      0 ≤ specInteractionXSec Evaluate xssl d.fUseSplines a i p) :
    ∃ v, d.XSecSum Evaluate xssl p = .ok v ∧ 0 ≤ v := by
  refine ⟨_, XSecSum_eq Evaluate xssl d _ p hm (BuildMap_Complete evgl init), ?_⟩
  unfold specXSecSum
  apply List.sum_nonneg
  intro x hx
  obtain ⟨i, hi, rfl⟩ := List.mem_map.mp hx
  cases hf : (XSecAlgorithmMap.BuildMap evgl init).FindXSecAlgorithm i with
  | none => exact le_refl _
  | some a => exact hterm i hi a hf

/-- Witness of C15 amended: the two sample algorithms return 2 and 3 · E ≥ 0 at E = 2. -/
theorem XSecSum_nonneg_of_terms_witness :
    ∃ v, twoGeneratorDriver.XSecSum firstKnotValue emptySplineList probeAt2 = .ok v ∧ 0 ≤ v := by
  apply XSecSum_nonneg_of_terms firstKnotValue emptySplineList twoGeneratorDriver
    [qelGenerator, disGenerator] numuFe56 probeAt2 rfl
  intro i hi a ha
  have hl : (XSecAlgorithmMap.BuildMap [qelGenerator, disGenerator] numuFe56).GetInteractionList
      = [⟨"QES", numuFe56⟩, ⟨"DIS", numuFe56⟩] := rfl
  rw [hl] at hi
  simp only [List.mem_cons, List.mem_singleton, List.not_mem_nil, or_false] at hi
  rcases hi with rfl | rfl
  · have : a = qelXSec := by
      have h1 : (XSecAlgorithmMap.BuildMap [qelGenerator, disGenerator]
        numuFe56).FindXSecAlgorithm ⟨"QES", numuFe56⟩ = some qelXSec := rfl
      rw [h1] at ha
      exact (Option.some.inj ha).symm
    subst this
    simp [specInteractionXSec, XSecSplineList.GetSpline, emptySplineList, qelXSec]
  · have : a = disXSec := by
      have h1 : (XSecAlgorithmMap.BuildMap [qelGenerator, disGenerator]
        numuFe56).FindXSecAlgorithm ⟨"DIS", numuFe56⟩ = some disXSec := rfl
      rw [h1] at ha
      exact (Option.some.inj ha).symm
    subst this
    simp [specInteractionXSec, XSecSplineList.GetSpline, emptySplineList, disXSec,
      Interaction.SetProbeP4, InitialState.SetProbeP4, probeAt2]

/-- The loop of `XSecSum` never dereferences an absent spline. -/
theorem XSecSumLoop_ne_nullPointer (Evaluate : Spline → ℚ → ℚ) (xssl : XSecSplineList)
    (m : XSecAlgorithmMap) (useSplines : Bool) (p : TLorentzVector) :
    ∀ (l : List Interaction) (acc : ℚ),
      GEVGDriver.XSecSumLoop Evaluate xssl m useSplines p l acc ≠ .error .nullPointer := by
  intro l
  induction l with
  | nil => intro acc h; simp [GEVGDriver.XSecSumLoop] at h
  | cons i rest ih =>
    intro acc h
    simp only [GEVGDriver.XSecSumLoop] at h
    split at h
    · cases h
    · rename_i a ha
      cases hs : xssl.GetSpline a (i.SetProbeP4 p) with
      | none =>
        simp only [XSecSplineList.SplineExists, hs, Option.isSome_none, Bool.false_and,
          Bool.false_eq_true, if_false] at h
        exact ih _ h
      | some spl =>
        cases useSplines with
        | false =>
          simp only [Bool.and_false, Bool.false_eq_true, if_false] at h
          exact ih _ h
        | true =>
          simp only [XSecSplineList.SplineExists, hs, Option.isSome_some, Bool.and_true,
            if_true] at h
          exact ih _ h

/-- C20: `XSecSum` never evaluates a spline that is absent from the list: whatever the
flag and the spline list, on a driver with a map the abort of dereferencing an absent
spline does not occur; for a pair without a spline the term of the sum is the direct
value of the algorithm, and on a complete map the sum is returned. -/
theorem XSecSum_never_absent_spline (Evaluate : Spline → ℚ → ℚ) (xssl : XSecSplineList)
    (d : GEVGDriver) (m : XSecAlgorithmMap) (p : TLorentzVector)
    (hm : d.fXSecAlgorithmMap = some m) :
    d.XSecSum Evaluate xssl p ≠ .error .nullPointer ∧
    (∀ a i, xssl.SplineExists a i = false →
      specInteractionXSec Evaluate xssl d.fUseSplines a i p = a.XSec (i.SetProbeP4 p)) ∧
    (m.Complete → d.XSecSum Evaluate xssl p
      = .ok (specXSecSum Evaluate xssl m d.fUseSplines p)) := by
  refine ⟨?_, ?_, fun hc => XSecSum_eq Evaluate xssl d m p hm hc⟩
  · unfold GEVGDriver.XSecSum
    rw [hm]
    exact XSecSumLoop_ne_nullPointer Evaluate xssl m d.fUseSplines p _ 0
  · intro a i hs
    have hn : xssl.GetSpline a i = none := by
      simpa [XSecSplineList.SplineExists] using hs
    unfold specInteractionXSec
    rw [hn]
    cases d.fUseSplines <;> rfl

/-- Witness of C20: splines in use, a spline cached for the first interaction only: the
sum is returned, with the direct value for the second interaction. -/
theorem XSecSum_never_absent_spline_witness :
    splineDriver.XSecSum firstKnotValue qelOnlySplineList probeAt2 ≠ .error .nullPointer ∧
    specInteractionXSec firstKnotValue qelOnlySplineList splineDriver.fUseSplines disXSec
      ⟨"DIS", numuFe56⟩ probeAt2 = disXSec.XSec (Interaction.SetProbeP4 ⟨"DIS", numuFe56⟩ probeAt2) :=
  have h := XSecSum_never_absent_spline firstKnotValue qelOnlySplineList splineDriver
    (XSecAlgorithmMap.BuildMap [qelGenerator, disGenerator] numuFe56) probeAt2 rfl
  ⟨h.1, h.2.1 disXSec ⟨"DIS", numuFe56⟩ rfl⟩

/-! ## Rounding to double precision -/

/-- The leading-bit loop brackets `n` between two consecutive powers of two. -/
theorem log2Fuel_spec : ∀ (fuel n : Nat), 0 < n → n ≤ fuel →
    2 ^ log2Fuel fuel n ≤ n ∧ n < 2 ^ (log2Fuel fuel n + 1) := by
  intro fuel
  induction fuel with
  | zero => intro n h0 h; omega
  | succ fuel ih =>
    intro n h0 h
    simp only [log2Fuel]
    split
    · rename_i h2
      simp
      omega
    · rename_i h2
      obtain ⟨h3, h4⟩ := ih (n / 2) (by omega) (by omega)
      constructor
      · rw [pow_succ]; omega
      · rw [pow_succ]; omega

/-- The leading bit of a positive natural number. -/
theorem ilog2_spec (n : Nat) (h : 0 < n) : 2 ^ ilog2 n ≤ n ∧ n < 2 ^ (ilog2 n + 1) :=
  log2Fuel_spec n n h le_rfl

/-- The binary exponent of a positive rational brackets it between two consecutive powers
of two. -/
theorem binaryExponent_spec (x : ℚ) (hx : 0 < x) :
    (2 : ℚ) ^ binaryExponent x ≤ x ∧ x < (2 : ℚ) ^ (binaryExponent x + 1) := by
  have hnum : 0 < x.num := Rat.num_pos.mpr hx
  have hn : 0 < x.num.toNat := by omega
  obtain ⟨n1, n2⟩ := ilog2_spec x.num.toNat hn
  obtain ⟨d1, d2⟩ := ilog2_spec x.den x.den_pos
  have hxe : x = (x.num.toNat : ℚ) / (x.den : ℚ) := by
    have h1 : ((x.num.toNat : Nat) : Int) = x.num := Int.toNat_of_nonneg hnum.le
    have h2 : ((x.num.toNat : Nat) : ℚ) = (x.num : ℚ) := by
      rw [← Int.cast_natCast, h1]
    rw [h2]
    exact (Rat.num_div_den x).symm
  have hd : (0 : ℚ) < (x.den : ℚ) := by exact_mod_cast x.den_pos
  have n1q : (2 : ℚ) ^ ilog2 x.num.toNat ≤ (x.num.toNat : ℚ) := by exact_mod_cast n1
  have n2q : (x.num.toNat : ℚ) < (2 : ℚ) ^ (ilog2 x.num.toNat + 1) := by exact_mod_cast n2
  have d1q : (2 : ℚ) ^ ilog2 x.den ≤ (x.den : ℚ) := by exact_mod_cast d1
  have d2q : (x.den : ℚ) < (2 : ℚ) ^ (ilog2 x.den + 1) := by exact_mod_cast d2
  have hup : x < (2 : ℚ) ^ ((ilog2 x.num.toNat : Int) - (ilog2 x.den : Int) + 1) := by
    rw [show ((ilog2 x.num.toNat : Int) - (ilog2 x.den : Int) + 1)
      = ((ilog2 x.num.toNat + 1 : Nat) : Int) - ((ilog2 x.den : Nat) : Int) from by push_cast; ring]
    rw [zpow_sub₀ (by norm_num), zpow_natCast, zpow_natCast]
    have : (x.num.toNat : ℚ) / (x.den : ℚ)
        < (2 : ℚ) ^ (ilog2 x.num.toNat + 1) / (2 : ℚ) ^ ilog2 x.den := by
      rw [div_lt_div_iff₀ hd (by positivity)]
      calc (x.num.toNat : ℚ) * 2 ^ ilog2 x.den
          ≤ (x.num.toNat : ℚ) * x.den := by gcongr
        _ < 2 ^ (ilog2 x.num.toNat + 1) * x.den := by gcongr
    exact lt_of_eq_of_lt hxe this
  have hlo : (2 : ℚ) ^ ((ilog2 x.num.toNat : Int) - (ilog2 x.den : Int) - 1) ≤ x := by
    rw [show ((ilog2 x.num.toNat : Int) - (ilog2 x.den : Int) - 1)
      = ((ilog2 x.num.toNat : Nat) : Int) - ((ilog2 x.den + 1 : Nat) : Int) from by push_cast; ring]
    rw [zpow_sub₀ (by norm_num), zpow_natCast, zpow_natCast]
    have : (2 : ℚ) ^ ilog2 x.num.toNat / (2 : ℚ) ^ (ilog2 x.den + 1)
        ≤ (x.num.toNat : ℚ) / (x.den : ℚ) := by
      rw [div_le_div_iff₀ (by positivity) hd]
      calc (2 : ℚ) ^ ilog2 x.num.toNat * x.den
          ≤ (x.num.toNat : ℚ) * x.den := by gcongr
        _ ≤ (x.num.toNat : ℚ) * 2 ^ (ilog2 x.den + 1) := by gcongr
    exact le_of_le_of_eq this hxe.symm
  unfold binaryExponent
  dsimp only
  split
  · rename_i h
    exact ⟨h, hup⟩
  · rename_i h
    refine ⟨hlo, ?_⟩
    rw [sub_add_cancel]
    exact lt_of_not_le h

/-- The binary exponent does not decrease with its argument. -/
theorem binaryExponent_mono (x y : ℚ) (hx : 0 < x) (hxy : x ≤ y) :
    binaryExponent x ≤ binaryExponent y := by
  obtain ⟨a1, _⟩ := binaryExponent_spec x hx
  obtain ⟨_, b2⟩ := binaryExponent_spec y (lt_of_lt_of_le hx hxy)
  have h : (2 : ℚ) ^ binaryExponent x < (2 : ℚ) ^ (binaryExponent y + 1) :=
    lt_of_le_of_lt (le_trans a1 hxy) b2
  have h1 := (zpow_lt_zpow_iff_right₀ (by norm_num : (1 : ℚ) < 2)).mp h
  omega

/-- Rounding to an integer does not go below the floor. -/
theorem roundHalfEven_ge_floor (x : ℚ) : ⌊x⌋ ≤ roundHalfEven x := by
  unfold roundHalfEven
  split_ifs <;> omega

/-- Rounding to an integer does not go above the floor plus one. -/
theorem roundHalfEven_le_floor_succ (x : ℚ) : roundHalfEven x ≤ ⌊x⌋ + 1 := by
  unfold roundHalfEven
  split_ifs <;> omega

/-- Rounding to an integer is monotone. -/
theorem roundHalfEven_mono (x y : ℚ) (hxy : x ≤ y) : roundHalfEven x ≤ roundHalfEven y := by
  rcases lt_or_eq_of_le (Int.floor_mono hxy) with hlt | heq
  · calc roundHalfEven x ≤ ⌊x⌋ + 1 := roundHalfEven_le_floor_succ x
      _ ≤ ⌊y⌋ := hlt
      _ ≤ roundHalfEven y := roundHalfEven_ge_floor y
  · unfold roundHalfEven
    rw [← heq]
    have hxy2 : 2 * (x - (⌊x⌋ : Int)) ≤ 2 * (y - (⌊x⌋ : Int)) := by linarith
    split_ifs <;> first | omega | linarith

/-- Rounding to an integer leaves an integer as it is. -/
theorem roundHalfEven_intCast (n : Int) : roundHalfEven (n : ℚ) = n := by
  unfold roundHalfEven
  simp

/-- A power of two is on every grid of a finer or equal spacing. -/
theorem roundAt_pow (e k : Int) (hek : e ≤ k) :
    (roundHalfEven ((2 : ℚ) ^ k / (2 : ℚ) ^ e) : ℚ) * (2 : ℚ) ^ e = (2 : ℚ) ^ k := by
  obtain ⟨m, hm⟩ := Int.eq_ofNat_of_zero_le (show 0 ≤ k - e from by omega)
  have h1 : (2 : ℚ) ^ k / (2 : ℚ) ^ e = (((2 : Int) ^ m : Int) : ℚ) := by
    rw [← zpow_sub₀ (by norm_num), hm, zpow_natCast]
    push_cast
    rfl
  rw [h1, roundHalfEven_intCast, ← h1]
  field_simp

/-- Rounding of positive values is monotone. -/
theorem roundPos_mono (x y : ℚ) (hx : 0 < x) (hxy : x ≤ y) : roundPos x ≤ roundPos y := by
  have hy : 0 < y := lt_of_lt_of_le hx hxy
  have he := binaryExponent_mono x y hx hxy
  unfold roundPos
  rcases lt_or_eq_of_le he with hlt | heq
  · obtain ⟨_, a2⟩ := binaryExponent_spec x hx
    obtain ⟨b1, _⟩ := binaryExponent_spec y hy
    have hxk : x ≤ (2 : ℚ) ^ binaryExponent y :=
      le_trans a2.le (zpow_le_zpow_right₀ (by norm_num) (by omega))
    have hpx : (0 : ℚ) < (2 : ℚ) ^ (binaryExponent x - 52) := by positivity
    have hpy : (0 : ℚ) < (2 : ℚ) ^ (binaryExponent y - 52) := by positivity
    calc (roundHalfEven (x / (2 : ℚ) ^ (binaryExponent x - 52)) : ℚ)
            * (2 : ℚ) ^ (binaryExponent x - 52)
        ≤ (roundHalfEven ((2 : ℚ) ^ binaryExponent y / (2 : ℚ) ^ (binaryExponent x - 52)) : ℚ)
            * (2 : ℚ) ^ (binaryExponent x - 52) := by
          apply mul_le_mul_of_nonneg_right _ hpx.le
          exact_mod_cast roundHalfEven_mono _ _ (div_le_div_of_nonneg_right hxk hpx.le)
      _ = (2 : ℚ) ^ binaryExponent y := roundAt_pow _ _ (by omega)
      _ = (roundHalfEven ((2 : ℚ) ^ binaryExponent y / (2 : ℚ) ^ (binaryExponent y - 52)) : ℚ)
            * (2 : ℚ) ^ (binaryExponent y - 52) := (roundAt_pow _ _ (by omega)).symm
      _ ≤ _ := by
          apply mul_le_mul_of_nonneg_right _ hpy.le
          exact_mod_cast roundHalfEven_mono _ _ (div_le_div_of_nonneg_right b1 hpy.le)
  · rw [heq]
    have hpy : (0 : ℚ) < (2 : ℚ) ^ (binaryExponent y - 52) := by positivity
    apply mul_le_mul_of_nonneg_right _ hpy.le
    exact_mod_cast roundHalfEven_mono _ _ (div_le_div_of_nonneg_right hxy hpy.le)

/-- A positive value rounds to a value that is not negative. -/
theorem roundPos_nonneg (x : ℚ) (hx : 0 < x) : 0 ≤ roundPos x := by
  unfold roundPos
  apply mul_nonneg _ (by positivity)
  have h : roundHalfEven 0 ≤ roundHalfEven (x / (2 : ℚ) ^ (binaryExponent x - 52)) :=
    roundHalfEven_mono _ _ (by positivity)
  have h0 : roundHalfEven 0 = 0 := by simpa using roundHalfEven_intCast 0
  rw [h0] at h
  exact_mod_cast h

/-- Rounding to the nearest `double` is monotone. -/
theorem roundDouble_monotone : Monotone roundDouble := by
  intro x y hxy
  unfold roundDouble
  rcases lt_trichotomy x 0 with hx | hx | hx <;> rcases lt_trichotomy y 0 with hy | hy | hy
  · rw [if_neg hx.ne, if_neg (not_lt.mpr hx.le), if_neg hy.ne, if_neg (not_lt.mpr hy.le)]
    exact neg_le_neg (roundPos_mono _ _ (by linarith) (by linarith))
  · rw [if_neg hx.ne, if_neg (not_lt.mpr hx.le), if_pos hy]
    have := roundPos_nonneg (-x) (by linarith)
    linarith
  · rw [if_neg hx.ne, if_neg (not_lt.mpr hx.le), if_neg (ne_of_gt hy), if_pos hy]
    have := roundPos_nonneg (-x) (by linarith)
    have := roundPos_nonneg y hy
    linarith
  · linarith
  · rw [if_pos hx, if_pos hy]
  · rw [if_pos hx, if_neg (ne_of_gt hy), if_pos hy]
    exact roundPos_nonneg y hy
  · linarith
  · linarith
  · rw [if_neg (ne_of_gt hx), if_pos hx, if_neg (ne_of_gt hy), if_pos hy]
    exact roundPos_mono x y hx hxy

/-! ## The knots of the sum spline -/

/-- The energy of a knot with linear spacing: four rounded operations. -/
theorem knotEnergy_linear (Rnd Log Exp : ℚ → ℚ) (nk : Int) (Emin Emax : ℚ) (i : Nat) :
    knotEnergy Rnd Log Exp false nk Emin Emax i
      = Rnd (Emin + Rnd ((i : ℚ) * Rnd (Rnd (Emax - Emin) / ((nk : ℚ) - 1)))) := by
  simp only [knotEnergy, Bool.false_eq_true, if_false]
  push_cast
  rfl

/-- The energy of a knot with linear spacing when no operation rounds. -/
theorem knotEnergy_exact (Rnd Log Exp : ℚ → ℚ) (hR : ∀ x, Rnd x = x) (nk : Int)
    (Emin Emax : ℚ) (i : Nat) :
    knotEnergy Rnd Log Exp false nk Emin Emax i
      = Emin + (i : ℚ) * (Emax - Emin) / ((nk : ℚ) - 1) := by
  rw [knotEnergy_linear]
  simp only [hR]
  ring

/-- The first knot with linear spacing is at `Emin` when `Emin` is a `double`. -/
theorem knotEnergy_first (Rnd Log Exp : ℚ → ℚ) (h0 : Rnd 0 = 0) (nk : Int) (Emin Emax : ℚ)
    (hE : Rnd Emin = Emin) : knotEnergy Rnd Log Exp false nk Emin Emax 0 = Emin := by
  rw [knotEnergy_linear]
  simp [h0, hE]

/-- With a monotone rounding the knot energies with linear spacing do not decrease. -/
theorem knotEnergy_mono (Rnd Log Exp : ℚ → ℚ) (hm : Monotone Rnd) (h0 : Rnd 0 = 0) (nk : Int)
    (Emin Emax : ℚ) (hlt : Emin < Emax) (hnk : 2 < nk) (i j : Nat) (hij : i ≤ j) :
    knotEnergy Rnd Log Exp false nk Emin Emax i ≤ knotEnergy Rnd Log Exp false nk Emin Emax j := by
  rw [knotEnergy_linear, knotEnergy_linear]
  have hq : (0 : ℚ) < (nk : ℚ) - 1 := by
    have : (2 : ℚ) < (nk : ℚ) := by exact_mod_cast hnk
    linarith
  have h1 : 0 ≤ Rnd (Emax - Emin) := by
    have := hm (show (0 : ℚ) ≤ Emax - Emin from by linarith)
    rwa [h0] at this
  have h2 : 0 ≤ Rnd (Rnd (Emax - Emin) / ((nk : ℚ) - 1)) := by
    have := hm (show (0 : ℚ) ≤ Rnd (Emax - Emin) / ((nk : ℚ) - 1) from div_nonneg h1 hq.le)
    rwa [h0] at this
  have hij1 : (i : ℚ) ≤ (j : ℚ) := by exact_mod_cast hij
  apply hm
  have := hm (mul_le_mul_of_nonneg_right hij1 h2)
  linarith

/-- When `CreateXSecSumSpline` returns, its arguments passed the assertions and the
stored table has `nk` knots; knot `i` has the energy computed for it and the value of
`XSecSum` at the 4-momentum (0, 0, e, e). -/
theorem CreateXSecSumSpline_knots (Rnd Log Exp : ℚ → ℚ) (Evaluate : Spline → ℚ → ℚ)
    (xssl : XSecSplineList) (d d1 : GEVGDriver) (nk : Int) (Emin Emax : ℚ) (inlogE : Bool)
    (h : d.CreateXSecSumSpline Rnd Log Exp Evaluate xssl nk Emin Emax inlogE = .ok d1) :
    (Emin < Emax ∧ Emin > 0 ∧ nk > 2) ∧
    ∃ spl, d1.fXSecSumSpl = some spl ∧
      (spl.nknots : Int) = nk ∧ (spl.E.length : Int) = nk ∧ (spl.xsec.length : Int) = nk ∧
      ∀ i : Nat, (i : Int) < nk → ∃ v,
        spl.E[i]? = some (knotEnergy Rnd Log Exp inlogE nk Emin Emax i) ∧
        spl.xsec[i]? = some v ∧
        d.XSecSum Evaluate xssl
          ⟨0, 0, knotEnergy Rnd Log Exp inlogE nk Emin Emax i,
            knotEnergy Rnd Log Exp inlogE nk Emin Emax i⟩ = .ok v := by
  unfold GEVGDriver.CreateXSecSumSpline at h
  split at h
  · cases h
  · split at h
    · cases h
    · rename_i hcond
      rw [not_not] at hcond
      refine ⟨hcond, ?_⟩
      obtain ⟨hlt, hpos, hnk⟩ := hcond
      split at h
      · cases h
      · rename_i knots hk
        cases h
        obtain ⟨hlen, hall⟩ := XSecSumKnots_spec Rnd Log Exp Evaluate xssl d nk Emin Emax inlogE
          nk.toNat 0 knots hk
        have hnat : ((nk.toNat : Nat) : Int) = nk := Int.toNat_of_nonneg (by omega)
        refine ⟨_, rfl, hnat, by simp [hlen, hnat], by simp [hlen, hnat], ?_⟩
        intro i hi
        obtain ⟨v, hv1, hv2⟩ := hall i (by omega)
        rw [Nat.zero_add] at hv1 hv2
        exact ⟨v, by simp [hv1], by simp [hv1], hv2⟩

/-- `CreateXSecSumSpline` returns on a consistently configured driver with splines in use
and arguments that pass the assertions. -/
theorem CreateXSecSumSpline_returns (Rnd Log Exp : ℚ → ℚ) (Evaluate : Spline → ℚ → ℚ)
    (xssl : XSecSplineList) (d : GEVGDriver) (nk : Int) (Emin Emax : ℚ) (inlogE : Bool)
    (hwc : d.WellConfigured) (hu : d.fUseSplines = true)
    (hok : Emin < Emax ∧ Emin > 0 ∧ nk > 2) :
    ∃ d1, d.CreateXSecSumSpline Rnd Log Exp Evaluate xssl nk Emin Emax inlogE = .ok d1 := by
  obtain ⟨knots, hk⟩ := XSecSumKnots_returns Rnd Log Exp Evaluate xssl d nk Emin Emax inlogE
    (XSecSum_returns Evaluate xssl d hwc hu) nk.toNat 0
  refine ⟨{ d with
    fXSecSumSpl := some ⟨nk.toNat, knots.map Prod.fst, knots.map Prod.snd⟩ }, ?_⟩
  unfold GEVGDriver.CreateXSecSumSpline
  rw [if_neg (by simp [hu]), if_neg (not_not.mpr hok), hk]

/-- C17, counterexample: with the rounding of `double` arithmetic the last knot is not
`Emax` and the energies are not strictly increasing.  On the sample driver, 48 knots over
[1, 4] end at 4 - 2^-51 (3.9999999999999996), and of 3 knots over [10^16, 10^16 + 2] the
first two are both at 10^16. -/
theorem CreateXSecSumSpline_last_knot_not_Emax :
    (∃ d1 spl, splineDriver.CreateXSecSumSpline roundDouble id id firstKnotValue emptySplineList
        48 1 4 false = .ok d1 ∧ d1.fXSecSumSpl = some spl ∧
      spl.E[47]? = some (4 - 1 / 2 ^ 51) ∧ spl.E[(48 : Int).toNat - 1]? ≠ some 4) ∧
    (∃ d1 spl, splineDriver.CreateXSecSumSpline roundDouble id id firstKnotValue emptySplineList
        3 (10 ^ 16) (10 ^ 16 + 2) false = .ok d1 ∧ d1.fXSecSumSpl = some spl ∧
      spl.E[0]? = some (10 ^ 16) ∧ spl.E[1]? = some (10 ^ 16)) := by
  constructor
  · obtain ⟨d1, hd1⟩ := CreateXSecSumSpline_returns roundDouble id id firstKnotValue
      emptySplineList splineDriver 48 1 4 false sampleDrivers_WellConfigured.2 rfl (by norm_num)
    obtain ⟨_, spl, h1, _, _, _, hall⟩ := CreateXSecSumSpline_knots roundDouble id id
      firstKnotValue emptySplineList splineDriver d1 48 1 4 false hd1
    obtain ⟨v, hv, _⟩ := hall 47 (by norm_num)
    have hk : knotEnergy roundDouble id id false 48 1 4 47 = 4 - 1 / 2 ^ 51 := by decide!
    rw [hk] at hv
    refine ⟨d1, spl, hd1, h1, hv, ?_⟩
    rw [show (48 : Int).toNat - 1 = 47 from rfl, hv]
    norm_num
  · obtain ⟨d1, hd1⟩ := CreateXSecSumSpline_returns roundDouble id id firstKnotValue
      emptySplineList splineDriver 3 (10 ^ 16) (10 ^ 16 + 2) false
      sampleDrivers_WellConfigured.2 rfl (by norm_num)
    obtain ⟨_, spl, h1, _, _, _, hall⟩ := CreateXSecSumSpline_knots roundDouble id id
      firstKnotValue emptySplineList splineDriver d1 3 (10 ^ 16) (10 ^ 16 + 2) false hd1
    obtain ⟨v0, hv0, _⟩ := hall 0 (by norm_num)
    obtain ⟨v1, hv1, _⟩ := hall 1 (by norm_num)
    have hk0 : knotEnergy roundDouble id id false 3 (10 ^ 16) (10 ^ 16 + 2) 0 = 10 ^ 16 := by
      decide!
    have hk1 : knotEnergy roundDouble id id false 3 (10 ^ 16) (10 ^ 16 + 2) 1 = 10 ^ 16 := by
      decide!
    rw [hk0] at hv0
    rw [hk1] at hv1
    exact ⟨d1, spl, hd1, h1, hv0, hv1⟩

/-- C17, amended: when `CreateXSecSumSpline` returns with linear spacing, the stored
table has exactly `nk` knots; knot `i` has the energy E_i = Emin + i dE with
dE = (Emax - Emin) / (nk - 1), each of the four operations followed by the rounding
`Rnd`, and its value is `XSecSum` at the 4-momentum (0, 0, E_i, E_i).  If the rounding
keeps 0 and `Emin` (a `double`), E_0 = Emin; if it is moreover monotone, the energies do
not decrease.  Where no operation rounds, E_i = Emin + i (Emax - Emin) / (nk - 1),
E_(nk-1) = Emax and the energies increase strictly. -/
theorem CreateXSecSumSpline_rounded_knots (Rnd Log Exp : ℚ → ℚ) (Evaluate : Spline → ℚ → ℚ)
    (xssl : XSecSplineList) (d d1 : GEVGDriver) (nk : Int) (Emin Emax : ℚ)
    (h : d.CreateXSecSumSpline Rnd Log Exp Evaluate xssl nk Emin Emax false = .ok d1) :
    ∃ spl, d1.fXSecSumSpl = some spl ∧
      (spl.nknots : Int) = nk ∧ (spl.E.length : Int) = nk ∧ (spl.xsec.length : Int) = nk ∧
      (∀ i : Nat, (i : Int) < nk → ∃ e v,
        e = Rnd (Emin + Rnd ((i : ℚ) * Rnd (Rnd (Emax - Emin) / ((nk : ℚ) - 1)))) ∧
        spl.E[i]? = some e ∧ spl.xsec[i]? = some v ∧
        d.XSecSum Evaluate xssl ⟨0, 0, e, e⟩ = .ok v) ∧
      (Rnd 0 = 0 → Rnd Emin = Emin → spl.E[0]? = some Emin) ∧
      (Monotone Rnd → Rnd 0 = 0 → ∀ i j : Nat, i ≤ j → (j : Int) < nk →
        ∃ ei ej, spl.E[i]? = some ei ∧ spl.E[j]? = some ej ∧ ei ≤ ej) ∧
      ((∀ x, Rnd x = x) →
        (∀ i : Nat, (i : Int) < nk →
          spl.E[i]? = some (Emin + (i : ℚ) * (Emax - Emin) / ((nk : ℚ) - 1))) ∧
        spl.E[nk.toNat - 1]? = some Emax ∧
        (∀ i j : Nat, i < j → (j : Int) < nk →
          ∃ ei ej, spl.E[i]? = some ei ∧ spl.E[j]? = some ej ∧ ei < ej)) := by
  obtain ⟨⟨hlt, hpos, hnk⟩, spl, h1, h2, h3, h4, hall⟩ := CreateXSecSumSpline_knots Rnd Log Exp
    Evaluate xssl d d1 nk Emin Emax false h
  have hq : (0 : ℚ) < (nk : ℚ) - 1 := by
    have : (2 : ℚ) < (nk : ℚ) := by exact_mod_cast hnk
    linarith
  have hE : ∀ i : Nat, (i : Int) < nk →
      spl.E[i]? = some (knotEnergy Rnd Log Exp false nk Emin Emax i) := by
    intro i hi
    obtain ⟨v, hv, _⟩ := hall i hi
    exact hv
  refine ⟨spl, h1, h2, h3, h4, ?_, ?_, ?_, ?_⟩
  · intro i hi
    obtain ⟨v, hv1, hv2, hv3⟩ := hall i hi
    exact ⟨knotEnergy Rnd Log Exp false nk Emin Emax i, v,
      knotEnergy_linear Rnd Log Exp nk Emin Emax i, hv1, hv2, hv3⟩
  · intro h0 hEmin
    rw [hE 0 (by omega), knotEnergy_first Rnd Log Exp h0 nk Emin Emax hEmin]
  · intro hm h0 i j hij hj
    exact ⟨_, _, hE i (by omega), hE j hj,
      knotEnergy_mono Rnd Log Exp hm h0 nk Emin Emax hlt hnk i j hij⟩
  · intro hR
    have hEx : ∀ i : Nat, (i : Int) < nk →
        spl.E[i]? = some (Emin + (i : ℚ) * (Emax - Emin) / ((nk : ℚ) - 1)) := by
      intro i hi
      rw [hE i hi, knotEnergy_exact Rnd Log Exp hR]
    refine ⟨hEx, ?_, ?_⟩
    · rw [hEx (nk.toNat - 1) (by omega)]
      congr 1
      have hc : ((nk.toNat - 1 : Nat) : ℚ) = (nk : ℚ) - 1 := by
        have h5 : ((nk.toNat - 1 : Nat) : Int) = nk - 1 := by omega
        have h6 : (((nk.toNat - 1 : Nat) : Int) : ℚ) = ((nk - 1 : Int) : ℚ) := by rw [h5]
        push_cast at h6
        exact_mod_cast h6
      rw [hc]
      field_simp
    · intro i j hij hj
      refine ⟨_, _, hEx i (by omega), hEx j hj, ?_⟩
      have hij1 : (i : ℚ) < (j : ℚ) := by exact_mod_cast hij
      have hd : 0 < (Emax - Emin) / ((nk : ℚ) - 1) := div_pos (by linarith) hq
      have : (i : ℚ) * ((Emax - Emin) / ((nk : ℚ) - 1))
          < (j : ℚ) * ((Emax - Emin) / ((nk : ℚ) - 1)) :=
        mul_lt_mul_of_pos_right hij1 hd
      rw [mul_div_assoc, mul_div_assoc]
      linarith

/-- Witness of C17: three knots over [1, 5] on the sample driver with splines in use, in
`double` arithmetic: the first knot is at 1 and the energies do not decrease. -/
theorem CreateXSecSumSpline_rounded_knots_witness :
    ∃ d1 spl, splineDriver.CreateXSecSumSpline roundDouble id id firstKnotValue emptySplineList
        3 1 5 false = .ok d1 ∧ d1.fXSecSumSpl = some spl ∧ (spl.nknots : Int) = 3 ∧
      spl.E[0]? = some 1 ∧
      (∀ i j : Nat, i ≤ j → (j : Int) < 3 →
        ∃ ei ej, spl.E[i]? = some ei ∧ spl.E[j]? = some ej ∧ ei ≤ ej) := by
  obtain ⟨d1, hd1⟩ := CreateXSecSumSpline_returns roundDouble id id firstKnotValue
    emptySplineList splineDriver 3 1 5 false sampleDrivers_WellConfigured.2 rfl (by norm_num)
  have h0 : roundDouble 0 = 0 := by decide!
  have hone : roundDouble 1 = 1 := by decide!
  obtain ⟨spl, h1, h2, _, _, _, h6, h7, _⟩ := CreateXSecSumSpline_rounded_knots roundDouble id id
    firstKnotValue emptySplineList splineDriver d1 3 1 5 hd1
  exact ⟨d1, spl, hd1, h1, h2, h6 h0 hone, h7 roundDouble_monotone h0⟩

/-- The loop of `XSecSum` sets the probe 4-momentum on its own copy of each interaction:
its result does not depend on the probe 4-momentum that the listed interactions carry. -/
theorem XSecSumLoop_stored_momentum (Evaluate : Spline → ℚ → ℚ) (xssl : XSecSplineList)
    (m : XSecAlgorithmMap) (useSplines : Bool) (p q : TLorentzVector) :
    ∀ (l : List Interaction) (acc : ℚ),
      GEVGDriver.XSecSumLoop Evaluate xssl m useSplines p (l.map (fun i => i.SetProbeP4 q)) acc
        = GEVGDriver.XSecSumLoop Evaluate xssl m useSplines p l acc := by
  intro l
  induction l with
  | nil => intro acc; rfl
  | cons i rest ih =>
    intro acc
    have hcopy : (i.SetProbeP4 q).SetProbeP4 p = i.SetProbeP4 p := rfl
    simp only [List.map_cons, GEVGDriver.XSecSumLoop, hcopy, ih]

/-! ## Cross-section sum: effect on the memory -/

/-- Writing at the address of the last object. -/
theorem set_append_last (l : List (Option Interaction)) (x y : Option Interaction) :
    (l ++ [x]).set l.length y = l ++ [y] := by
  induction l with
  | nil => rfl
  | cons a l ih => simp [List.set, ih]

/-- One iteration of the loop of `XSecSum` on the memory: the stored object is copied, the
copy gets the probe 4-momentum, is evaluated and is deleted; the heap keeps every object
it had and gains one deleted cell. -/
theorem Memory_XSecSumLoop_cons (Evaluate : Spline → ℚ → ℚ) (p : TLorentzVector)
    (a : Nat) (rest : List Nat) (mem : Memory) (acc : ℚ) (m : XSecAlgorithmMap)
    (stored : Interaction) (hm : mem.driver.fXSecAlgorithmMap = some m)
    (ha : mem.heap[a]? = some (some stored)) :
    Memory.XSecSumLoop Evaluate p (a :: rest) mem acc =
      match m.FindXSecAlgorithm (stored.SetProbeP4 p) with
      | none => .error .noXSecAlgorithm
      | some xsec_alg =>
        if mem.xssl.SplineExists xsec_alg (stored.SetProbeP4 p) && mem.driver.fUseSplines then
          match mem.xssl.GetSpline xsec_alg (stored.SetProbeP4 p) with
          | none => .error .nullPointer
          | some spl =>
            Memory.XSecSumLoop Evaluate p rest { mem with heap := mem.heap ++ [none] }
              (acc + Evaluate spl p.Energy)
        else
          Memory.XSecSumLoop Evaluate p rest { mem with heap := mem.heap ++ [none] }
            (acc + xsec_alg.XSec (stored.SetProbeP4 p)) := by
  simp only [Memory.XSecSumLoop, Memory.deref, Memory.alloc, Memory.store, Memory.free, ha,
    List.getElem?_concat_length, set_append_last, hm]

/-- An object of the heap is still there after cells are appended. -/
theorem getElem?_append_of_some (l l1 : List (Option Interaction)) (a : Nat)
    (x : Option Interaction) (h : l[a]? = some x) : (l ++ l1)[a]? = some x := by
  obtain ⟨hlt, _⟩ := List.getElem?_eq_some.1 h
  rw [List.getElem?_append_left hlt, h]

/-- The loop of `XSecSum` on the memory, over pointers to stored objects `ls`: it fails as
the loop over the values `ls` fails, and returns the same sum, in a memory where the
driver, the spline list and every object of the heap are as before, and where each copy
that the loop made has been deleted. -/
theorem Memory_XSecSumLoop_eq (Evaluate : Spline → ℚ → ℚ) (p : TLorentzVector)
    (m : XSecAlgorithmMap) :
    ∀ (l : List Nat) (ls : List Interaction) (mem : Memory) (acc : ℚ),
      mem.driver.fXSecAlgorithmMap = some m →
      List.Forall₂ (fun a o => mem.heap[a]? = some (some o)) l ls →
      Memory.XSecSumLoop Evaluate p l mem acc =
        match GEVGDriver.XSecSumLoop Evaluate mem.xssl m mem.driver.fUseSplines p ls acc with
        | .error e => .error e
        | .ok v => .ok ({ mem with heap := mem.heap ++ List.replicate l.length none }, v) := by
  intro l
  induction l with
  | nil =>
    intro ls mem acc _ hall
    cases hall
    simp [Memory.XSecSumLoop, GEVGDriver.XSecSumLoop]
  | cons a rest ih =>
    intro ls mem acc hm hall
    cases hall with
    | cons ha hrest =>
      rename_i o ls1
      have hrest1 : List.Forall₂
          (fun a o => ({ mem with heap := mem.heap ++ [none] } : Memory).heap[a]? = some (some o))
          rest ls1 :=
        hrest.imp (fun _ _ h => getElem?_append_of_some _ _ _ _ h)
      have hheap : mem.heap ++ [none] ++ List.replicate rest.length none
          = mem.heap ++ List.replicate (rest.length + 1) none := by
        rw [List.append_assoc, List.replicate_succ]
        rfl
      rw [Memory_XSecSumLoop_cons Evaluate p a rest mem acc m o hm ha]
      simp only [GEVGDriver.XSecSumLoop]
      cases hf : m.FindXSecAlgorithm (o.SetProbeP4 p) with
      | none => rfl
      | some xsec_alg =>
        simp only
        split
        · cases hg : mem.xssl.GetSpline xsec_alg (o.SetProbeP4 p) with
          | none => rfl
          | some spl =>
            simp only
            rw [ih ls1 { mem with heap := mem.heap ++ [none] } _ hm hrest1]
            simp only [hheap, List.length_cons]
        · rw [ih ls1 { mem with heap := mem.heap ++ [none] } _ hm hrest1]
          simp only [hheap, List.length_cons]

/-- The pointers of the interaction list refer to the objects of the list. -/
theorem forall₂_range_map_some (ls : List Interaction) :
    List.Forall₂ (fun a o => (ls.map some)[a]? = some (some o)) (List.range ls.length) ls := by
  rw [List.forall₂_iff_get]
  refine ⟨by simp, ?_⟩
  intro i h1 h2
  simp

/-- `XSecSum` on the memory of a driver: it fails as `XSecSum` fails, and returns the sum
that `XSecSum` returns, in a memory where the driver, the spline list and the objects of
the interaction list are as before and every copy made by the call has been deleted. -/
theorem Memory_XSecSum_eq (Evaluate : Spline → ℚ → ℚ) (xssl : XSecSplineList) (d : GEVGDriver)
    (p : TLorentzVector) :
    (Memory.ofDriver d xssl).XSecSum Evaluate p =
      match d.XSecSum Evaluate xssl p with
      | .error e => .error e
      | .ok v => .ok ({ (Memory.ofDriver d xssl) with
          heap := (Memory.ofDriver d xssl).heap
            ++ List.replicate (Memory.ofDriver d xssl).heap.length none }, v) := by
  unfold Memory.XSecSum GEVGDriver.XSecSum Memory.ofDriver
  cases hm : d.fXSecAlgorithmMap with
  | none => simp [hm]
  | some m =>
    simp only [hm]
    rw [Memory_XSecSumLoop_eq Evaluate p m _ m.GetInteractionList _ 0 hm
      (forall₂_range_map_some m.GetInteractionList)]
    simp

/-- C18: on a consistently configured driver with a map, `XSecSum` returns, and as a
transformer of the memory it leaves everything but its own copies as it was: the driver
(so the map, the flags `fUseSplines` and `fFilterUnphysical`, the depth counter and the
initial state), the spline list, and every object that the interaction list of the map
points to, probe 4-momentum included; the only writes of the loop go to the copy it
allocates at each iteration, and every copy has been deleted on return.  The sum returned
is the one of `XSecSum`. -/
theorem XSecSum_no_effect (Evaluate : Spline → ℚ → ℚ) (xssl : XSecSplineList) (d : GEVGDriver)
    (m : XSecAlgorithmMap) (p : TLorentzVector) (hwc : d.WellConfigured)
    (hm : d.fXSecAlgorithmMap = some m) :
    ∃ mem1 v, (Memory.ofDriver d xssl).XSecSum Evaluate p = .ok (mem1, v) ∧
      d.XSecSum Evaluate xssl p = .ok v ∧
      mem1.driver = d ∧ mem1.xssl = xssl ∧
      mem1.driver.fXSecAlgorithmMap = some m ∧
      mem1.driver.fUseSplines = d.fUseSplines ∧
      mem1.driver.fFilterUnphysical = d.fFilterUnphysical ∧
      mem1.driver.fNRecLevel = d.fNRecLevel ∧ mem1.driver.fInitState = d.fInitState ∧
      (∀ a, a < (Memory.ofDriver d xssl).heap.length →
        mem1.heap[a]? = (Memory.ofDriver d xssl).heap[a]?) ∧
      (∀ a (h : a < m.GetInteractionList.length),
        mem1.heap[a]? = some (some (m.GetInteractionList.get ⟨a, h⟩))) ∧
      (∀ a, m.GetInteractionList.length ≤ a → a < mem1.heap.length →
        mem1.heap[a]? = some none) := by
  obtain ⟨evgl, init, _, _, hmap⟩ := hwc (Or.inr (Or.inr (by simp [hm])))
  have hmeq : m = XSecAlgorithmMap.BuildMap evgl init := by
    rw [hm] at hmap
    exact Option.some.inj hmap
  have hv : d.XSecSum Evaluate xssl p = .ok (specXSecSum Evaluate xssl m d.fUseSplines p) :=
    XSecSum_eq Evaluate xssl d m p hm (hmeq ▸ BuildMap_Complete evgl init)
  have hrun := Memory_XSecSum_eq Evaluate xssl d p
  rw [hv] at hrun
  have hheap : (Memory.ofDriver d xssl).heap = m.GetInteractionList.map some := by
    simp [Memory.ofDriver, hm]
  have hdrv : (Memory.ofDriver d xssl).driver = d := by
    simp [Memory.ofDriver, hm]
  have hxs : (Memory.ofDriver d xssl).xssl = xssl := by
    simp [Memory.ofDriver, hm]
  refine ⟨_, _, hrun, hv, hdrv, hxs, ?_, ?_, ?_, ?_, ?_, ?_, ?_, ?_⟩
  · simp only [hdrv, hm]
  · simp only [hdrv]
  · simp only [hdrv]
  · simp only [hdrv]
  · simp only [hdrv]
  · intro a ha
    exact List.getElem?_append_left ha
  · intro a h
    simp only [hheap]
    rw [List.getElem?_append_left (by simpa using h)]
    simp [List.getElem?_eq_getElem h]
  · intro a h1 h2
    simp only [hheap, List.length_append, List.length_map, List.length_replicate] at h2 ⊢
    rw [List.getElem?_append_right (by simpa using h1)]
    rw [List.getElem?_replicate]
    simp only [List.length_map]
    rw [if_pos (by omega)]

/-- Witness of C18: the cross-section sum on the sample driver, whose interaction list
points to two objects: after the call both are as they were, with the probe 4-momentum
they had, and the two copies made by the call are deleted. -/
theorem XSecSum_no_effect_witness :
    ∃ mem1 v, (Memory.ofDriver splineDriver qelOnlySplineList).XSecSum firstKnotValue probeAt2
        = .ok (mem1, v) ∧
      mem1.driver = splineDriver ∧ mem1.xssl = qelOnlySplineList ∧
      mem1.heap = [some ⟨"QES", numuFe56⟩, some ⟨"DIS", numuFe56⟩, none, none] := by
  obtain ⟨mem1, v, h1, _, h3, h4, _⟩ :=
    XSecSum_no_effect firstKnotValue qelOnlySplineList splineDriver
      (XSecAlgorithmMap.BuildMap [qelGenerator, disGenerator] numuFe56) probeAt2
      sampleDrivers_WellConfigured.2 rfl
  refine ⟨mem1, v, h1, h3, h4, ?_⟩
  have hrun := Memory_XSecSum_eq firstKnotValue qelOnlySplineList splineDriver probeAt2
  rw [h1] at hrun
  split at hrun
  · cases hrun
  · cases hrun
    rfl

/-! ## Splines complete while in use -/

/-- When the spline list holds a spline for every interaction that a generator yields,
every interaction of the map built from the generators has a spline for its algorithm. -/
theorem BuildMap_splines_of_yields (xsl : XSecSplineList) (evgl : List EventGeneratorI)
    (init : InitialState)
    (hall : ∀ g ∈ evgl, ∀ c, Yields init g c →
      (xsl.fSplineMap.lookup (g.CrossSectionAlg.Id, c)).isSome = true) :
    ∀ i ∈ (XSecAlgorithmMap.BuildMap evgl init).GetInteractionList,
      ∃ a, (XSecAlgorithmMap.BuildMap evgl init).FindXSecAlgorithm i = some a ∧
        xsl.SplineExists a i = true := by
  intro i hi1
  obtain ⟨a, ha⟩ := BuildMap_Complete evgl init i hi1
  obtain ⟨g, hgm, hga, hy⟩ :=
    BuildMap_SourcedFrom evgl init (i.AsString, a) (lookup_mem _ _ _ ha)
  refine ⟨a, ha, ?_⟩
  have := hall g hgm i.AsString hy
  simp only at hga
  rw [← hga] at this
  exact this

/-- Splines complete in a list stay complete in a list that keeps its splines. -/
theorem SplinesLoaded_mono (d : GEVGDriver) (xsl xsl1 : XSecSplineList)
    (h : SplinesLoaded (d, xsl)) (hk : xsl.KeptIn xsl1) : SplinesLoaded (d, xsl1) := by
  intro hu m hm i hi
  obtain ⟨a, ha, hs⟩ := h hu m hm i hi
  exact ⟨a, ha, KeptIn_isSome _ _ hk _ hs⟩

/-- Operations other than `Configure`, and `Configure` called with `fUseSplines` false,
keep the splines complete. -/
theorem Op_run_SplinesLoaded (maxDepth : Nat) (op : Op) (s s1 : GEVGDriver × XSecSplineList)
    (hwc : s.1.WellConfigured) (hP : SplinesLoaded s) (h : op.run maxDepth s = .ok s1)
    (hcfg : op.isConfigure = true → s.1.fUseSplines = false) : SplinesLoaded s1 := by
  cases op with
  | reset =>
    simp [Op.run] at h
    subst h
    intro hu
    simp [GEVGDriver.Reset, GEVGDriver.Init] at hu
  | filterUnphysical b => simp [Op.run] at h; subst h; exact hP
  | configure isNu isAntiNu evgl init =>
    simp only [Op.run] at h
    split at h
    · cases h
    · rename_i d hd
      cases h
      intro hu
      rw [Configure_frame isNu isAntiNu evgl _ _ init hd] at hu
      simp only [hcfg rfl] at hu
      cases hu
  | generateEvent w =>
    simp only [Op.run] at h
    split at h
    · cases h
    · cases h
      unfold SplinesLoaded
      rw [GenerateEvent_frame]
      exact hP
  | xsecSum ev p =>
    simp only [Op.run] at h
    split at h
    · cases h
    · cases h; exact hP
  | createXSecSumSpline rn lg ex ev nk Emin Emax inlogE =>
    simp only [Op.run] at h
    split at h
    · cases h
    · rename_i d hd
      cases h
      unfold SplinesLoaded
      rw [CreateXSecSumSpline_frame rn lg ex ev _ _ _ nk Emin Emax inlogE hd]
      exact hP
  | useSplines =>
    simp only [Op.run] at h
    split at h
    · cases h
    · rename_i d hd
      cases h
      have hfr := UseSplines_frame _ _ _ hd
      unfold GEVGDriver.UseSplines at hd
      simp only [if_true] at hd
      cases hm : s.1.fXSecAlgorithmMap with
      | none => simp [hm] at hd
      | some m =>
        obtain ⟨evgl, init, _, _, hbm⟩ := hwc (Or.inr (Or.inr (by rw [hm]; rfl)))
        rw [hm] at hbm
        cases hbm
        simp only [hm] at hd
        obtain ⟨d1, hd1, hiff⟩ := UseSplinesLoop_iff s.2 (XSecAlgorithmMap.BuildMap evgl init)
          (XSecAlgorithmMap.BuildMap evgl init).GetInteractionList
          { s.1 with fUseSplines := true } (BuildMap_Complete evgl init)
        simp only [hm] at hd1
        rw [hd] at hd1
        cases hd1
        intro hu m1 hm1 i hi
        rw [hfr] at hm1
        simp only [hm] at hm1
        cases hm1
        exact (hiff.mp hu).2 i hi
  | createSplines rn lg ex useLogE =>
    simp only [Op.run] at h
    split at h
    · cases h
    · rename_i r hr
      cases h
      have hfr := CreateSplines_frame rn lg ex _ _ useLogE r hr
      unfold GEVGDriver.CreateSplines at hr
      cases hl : s.1.fEvGenList with
      | none => simp [hl] at hr
      | some evgl0 =>
        obtain ⟨evgl, init, hl1, hi1, hbm⟩ := hwc (Or.inr (Or.inl (by rw [hl]; rfl)))
        rw [hl] at hl1
        cases hl1
        simp only [hl] at hr
        split at hr
        · cases hr
        · rename_i st hst
          cases hr
          obtain ⟨_, hall⟩ := CreateSplinesOuter_kept rn lg ex s.1 init hi1 evgl0 _ st hst
          intro _ m1 hm1 i hi
          rw [hfr] at hm1
          simp only [hbm] at hm1
          cases hm1
          exact BuildMap_splines_of_yields st.1 evgl0 init hall i hi
  | validEnergyRange =>
    simp only [Op.run] at h
    split at h
    · cases h
    · cases h; exact hP

/-- C19, as stated, fails: a driver configured for the muon neutrino, with `UseSplines`
accepted on a list holding the needed spline, satisfies the predicate; configured again
for the electron neutrino it keeps `fUseSplines` true while its new map holds an
interaction without a spline, though the spline list has not changed. -/
theorem Configure_breaks_SplinesLoaded :
    Op.runAll 3 [.configure isNuCode isAntiNuCode [flavourGenerator] numuFe56, .useSplines]
      (GEVGDriver.Init, numuSplineList) = .ok (flavourNumuDriver, numuSplineList) ∧
    SplinesLoaded (flavourNumuDriver, numuSplineList) ∧
    Op.run 3 (flavourNumuDriver, numuSplineList)
      (.configure isNuCode isAntiNuCode [flavourGenerator] nueFe56)
      = .ok (flavourNueDriver, numuSplineList) ∧
    ¬ SplinesLoaded (flavourNueDriver, numuSplineList) := by
  refine ⟨rfl, ?_, rfl, ?_⟩
  · intro _ m hm i hi
    have hm1 : flavourNumuDriver.fXSecAlgorithmMap
        = some (XSecAlgorithmMap.BuildMap [flavourGenerator] numuFe56) := rfl
    rw [hm1] at hm
    cases hm
    have hl : (XSecAlgorithmMap.BuildMap [flavourGenerator] numuFe56).GetInteractionList
        = [⟨"numu-QES", numuFe56⟩] := rfl
    rw [hl] at hi
    simp only [List.mem_singleton] at hi
    subst hi
    exact ⟨qelXSec, rfl, rfl⟩
  · intro hP
    obtain ⟨a, ha, hs⟩ := hP rfl (XSecAlgorithmMap.BuildMap [flavourGenerator] nueFe56) rfl
      ⟨"nue-QES", nueFe56⟩ (List.mem_singleton.mpr rfl)
    have h1 : (XSecAlgorithmMap.BuildMap [flavourGenerator] nueFe56).FindXSecAlgorithm
        ⟨"nue-QES", nueFe56⟩ = some qelXSec := rfl
    rw [h1] at ha
    cases ha
    revert hs
    decide

/-- C19, amended: the predicate "fUseSplines true implies every interaction of the current
map has a spline for its mapped algorithm" holds for a freshly initialised driver; it is
preserved by every returning public operation other than `Configure` (`UseSplines`,
`CreateSplines`, `XSecSum`, `CreateXSecSumSpline`, `GenerateEvent`, `FilterUnphysical`,
`Reset`, `ValidEnergyRange`), and by `Configure` when `fUseSplines` is false at the call;
and it is preserved when the spline list only gains splines. -/
theorem SplinesLoaded_invariant (maxDepth : Nat) :
    (∀ xsl, SplinesLoaded (GEVGDriver.Init, xsl)) ∧
    (∀ (op : Op) (s s1 : GEVGDriver × XSecSplineList), s.1.WellConfigured →
      SplinesLoaded s → op.run maxDepth s = .ok s1 →
      (op.isConfigure = true → s.1.fUseSplines = false) → SplinesLoaded s1) ∧
    (∀ d xsl xsl1, SplinesLoaded (d, xsl) → xsl.KeptIn xsl1 → SplinesLoaded (d, xsl1)) ∧
    (∀ (ops : List Op) (xsl : XSecSplineList) (s : GEVGDriver × XSecSplineList),
      Op.runAll maxDepth ops (GEVGDriver.Init, xsl) = .ok s → s.1.WellConfigured) := by
  refine ⟨?_, ?_, ?_, ?_⟩
  · intro xsl hu
    simp [GEVGDriver.Init] at hu
  · intro op s s1 hwc hP h hcfg
    exact Op_run_SplinesLoaded maxDepth op s s1 hwc hP h hcfg
  · intro d xsl xsl1 h hk
    exact SplinesLoaded_mono d xsl xsl1 h hk
  · intro ops xsl s h
    exact Op_runAll_WellConfigured maxDepth ops _ s Init_WellConfigured h

/-- Witness of C19 amended: `UseSplines` on the driver configured for the muon neutrino,
with the needed spline in the list, keeps the predicate. -/
theorem SplinesLoaded_invariant_witness :
    SplinesLoaded (flavourNumuDriver, numuSplineList) := by
  have hstart : SplinesLoaded ({ flavourNumuDriver with fUseSplines := false }, numuSplineList) := by
    intro hu
    cases hu
  have hwc : GEVGDriver.WellConfigured { flavourNumuDriver with fUseSplines := false } :=
    fun _ => ⟨[flavourGenerator], numuFe56, rfl, rfl, rfl⟩
  exact (SplinesLoaded_invariant 3).2.1 .useSplines
    ({ flavourNumuDriver with fUseSplines := false }, numuSplineList)
    (flavourNumuDriver, numuSplineList) hwc hstart rfl (fun h => by cases h)

/-! ## Valid energy range: bounds of the result -/

/-- A running minimum of floored values started at or above the floor stays at or above
the floor. -/
theorem foldl_min_floor_ge (l : List EventGeneratorI) :
    ∀ a : ℚ, (1 / 100 : ℚ) ≤ a →
      (1 / 100 : ℚ) ≤ l.foldl (fun m h => min m (max (1 / 100 : ℚ) h.Emin)) a := by
  induction l with
  | nil => intro a ha; exact ha
  | cons g gs ih =>
    intro a ha
    simp only [List.foldl_cons]
    exact ih _ (le_min ha (le_max_left _ _))

/-- The lower bound of the combined range lies between the floor 0.01 and the start
value 9999, whatever the generators declare. -/
theorem combinedRange_min_bounds (evgl : List EventGeneratorI) :
    (1 / 100 : ℚ) ≤ (GEVGDriver.combinedRange evgl).min ∧
    (GEVGDriver.combinedRange evgl).min ≤ 9999 := by
  unfold GEVGDriver.combinedRange
  rw [foldl_combineRange]
  exact ⟨foldl_min_floor_ge evgl 9999 (by norm_num),
    (foldl_min_le (fun h => max (1 / 100 : ℚ) h.Emin) evgl 9999).1⟩

/-- The range of the driver configured with the low-threshold generator. -/
theorem lowGeneratorDriver_range :
    lowGeneratorDriver.ValidEnergyRange = .ok ⟨1 / 100, 5⟩ := by
  have h1 : lowGeneratorDriver.fEvGenList = some [lowGenerator] := rfl
  unfold GEVGDriver.ValidEnergyRange
  rw [h1]
  simp only [combinedRange_cons, minFlooredEmin, maxDeclaredEmax, List.foldl_nil, lowGenerator]
  norm_num

/-- C21: whenever `ValidEnergyRange` returns, the range satisfies 0.01 ≤ min < max and
min ≤ 9999, whatever the generators declare; a generator declaring Emin at or below 0.01
(zero and negative included) contributes 0.01 to the minimum; the combined range never
has min < 0, so the call aborts exactly when min ≥ max. -/
theorem ValidEnergyRange_bounds (d : GEVGDriver) (evgl : List EventGeneratorI)
    (hl : d.fEvGenList = some evgl) :
    (∀ E, d.ValidEnergyRange = .ok E →
      (1 / 100 : ℚ) ≤ E.min ∧ E.min < E.max ∧ E.min ≤ 9999) ∧
    (∀ (E : Range1D_t) (g : EventGeneratorI), g.Emin ≤ 1 / 100 →
      (GEVGDriver.combineRange E g).min = min E.min (1 / 100)) ∧
    ¬ ((GEVGDriver.combinedRange evgl).min < 0) ∧
    (d.ValidEnergyRange = .error .badEnergyRange ↔
      (GEVGDriver.combinedRange evgl).min ≥ (GEVGDriver.combinedRange evgl).max) ∧
    (∀ e, d.ValidEnergyRange = .error e → e = .badEnergyRange) := by
  have hb := combinedRange_min_bounds evgl
  have hnn : (0 : ℚ) ≤ (GEVGDriver.combinedRange evgl).min :=
    le_trans (by norm_num) hb.1
  refine ⟨?_, ?_, not_lt.mpr hnn, ?_, ?_⟩
  · intro E hE
    unfold GEVGDriver.ValidEnergyRange at hE
    rw [hl] at hE
    simp only at hE
    split at hE
    · rename_i hc
      cases hE
      exact ⟨hb.1, hc.1, hb.2⟩
    · cases hE
  · intro E g hg
    simp only [GEVGDriver.combineRange, max_eq_left hg]
  · unfold GEVGDriver.ValidEnergyRange
    rw [hl]
    simp only
    constructor
    · intro h
      split at h
      · cases h
      · rename_i hc
        rw [not_and_or, not_lt, not_le] at hc
        rcases hc with hc | hc
        · exact hc
        · exact absurd hc (not_lt.mpr hnn)
    · intro h
      rw [if_neg]
      intro hc
      exact absurd hc.1 (not_lt.mpr h)
  · intro e he
    unfold GEVGDriver.ValidEnergyRange at he
    rw [hl] at he
    simp only at he
    split at he
    · cases he
    · cases he; rfl

/-- Witness of C21: a single generator declaring [0.001, 5] gives [0.01, 5]. -/
theorem ValidEnergyRange_bounds_witness :
    lowGeneratorDriver.ValidEnergyRange = .ok ⟨1 / 100, 5⟩ ∧
    (1 / 100 : ℚ) ≤ (⟨1 / 100, 5⟩ : Range1D_t).min ∧
    (⟨1 / 100, 5⟩ : Range1D_t).min < (⟨1 / 100, 5⟩ : Range1D_t).max ∧
    (⟨1 / 100, 5⟩ : Range1D_t).min ≤ 9999 :=
  ⟨lowGeneratorDriver_range,
    (ValidEnergyRange_bounds lowGeneratorDriver [lowGenerator] rfl).1 ⟨1 / 100, 5⟩
      lowGeneratorDriver_range⟩

/-! ## The default state -/

/-- C22: a newly constructed driver, and a driver after `Reset` from any state, is in one
and the same default state: `fFilterUnphysical` true, `fUseSplines` false, the counter 0,
and no initial state, generator list, map, chain, selector, current record or sum spline
(`Init` assigns every member, whatever `CleanUp` left); `FilterUnphysical(b)` then
changes only the flag `fFilterUnphysical`, setting it to `b`. -/
theorem Reset_default_state (d : GEVGDriver) (b : Bool) :
    d.Reset = GEVGDriver.Init ∧ d.CleanUp.InitMembers = GEVGDriver.Init ∧
    (GEVGDriver.Init.fFilterUnphysical = true ∧ GEVGDriver.Init.fUseSplines = false ∧
      GEVGDriver.Init.fNRecLevel = 0 ∧ GEVGDriver.Init.fInitState = none ∧
      GEVGDriver.Init.fEvGenList = none ∧ GEVGDriver.Init.fXSecAlgorithmMap = none ∧
      GEVGDriver.Init.fChain = none ∧ GEVGDriver.Init.fIntSelector = none ∧
      GEVGDriver.Init.fCurrentRecord = none ∧ GEVGDriver.Init.fXSecSumSpl = none) ∧
    d.Reset.FilterUnphysical b = { GEVGDriver.Init with fFilterUnphysical := b } ∧
    d.FilterUnphysical b = { d with fFilterUnphysical := b } ∧
    (d.FilterUnphysical b).fFilterUnphysical = b ∧
    (∀ maxDepth xsl, Op.run maxDepth (d, xsl) .reset = .ok (GEVGDriver.Init, xsl)) := by
  refine ⟨rfl, rfl, ⟨rfl, rfl, rfl, rfl, rfl, rfl, rfl, rfl, rfl, rfl⟩, rfl, rfl, rfl, ?_⟩
  intro maxDepth xsl
  rfl

end genie
